import Mathlib

/-! 5D chess notation engine: `src/parsers/game.js`

A shallow embedding of the `Game` / `Timeline` classes of `src/parsers/game.js`
and theorems about them.

Conventions of the embedding

* JavaScript numbers that hold coordinates, timeline indices, plies and piece
  codes are integers (`Int`); `!white` used as a number is `notWhite white`.
* A coordinate array `[l, t, x, y]` is the structure `Coord`.  An origin array
  shorter than four entries is treated by `play` exactly like the array padded
  with `-1` (`from.length < 4` enters the same block and `has_x` / `has_y`
  are false for the absent entries), so the embedding uses the padded form.
* A board (a JavaScript array of piece codes) is a `Board`: its elements, with
  `none` for a hole / `undefined`, the properties created by writes at negative
  indices, and a reference `ref` that stands for the identity of the array
  object (`source_board === target_board` compares references).
* `null` and `undefined` results are `none`.
* `play` mutates the game and the caller's `from` array and may throw; the
  embedding returns a `PlayResult` that carries the game (and `from`) as they
  are when the call returns or throws.
* Console output (`print`, `console.log`) is not part of the state.
* Board dimensions are natural numbers; `%` and `~~(_ / _)` of an array
  index by the width are the integer remainder and quotient, which is what
  the source computes when the width is positive (with width 0 the source
  computes `NaN` there, which the embedding does not represent).
* Numbers stay in the range where JavaScript arithmetic on integers is exact,
  and `String(n)` is the decimal form used by the default `sort()`.
-/

namespace FiveD

/-! ## Constants -/

namespace PIECES
def BLANK : Int := 0
def W_PAWN : Int := 1
def W_KNIGHT : Int := 2
def W_BISHOP : Int := 3
def W_ROOK : Int := 4
def W_QUEEN : Int := 5
def W_KING : Int := 6
def W_UNICORN : Int := 7
def W_DRAGON : Int := 8
def B_PAWN : Int := 11
def B_KNIGHT : Int := 12
def B_BISHOP : Int := 13
def B_ROOK : Int := 14
def B_QUEEN : Int := 15
def B_KING : Int := 16
def B_UNICORN : Int := 17
def B_DRAGON : Int := 18
def B_OFFSET : Int := 10
end PIECES

namespace MOVE_KIND
def MOVE : Nat := 0
def JUMP_OUT : Nat := 1
def JUMP_IN : Nat := 2
def CASTLE_SHORT : Nat := 3
def CASTLE_LONG : Nat := 4
end MOVE_KIND

/-! ## Data model -/

/-- A coordinate array `[l, t, x, y]`: timeline, turn, file, rank. -/
structure Coord where
  l : Int
  t : Int
  x : Int
  y : Int
deriving DecidableEq, Repr

/-- A board array.  `ref` is the identity of the array object, `cells` its
elements (`none` is a hole or `undefined`), `props` the properties set by
writes at negative indices (latest first). -/
structure Board where
  ref : Nat
  cells : List (Option Int)
  props : List (Int × Int)
deriving DecidableEq, Repr

/-- The object pushed by `record_move`. -/
structure MoveRecord where
  kind : Nat
  piece : Int
  from_ : Coord
  to_ : Coord
  white : Bool
  piece_taken : Option Int
deriving DecidableEq, Repr

/-- The fields of class `Timeline`. -/
structure Timeline where
  states : List Board
  index : Int
  width : Nat
  height : Nat
  begins_at : Int
  moves : List MoveRecord
  synthetic : Bool
  turn : Bool
deriving DecidableEq, Repr

/-- The fields of class `Game`; `next_ref` is the next unused array
reference. -/
structure Game where
  width : Nat
  height : Nat
  board_indices : List Int
  timelines : List Timeline
  moves : List MoveRecord
  next_ref : Nat
deriving DecidableEq, Repr

/-- The number a JavaScript `!white` contributes to a sum. -/
def notWhite (white : Bool) : Int := if white then 0 else 1

/-- Array read `xs[i]` for an integer `i`. -/
def jsAt {α : Type} (xs : List α) (i : Int) : Option α :=
  if i < 0 then none else xs[i.toNat]?

/-! ## Boards -/

/-- Read `board[i]`. -/
def Board.get (b : Board) (i : Int) : Option Int :=
  if i < 0 then b.props.lookup i else (jsAt b.cells i).join

/-- Write `board[i] = v`: inside the array it replaces the element, past the
end it grows the array with holes, at a negative index it sets a property. -/
def Board.set (b : Board) (i : Int) (v : Int) : Board :=
  if i < 0 then { b with props := (i, v) :: b.props }
  else if i.toNat < b.cells.length then { b with cells := b.cells.set i.toNat (some v) }
  else { b with cells := b.cells ++ List.replicate (i.toNat - b.cells.length) none ++ [some v] }

/-- The spread copy `[...board]`: a new array object with the same elements. -/
def Board.copy (b : Board) (ref : Nat) : Board :=
  { ref := ref, cells := b.cells, props := [] }

/-- The array `new Array(width * height).fill(PIECES.BLANK)`. -/
def Board.blank (width height : Nat) (ref : Nat) : Board :=
  { ref := ref, cells := List.replicate (width * height) (some PIECES.BLANK), props := [] }

/-! ## Timeline -/

/-- Timeline constructor (`begins_at` defaults to 2 in the source). -/
def Timeline.new (width height : Nat) (index : Int) (begins_at : Int) (ref : Nat) : Timeline :=
  { states := [Board.blank width height ref]
    index := index
    width := width
    height := height
    begins_at := begins_at
    moves := []
    synthetic := begins_at != 2
    turn := true }

/-- Method `active_player` (its first `return`). -/
def Timeline.active_player (tl : Timeline) : Bool := tl.turn

/-! ## Game: construction and queries -/

/-- The initial timelines, one per entry of `board_indices`, each with a
fresh blank board. -/
def Game.initial_timelines (width height : Nat) : Nat → List Int → List Timeline
  | _, [] => []
  | ref, index :: rest =>
    Timeline.new width height index 2 ref :: Game.initial_timelines width height (ref + 1) rest

/-- Game constructor. -/
def Game.new (width height : Nat) (board_indices : List Int) : Game :=
  { width := width
    height := height
    board_indices := board_indices
    timelines := Game.initial_timelines width height 0 board_indices
    moves := []
    next_ref := board_indices.length }

/-- The lookup `this.timelines.find(board => board.index === l)`. -/
def Game.find_timeline (g : Game) (l : Int) : Option Timeline :=
  g.timelines.find? (fun board => board.index == l)

/-- Method `get_board`. -/
def Game.get_board (g : Game) (l t : Int) : Option Board :=
  match g.find_timeline l with
  | none => none
  | some timeline => jsAt timeline.states (t - timeline.begins_at)

/-- Method `get_board_as`. -/
def Game.get_board_as (g : Game) (l t : Int) (white : Bool) : Option Board :=
  match g.find_timeline l with
  | none => none
  | some timeline => jsAt timeline.states (t * 2 + notWhite white - timeline.begins_at)

/-- Method `get`. -/
def Game.get (g : Game) (l t x y : Int) : Option Int :=
  match g.get_board l t with
  | none => none
  | some board => board.get (x + y * g.width)

/-- Method `get_as`. -/
def Game.get_as (g : Game) (l t x y : Int) (white : Bool) : Option Int :=
  match g.get_board_as l t white with
  | none => none
  | some board => board.get (x + y * g.width)

/-- Method `is_present`; `none` is the `null` of a missing timeline. -/
def Game.is_present (g : Game) (l t : Int) : Option Bool :=
  match g.find_timeline l with
  | none => none
  | some timeline => some (decide ((timeline.states.length : Int) - 1 = t - timeline.begins_at))

/-- Apply `f` to the first timeline whose index is `l` (the object that
`find` returns is mutated in place). -/
def update_first (l : Int) (f : Timeline → Timeline) : List Timeline → List Timeline
  | [] => []
  | timeline :: rest =>
    if timeline.index == l then f timeline :: rest else timeline :: update_first l f rest

/-- The two assignments of `push_board` on the timeline it found. -/
def Timeline.push_state (timeline : Timeline) (board : Board) : Timeline :=
  { timeline with states := timeline.states ++ [board], turn := !timeline.turn }

/-- The `timeline.moves.push(...)` of `record_move`. -/
def Timeline.push_move (timeline : Timeline) (record : MoveRecord) : Timeline :=
  { timeline with moves := timeline.moves ++ [record] }

/-- Method `push_board`: the game afterwards and the returned boolean. -/
def Game.push_board (g : Game) (l : Int) (board : Board) : Game × Bool :=
  match g.find_timeline l with
  | none => (g, false)
  | some _ =>
    ({ g with timelines := (update_first l (fun timeline => timeline.push_state board)
        g.timelines) }, true)

/-- Method `record_move`: the game afterwards and the returned boolean. -/
def Game.record_move (g : Game) (l : Int) (kind : Nat) (piece : Int) (from_ to_ : Coord)
    (white : Bool) (piece_taken : Option Int) : Game × Bool :=
  match g.find_timeline l with
  | none => (g, false)
  | some _ =>
    ({ g with timelines := (update_first l
        (fun timeline => timeline.push_move
          { kind := kind, piece := piece, from_ := from_, to_ := to_, white := white,
            piece_taken := piece_taken })
        g.timelines) }, true)

/-- The conversion `~~x` of an integer to a signed 32-bit integer. -/
def jsToInt32 (z : Int) : Int := (z + 2147483648) % 4294967296 - 2147483648

/-- Method `get_last_turn_in`: `~~((states.length + begins_at - 1) / 2)`
truncates the quotient towards zero. -/
def Game.get_last_turn_in (g : Game) (l : Int) : Option Int :=
  match g.find_timeline l with
  | none => none
  | some timeline =>
    some (jsToInt32 (Int.tdiv ((timeline.states.length : Int) + timeline.begins_at - 1) 2))

/-- Method `get_timeline`. -/
def Game.get_timeline (g : Game) (l : Int) : Option Timeline := g.find_timeline l

/-! ## The default `Array.prototype.sort`

Without a comparator `sort()` orders the elements by their string forms,
compared code unit by code unit. -/

/-- Decimal digits of a natural number as character codes, most significant
first (`fuel` bounds the number of digits). -/
def natCodesAux : Nat → Nat → List Nat → List Nat
  | 0, _, acc => acc
  | fuel + 1, n, acc =>
    if n / 10 = 0 then (48 + n % 10) :: acc
    else natCodesAux fuel (n / 10) ((48 + n % 10) :: acc)

/-- Character codes of `String(n)` for a natural number. -/
def natCodes (n : Nat) : List Nat := natCodesAux (n + 1) n []

/-- Character codes of `String(z)` for an integer (45 is the minus sign). -/
def jsStr (z : Int) : List Nat :=
  if z < 0 then 45 :: natCodes z.natAbs else natCodes z.natAbs

/-- Strict lexicographic order on code sequences. -/
def codesLt : List Nat → List Nat → Bool
  | [], [] => false
  | [], _ :: _ => true
  | _ :: _, [] => false
  | a :: as, b :: bs => a < b || (a == b && codesLt as bs)

/-- Insert `x` into a list ordered by string form, after the entries that
are not greater. -/
def jsInsert (x : Int) : List Int → List Int
  | [] => [x]
  | y :: ys => if codesLt (jsStr x) (jsStr y) then x :: y :: ys else y :: jsInsert x ys

/-- The result of `sort()` on an array of integers. -/
def jsSort (xs : List Int) : List Int := xs.foldl (fun acc x => jsInsert x acc) []

/-! ## Movement geometry -/

/-- The array `[to[0] - from[0], to[1] - from[1], to[2] - from[2], to[3] - from[3]]`. -/
def displacement (from_ to_ : Coord) : List Int :=
  [to_.l - from_.l, to_.t - from_.t, to_.x - from_.x, to_.y - from_.y]

/-- The array `a.map(x => Math.abs(x)).sort().reverse()`. -/
def sortedMagnitudes (from_ to_ : Coord) : List Int :=
  (jsSort ((displacement from_ to_).map (fun x => (x.natAbs : Int)))).reverse

/-- Method `path_clear`.  `length` is `Math.abs([...a].sort()[0])` and the
step is `a.map(x => x / length)`.  The loop body runs for
`n = 1 .. length - 1`, so the step is used only when `length >= 2`; the
quotient is then exact whenever `length` divides every component, which
holds on the n-gonal displacements the method is documented to assert (all
nonzero components of equal magnitude).  On other displacements the source
steps by fractions, which this embedding does not represent. -/
def Game.path_clear (g : Game) (from_ to_ : Coord) (white : Bool) : Bool :=
  let a := displacement from_ to_
  let length : Int := (((jsSort a).headD 0).natAbs : Int)
  (List.range' 1 (length.toNat - 1)).all (fun n =>
    g.get_as
      (from_.l + (to_.l - from_.l) / length * n)
      (from_.t + (to_.t - from_.t) / length * n)
      (from_.x + (to_.x - from_.x) / length * n)
      (from_.y + (to_.y - from_.y) / length * n)
      white == some PIECES.BLANK)

/-- Method `can_move`.  `none` is the `undefined` returned when no `case`
of the `switch` matches. -/
def Game.can_move (g : Game) (piece : Int) (from_ to_ : Coord) (white : Bool) : Option Bool :=
  if from_.l = to_.l ∧ from_.t = to_.t ∧ from_.x = to_.x ∧ from_.y = to_.y then some false
  else if piece = PIECES.W_PAWN then
    if g.get_as to_.l to_.t to_.x to_.y white != some PIECES.BLANK then
      some ((from_.l == to_.l
          && from_.t == to_.t
          && (from_.x == to_.x + 1 || from_.x == to_.x - 1)
          && from_.y == to_.y - 1)
        || (from_.l == to_.l - 1
          && from_.t == to_.t + 1
          && from_.x == to_.x
          && from_.y == to_.y))
    else
      some ((from_.l == to_.l
          && from_.t == to_.t
          && from_.x == to_.x
          && (from_.y == to_.y - 1
            || (from_.y == to_.y - 2
              && g.get_as to_.l to_.t to_.x (to_.y - 1) white == some PIECES.BLANK)))
        || (from_.l == to_.t - 1
          && from_.t == to_.t
          && from_.x == to_.x
          && from_.y == to_.y))
  else if piece = PIECES.B_PAWN then
    if g.get_as to_.l to_.t to_.x to_.y white != some PIECES.BLANK then
      some ((from_.l == to_.l
          && from_.t == to_.t
          && (from_.x == to_.x + 1 || from_.x == to_.x - 1)
          && from_.y == to_.y + 1)
        || (from_.l == to_.l + 1
          && from_.t == to_.t + 1
          && from_.x == to_.x
          && from_.y == to_.y))
    else
      some ((from_.l == to_.l
          && from_.t == to_.t
          && from_.x == to_.x
          && (from_.y == to_.y + 1
            || (from_.y == to_.y + 2
              && g.get_as to_.l to_.t to_.x (to_.y + 1) white == some PIECES.BLANK)))
        || (from_.l == to_.l + 1
          && from_.t == to_.t
          && from_.x == to_.x
          && from_.y == to_.y))
  else
    match sortedMagnitudes from_ to_ with
    | [a0, a1, a2, a3] =>
      if piece = PIECES.W_KNIGHT ∨ piece = PIECES.B_KNIGHT then
        some (a0 == 2 && a1 == 1 && a2 == 0 && a3 == 0)
      else if piece = PIECES.W_ROOK ∨ piece = PIECES.B_ROOK then
        some (a1 == 0 && a2 == 0 && a3 == 0 && g.path_clear from_ to_ white)
      else if piece = PIECES.W_BISHOP ∨ piece = PIECES.B_BISHOP then
        some (a0 == a1 && a2 == 0 && a3 == 0 && g.path_clear from_ to_ white)
      else if piece = PIECES.W_UNICORN ∨ piece = PIECES.B_UNICORN then
        some (a0 == a1 && a1 == a2 && a3 == 0 && g.path_clear from_ to_ white)
      else if piece = PIECES.W_DRAGON ∨ piece = PIECES.B_DRAGON then
        some (a0 == a1 && a1 == a2 && a2 == a3 && g.path_clear from_ to_ white)
      else if piece = PIECES.W_QUEEN ∨ piece = PIECES.B_QUEEN then
        some (((a1 == 0 && a2 == 0 && a3 == 0)
            || (a0 == a1 && a2 == 0 && a3 == 0)
            || (a0 == a1 && a1 == a2 && a3 == 0)
            || (a0 == a1 && a1 == a2 && a2 == a3))
          && g.path_clear from_ to_ white)
      else if piece = PIECES.W_KING ∨ piece = PIECES.B_KING then
        some ([a0, a1, a2, a3].all (fun x => decide (x < 2)))
      else none
    | _ => none

/-! ## Playing a move -/

/-- The sites at which `play` throws, in source order.  `ambiguous_move` is
the exit through the `candidates.length > 1` branch (its printing before
the `throw` is not modelled). -/
inductive PlayError
  | invalid_source_board
  | invalid_target_board
  | super_physical_disambiguation
  | ambiguous_move
  | no_valid_move
  | couldnt_push_board
deriving DecidableEq, Repr

/-- How a call of `play` ends: it returns `{from, to, piece_taken}` or it
throws; either way the game and the caller's `from` array are given as the
call leaves them. -/
inductive PlayResult
  | returned (g : Game) (from_ to_ : Coord) (piece_taken : Option Int)
  | threw (e : PlayError) (g : Game) (from_ : Coord)
deriving DecidableEq, Repr

/-- The `candidates` array of `play` after its filters: the entries
`[i, p]` of the source board with `p === piece`, narrowed by the given x
and y, then by `can_move`. -/
def Game.candidates (g : Game) (piece : Int) (source_board : Board) (from_ to_ : Coord)
    (white : Bool) : List (Nat × Option Int) :=
  let has_x := from_.x != -1
  let has_y := from_.y != -1
  let c0 := source_board.cells.enum.filter (fun ip => ip.2 == some piece)
  let c1 := if has_x then c0.filter (fun ip => ((ip.1 % g.width : Nat) : Int) == from_.x) else c0
  let c2 := if has_y then c1.filter (fun ip => ((ip.1 / g.width : Nat) : Int) == from_.y) else c1
  c2.filter (fun ip =>
    match ip.2 with
    | some p =>
      g.can_move p
        { l := from_.l, t := from_.t, x := ((ip.1 % g.width : Nat) : Int),
          y := ((ip.1 / g.width : Nat) : Int) }
        to_ white == some true
    | none => false)

/-- The block of `play` that re-determines a partially given origin: the
`from` array afterwards, or the error thrown. -/
def Game.resolve_origin (g : Game) (piece : Int) (source_board : Board) (from_ to_ : Coord)
    (white : Bool) : Except PlayError Coord :=
  if from_.x = -1 ∨ from_.y = -1 then
    if from_.l ≠ to_.l ∨ from_.t ≠ to_.t then .error .super_physical_disambiguation
    else
      let candidates := g.candidates piece source_board from_ to_ white
      if candidates.length > 1 then .error .ambiguous_move
      else
        match candidates with
        | [] => .error .no_valid_move
        | c :: _ =>
          .ok { from_ with x := ((c.1 % g.width : Nat) : Int), y := ((c.1 / g.width : Nat) : Int) }
  else .ok from_

/-- The loop of `play` that chooses the index of a new timeline. -/
def new_index (timelines : List Timeline) (white : Bool) : Int :=
  timelines.foldl
    (fun new_index timeline =>
      if white then
        (if timeline.index > new_index then timeline.index + 1 else new_index)
      else
        (if timeline.index < new_index then timeline.index - 1 else new_index))
    (if white then 1 else -1)

/-- The part of `play` after the origin is known: the three cases (same
board, jump to a present board, branch). -/
def Game.apply_move (g : Game) (piece : Int) (source_board target_board : Board)
    (from_ to_ : Coord) (white : Bool) : PlayResult :=
  let piece_taken := target_board.get (to_.x + to_.y * g.width)
  if source_board.ref = target_board.ref then
    let new_board := ((source_board.copy g.next_ref).set (from_.x + from_.y * g.width)
      PIECES.BLANK).set (to_.x + to_.y * g.width) piece
    let g1 := { g with next_ref := g.next_ref + 1 }
    match g1.push_board from_.l new_board with
    | (g2, false) => .threw .couldnt_push_board g2 from_
    | (g2, true) =>
      let g3 := (g2.record_move from_.l MOVE_KIND.MOVE piece from_ to_ white piece_taken).1
      .returned g3 from_ to_ piece_taken
  else if g.is_present to_.l (to_.t * 2 + notWhite white) = some true then
    let new_source_board := (source_board.copy g.next_ref).set (from_.x + from_.y * g.width)
      PIECES.BLANK
    let new_target_board := (target_board.copy (g.next_ref + 1)).set (to_.x + to_.y * g.width)
      piece
    let g1 := { g with next_ref := g.next_ref + 2 }
    match g1.push_board from_.l new_source_board with
    | (g2, false) => .threw .couldnt_push_board g2 from_
    | (g2, true) =>
      match g2.push_board to_.l new_target_board with
      | (g3, false) => .threw .couldnt_push_board g3 from_
      | (g3, true) =>
        let g4 := (g3.record_move from_.l MOVE_KIND.JUMP_OUT piece from_ to_ white piece_taken).1
        let g5 := (g4.record_move to_.l MOVE_KIND.JUMP_IN piece from_ to_ white piece_taken).1
        .returned g5 from_ to_ piece_taken
  else
    let new_source_board := (source_board.copy g.next_ref).set (from_.x + from_.y * g.width)
      PIECES.BLANK
    let new_target_board := (target_board.copy (g.next_ref + 1)).set (to_.x + to_.y * g.width)
      piece
    let g1 := { g with next_ref := g.next_ref + 2 }
    match g1.push_board from_.l new_source_board with
    | (g2, false) => .threw .couldnt_push_board g2 from_
    | (g2, true) =>
      let g3 := (g2.record_move from_.l MOVE_KIND.JUMP_OUT piece from_ to_ white piece_taken).1
      let new_index := new_index g3.timelines white
      let new_timeline : Timeline :=
        { Timeline.new g3.width g3.height new_index (to_.t * 2 + notWhite white + 1) g3.next_ref with
          turn := !white
          states := [new_target_board] }
      let g4 : Game :=
        { g3 with
          timelines := g3.timelines ++ [new_timeline]
          board_indices := g3.board_indices ++ [new_index]
          next_ref := g3.next_ref + 1 }
      let g5 := (g4.record_move new_index MOVE_KIND.JUMP_IN piece from_ to_ white piece_taken).1
      .returned g5 from_ to_ piece_taken

/-- Method `play`. -/
def Game.play (g : Game) (piece : Int) (from_ to_ : Coord) (white : Bool) : PlayResult :=
  match g.get_board from_.l (from_.t * 2 + notWhite white) with
  | none => .threw .invalid_source_board g from_
  | some source_board =>
    match g.get_board to_.l (to_.t * 2 + notWhite white) with
    | none => .threw .invalid_target_board g from_
    | some target_board =>
      match g.resolve_origin piece source_board from_ to_ white with
      | .error e => .threw e g from_
      | .ok from1 => g.apply_move piece source_board target_board from1 to_ white

/-! ## Castling and the timeline extent queries -/

/-- How a call of `castle` ends, with the game as the call leaves it. -/
inductive CastleResult
  | returned (g : Game)
  | threw (g : Game)
deriving DecidableEq, Repr

/-- Method `castle`: its body is the single `throw`. -/
def Game.castle (g : Game) (_piece : Int) (_from : Coord) (_long : Bool) (_white : Bool) :
    CastleResult :=
  .threw g

/-- A number that is a timeline index or one of `Infinity`, `-Infinity`. -/
inductive ExtInt
  | neg_infinity
  | finite (z : Int)
  | infinity
deriving DecidableEq, Repr

/-- The comparison `z < e` of an integer with such a number. -/
def ExtInt.int_lt (z : Int) : ExtInt → Bool
  | .neg_infinity => false
  | .finite w => decide (z < w)
  | .infinity => true

/-- The comparison `z > e` of an integer with such a number. -/
def ExtInt.int_gt (z : Int) : ExtInt → Bool
  | .neg_infinity => true
  | .finite w => decide (z > w)
  | .infinity => false

/-- Method `lowest_timeline`. -/
def Game.lowest_timeline (g : Game) : ExtInt :=
  g.timelines.foldl
    (fun index timeline =>
      if ExtInt.int_lt timeline.index index then .finite timeline.index else index)
    .infinity

/-- Method `highest_timeline`. -/
def Game.highest_timeline (g : Game) : ExtInt :=
  g.timelines.foldl
    (fun index timeline =>
      if ExtInt.int_gt timeline.index index then .finite timeline.index else index)
    .neg_infinity

/-- Method `lowest_active_timeline`; `white = none` is the default `null`. -/
def Game.lowest_active_timeline (g : Game) (white : Option Bool) : ExtInt :=
  g.timelines.foldl
    (fun index timeline =>
      if (some timeline.active_player == white || white == none)
          && ExtInt.int_lt timeline.index index then .finite timeline.index
      else index)
    g.highest_timeline

/-- Method `highest_active_timeline`; `white = none` is the default `null`. -/
def Game.highest_active_timeline (g : Game) (white : Option Bool) : ExtInt :=
  g.timelines.foldl
    (fun index timeline =>
      if (some timeline.active_player == white || white == none)
          && ExtInt.int_gt timeline.index index then .finite timeline.index
      else index)
    g.lowest_timeline

/-! ## Reading results and running several calls -/

/-- The game as a call of `play` leaves it, whether it returned or threw. -/
def PlayResult.game : PlayResult → Game
  | .returned g _ _ _ => g
  | .threw _ g _ => g

/-- The caller's `from` array as a call of `play` leaves it. -/
def PlayResult.origin : PlayResult → Coord
  | .returned _ from_ _ _ => from_
  | .threw _ _ from_ => from_

/-- Whether the call returned rather than threw. -/
def PlayResult.succeeded : PlayResult → Bool
  | .returned _ _ _ _ => true
  | .threw _ _ _ => false

/-- The arguments of one call of `play`. -/
structure PlayRequest where
  piece : Int
  from_ : Coord
  to_ : Coord
  white : Bool
deriving DecidableEq, Repr

/-- Run a sequence of `play` calls, each of which must return; `none` as
soon as one throws. -/
def Game.play_all (g : Game) : List PlayRequest → Option Game
  | [] => some g
  | r :: rest =>
    match g.play r.piece r.from_ r.to_ r.white with
    | .returned g1 _ _ _ => g1.play_all rest
    | .threw _ _ _ => none

/-- The candidate set of the partial-origin rule, in the words of the
specification: the square `(x, y)` of the source board holds exactly
`piece`, agrees with whichever of X / Y the request gave, and `can_move`
accepts the move from it to the destination. -/
def LegalOrigin (g : Game) (piece : Int) (source_board : Board) (from_ to_ : Coord)
    (white : Bool) (xy : Nat × Nat) : Prop :=
  xy.1 < g.width
  ∧ source_board.cells[xy.1 + xy.2 * g.width]? = some (some piece)
  ∧ (from_.x = -1 ∨ from_.x = (xy.1 : Int))
  ∧ (from_.y = -1 ∨ from_.y = (xy.2 : Int))
  ∧ g.can_move piece { l := from_.l, t := from_.t, x := (xy.1 : Int), y := (xy.2 : Int) }
      to_ white = some true

/-- The square `(x, y)` lies on the board of the game. -/
def Game.in_bounds (g : Game) (x y : Int) : Prop :=
  0 ≤ x ∧ x < g.width ∧ 0 ≤ y ∧ y < g.height

/-- Timeline `tl1` is timeline `tl` after some pushes: same index, same
`begins_at`, and the states of `tl` are the first states of `tl1`. -/
def Timeline.grown_from (tl1 tl : Timeline) : Prop :=
  tl1.index = tl.index ∧ tl1.begins_at = tl.begins_at ∧ ∃ more, tl1.states = tl.states ++ more

/-- The timeline list `after` keeps every timeline of `before`, in place
and grown, and may have further timelines behind them. -/
def timelines_grown (before after : List Timeline) : Prop :=
  ∃ kept added, after = kept ++ added ∧
    List.Forall₂ (fun tl tl1 => tl1.grown_from tl) before kept

/-- Call `push_board(l, board)` for each board of the list in turn. -/
def Game.push_all (g : Game) (l : Int) : List Board → Game
  | [] => g
  | board :: rest => Game.push_all (g.push_board l board).1 l rest

/-- The displacement has exactly `k` nonzero components and all its nonzero
components have the same absolute value. -/
def n_gonal (k : Nat) (from_ to_ : Coord) : Prop :=
  ((displacement from_ to_).filter (fun x => decide (x ≠ 0))).length = k
  ∧ ∀ a ∈ displacement from_ to_, ∀ b ∈ displacement from_ to_,
      a ≠ 0 → b ≠ 0 → a.natAbs = b.natAbs

/-- The four absolute displacement magnitudes, sorted in descending numeric
order. -/
def magnitudes_descending (from_ to_ : Coord) : List Int :=
  List.insertionSort (fun a b => b ≤ a)
    ((displacement from_ to_).map (fun x => (x.natAbs : Int)))

/-- One call made on a game: `push_board(l, board)` or `play(...)`. -/
inductive GameOp
  | push (l : Int) (board : Board)
  | play (request : PlayRequest)
deriving DecidableEq, Repr

/-- Run a sequence of `push_board` calls and `play` calls; every `play`
must return, `none` as soon as one throws. -/
def Game.run_ops (g : Game) : List GameOp → Option Game
  | [] => some g
  | .push l board :: rest => Game.run_ops (g.push_board l board).1 rest
  | .play r :: rest =>
    match g.play r.piece r.from_ r.to_ r.white with
    | .returned g1 _ _ _ => g1.run_ops rest
    | .threw _ _ _ => none

/-- The timeline holds at least one state and its active colour `turn` is
white exactly when `states.length + begins_at` is odd. -/
def Timeline.parity_ok (tl : Timeline) : Prop :=
  tl.states ≠ [] ∧ (tl.turn = true ↔ ((tl.states.length : Int) + tl.begins_at) % 2 = 1)

/-- The turn `T = (states.length - 1 + begins_at - (0 if turn is white
else 1)) / 2` of the present board of a timeline. -/
def Timeline.present_turn (tl : Timeline) : Int :=
  ((tl.states.length : Int) - 1 + tl.begins_at - notWhite tl.turn) / 2

/-! ## Small games used as concrete instances -/

/-- A fresh 2x2 game after one white rook move from (0,0) to (1,0). -/
def demo_one_move : Game :=
  ((Game.new 2 2 [0]).play PIECES.W_ROOK ⟨0, 1, 0, 0⟩ ⟨0, 1, 1, 0⟩ true).game

/-- The game `demo_one_move` after a black rook move from (0,1) to (1,1). -/
def demo_two_moves : Game :=
  (demo_one_move.play PIECES.B_ROOK ⟨0, 1, 0, 1⟩ ⟨0, 1, 1, 1⟩ false).game

/-- The game seeded with timelines 0 and 1 after a white rook move from
(0,0) to (1,0) and a black rook move from (0,1) to (1,1), both on
timeline 1. -/
def demo_other_timeline : Game :=
  ((((Game.new 2 2 [0, 1]).play PIECES.W_ROOK ⟨1, 1, 0, 0⟩ ⟨1, 1, 1, 0⟩ true).game).play
    PIECES.B_ROOK ⟨1, 1, 0, 1⟩ ⟨1, 1, 1, 1⟩ false).game

/-- The game seeded with timelines 0 and 1 after one white rook move from
(0,0) to (1,0) on timeline 1. -/
def demo_move_beside_timeline : Game :=
  ((Game.new 2 2 [0, 1]).play PIECES.W_ROOK ⟨1, 1, 0, 0⟩ ⟨1, 1, 1, 0⟩ true).game

/-- From a fresh 2x2 game: a white move, a black move, a white branch to
(0,0) of the first board, a black move, and a second white branch to (1,1)
of the first board. -/
def demo_two_branches : Option Game :=
  (Game.new 2 2 [0]).run_ops
    [.play { piece := PIECES.W_ROOK, from_ := ⟨0, 1, 0, 0⟩, to_ := ⟨0, 1, 1, 0⟩, white := true },
     .play { piece := PIECES.B_ROOK, from_ := ⟨0, 1, 0, 1⟩, to_ := ⟨0, 1, 1, 1⟩, white := false },
     .play { piece := PIECES.W_ROOK, from_ := ⟨0, 2, 1, 0⟩, to_ := ⟨0, 1, 0, 0⟩, white := true },
     .play { piece := PIECES.B_ROOK, from_ := ⟨0, 2, 1, 1⟩, to_ := ⟨0, 2, 0, 1⟩, white := false },
     .play { piece := PIECES.W_ROOK, from_ := ⟨0, 3, 0, 0⟩, to_ := ⟨0, 1, 1, 1⟩, white := true }]

/-! ## Lemmas on the timeline list -/

theorem find_cons_pos (l : Int) (tl : Timeline) (rest : List Timeline) (h : tl.index = l) :
    (tl :: rest).find? (fun board => board.index == l) = some tl := by
  rw [List.find?_cons_of_pos]; simp [h]

theorem find_cons_neg (l : Int) (tl : Timeline) (rest : List Timeline) (h : tl.index ≠ l) :
    (tl :: rest).find? (fun board => board.index == l) =
      rest.find? (fun board => board.index == l) := by
  rw [List.find?_cons_of_neg]; simp [h]

theorem update_first_length (l : Int) (f : Timeline → Timeline) (tls : List Timeline) :
    (update_first l f tls).length = tls.length := by
  induction tls with
  | nil => rfl
  | cons tl rest ih =>
    unfold update_first
    split <;> simp [ih]

theorem update_first_of_find_none (l : Int) (f : Timeline → Timeline) (tls : List Timeline)
    (h : tls.find? (fun board => board.index == l) = none) : update_first l f tls = tls := by
  induction tls with
  | nil => rfl
  | cons tl rest ih =>
    unfold update_first
    by_cases hl : tl.index = l
    · rw [find_cons_pos l tl rest hl] at h; cases h
    · rw [find_cons_neg l tl rest hl] at h
      simp [hl, ih h]

theorem find_update_first (l l1 : Int) (f : Timeline → Timeline)
    (hf : ∀ tl, (f tl).index = tl.index) (tls : List Timeline) :
    (update_first l f tls).find? (fun board => board.index == l1) =
      if l1 = l then (tls.find? (fun board => board.index == l)).map f
      else tls.find? (fun board => board.index == l1) := by
  induction tls with
  | nil => simp [update_first]
  | cons tl rest ih =>
    unfold update_first
    by_cases hl : tl.index = l
    · by_cases h1 : l1 = l
      · subst h1
        rw [if_pos (by simp [hl]), find_cons_pos l1 _ rest (by rw [hf]; exact hl),
          find_cons_pos l1 tl rest hl]
        simp
      · have h2 : tl.index ≠ l1 := fun h => h1 (h ▸ hl)
        rw [if_pos (by simp [hl]), find_cons_neg l1 _ rest (by rw [hf]; exact h2),
          find_cons_neg l1 tl rest h2]
        simp [h1]
    · rw [if_neg (by simp [hl])]
      by_cases h2 : tl.index = l1
      · rw [find_cons_pos l1 tl _ h2]
        have h1 : ¬ l1 = l := fun h => hl (h ▸ h2)
        rw [if_neg h1, find_cons_pos l1 tl rest h2]
      · rw [find_cons_neg l1 tl _ h2, ih]
        by_cases h1 : l1 = l
        · subst h1
          rw [if_pos rfl, if_pos rfl, find_cons_neg l1 tl rest h2]
        · rw [if_neg h1, if_neg h1, find_cons_neg l1 tl rest h2]

theorem update_first_eq_set (l : Int) (f : Timeline → Timeline) (tls : List Timeline)
    (tl : Timeline) (h : tls.find? (fun board => board.index == l) = some tl) :
    ∃ i, tls[i]? = some tl ∧ tl.index = l ∧ update_first l f tls = tls.set i (f tl) := by
  induction tls with
  | nil => simp at h
  | cons hd rest ih =>
    by_cases hl : hd.index = l
    · rw [find_cons_pos l hd rest hl] at h
      cases h
      exact ⟨0, by simp, hl, by simp [update_first, hl]⟩
    · rw [find_cons_neg l hd rest hl] at h
      obtain ⟨i, hi, hidx, hset⟩ := ih h
      exact ⟨i + 1, by simpa using hi, hidx, by simp [update_first, hl, hset]⟩

theorem push_board_of_find (g : Game) (l : Int) (b : Board) (tl : Timeline)
    (h : g.find_timeline l = some tl) :
    g.push_board l b =
      ({ g with timelines := (update_first l (fun timeline => timeline.push_state b)
          g.timelines) }, true) := by
  simp [Game.push_board, h]

theorem record_move_fst (g : Game) (l : Int) (kind : Nat) (piece : Int) (from_ to_ : Coord)
    (white : Bool) (pt : Option Int) :
    (g.record_move l kind piece from_ to_ white pt).1 =
      { g with timelines := (update_first l
          (fun timeline => timeline.push_move
            { kind := kind, piece := piece, from_ := from_, to_ := to_, white := white,
              piece_taken := pt })
          g.timelines) } := by
  unfold Game.record_move
  cases h : g.find_timeline l with
  | none =>
    simp only
    rw [update_first_of_find_none l _ g.timelines h]
  | some tl => rfl

theorem find_timeline_push (g : Game) (l l1 : Int) (f : Timeline → Timeline)
    (hf : ∀ tl, (f tl).index = tl.index) :
    Game.find_timeline { g with timelines := update_first l f g.timelines } l1 =
      if l1 = l then (g.find_timeline l).map f else g.find_timeline l1 := by
  unfold Game.find_timeline
  exact find_update_first l l1 f hf g.timelines

theorem apply_move_same (g : Game) (piece : Int) (src tgt : Board) (from_ to_ : Coord)
    (white : Bool) (tl : Timeline) (hf : g.find_timeline from_.l = some tl)
    (href : src.ref = tgt.ref) :
    g.apply_move piece src tgt from_ to_ white =
      .returned
        { g with
          next_ref := g.next_ref + 1
          timelines := (update_first from_.l
            (fun timeline => timeline.push_move
              { kind := MOVE_KIND.MOVE, piece := piece, from_ := from_, to_ := to_,
                white := white, piece_taken := tgt.get (to_.x + to_.y * g.width) })
            (update_first from_.l
              (fun timeline => timeline.push_state
                (((src.copy g.next_ref).set (from_.x + from_.y * g.width) PIECES.BLANK).set
                  (to_.x + to_.y * g.width) piece))
              g.timelines)) }
        from_ to_ (tgt.get (to_.x + to_.y * g.width)) := by
  have hf1 : Game.find_timeline { g with next_ref := g.next_ref + 1 } from_.l = some tl := hf
  unfold Game.apply_move
  simp only [href, if_true]
  rw [push_board_of_find _ _ _ tl hf1]
  simp only [record_move_fst]

theorem push_state_index (b : Board) (tl : Timeline) : (tl.push_state b).index = tl.index := rfl

theorem push_move_index (r : MoveRecord) (tl : Timeline) : (tl.push_move r).index = tl.index := rfl

theorem apply_move_jump (g : Game) (piece : Int) (src tgt : Board) (from_ to_ : Coord)
    (white : Bool) (tl1 tl2 : Timeline) (hf : g.find_timeline from_.l = some tl1)
    (ht : g.find_timeline to_.l = some tl2)
    (href : src.ref ≠ tgt.ref)
    (hp : g.is_present to_.l (to_.t * 2 + notWhite white) = some true) :
    g.apply_move piece src tgt from_ to_ white =
      .returned
        { g with
          next_ref := g.next_ref + 2
          timelines := (update_first to_.l
            (fun timeline => timeline.push_move
              { kind := MOVE_KIND.JUMP_IN, piece := piece, from_ := from_, to_ := to_,
                white := white, piece_taken := tgt.get (to_.x + to_.y * g.width) })
            (update_first from_.l
              (fun timeline => timeline.push_move
                { kind := MOVE_KIND.JUMP_OUT, piece := piece, from_ := from_, to_ := to_,
                  white := white, piece_taken := tgt.get (to_.x + to_.y * g.width) })
              (update_first to_.l
                (fun timeline => timeline.push_state
                  ((tgt.copy (g.next_ref + 1)).set (to_.x + to_.y * g.width) piece))
                (update_first from_.l
                  (fun timeline => timeline.push_state
                    ((src.copy g.next_ref).set (from_.x + from_.y * g.width) PIECES.BLANK))
                  g.timelines)))) }
        from_ to_ (tgt.get (to_.x + to_.y * g.width)) := by
  have hf1 : Game.find_timeline { g with next_ref := g.next_ref + 2 } from_.l = some tl1 := hf
  unfold Game.apply_move
  simp only [href, if_false, hp, if_true]
  rw [push_board_of_find _ _ _ tl1 hf1]
  simp only
  have ht1 := find_timeline_push { g with next_ref := g.next_ref + 2 } from_.l to_.l
    (fun timeline => timeline.push_state
      ((src.copy g.next_ref).set (from_.x + from_.y * g.width) PIECES.BLANK))
    (push_state_index _)
  have ht0 : Game.find_timeline { g with next_ref := g.next_ref + 2 } to_.l = some tl2 := ht
  rw [ht0, hf1] at ht1
  have ht2 : ∃ tl3, Game.find_timeline
      { g with
        next_ref := g.next_ref + 2
        timelines := (update_first from_.l (fun timeline => timeline.push_state
          ((src.copy g.next_ref).set (from_.x + from_.y * g.width) PIECES.BLANK))
          g.timelines) } to_.l = some tl3 := by
    by_cases h : to_.l = from_.l
    · rw [if_pos h] at ht1; exact ⟨_, ht1⟩
    · rw [if_neg h] at ht1; exact ⟨_, ht1⟩
  obtain ⟨tl3, ht3⟩ := ht2
  rw [push_board_of_find _ _ _ tl3 ht3]
  simp only [record_move_fst]

theorem update_first_map_index (l : Int) (f : Timeline → Timeline)
    (hf : ∀ tl, (f tl).index = tl.index) (tls : List Timeline) :
    (update_first l f tls).map (fun timeline => timeline.index) =
      tls.map (fun timeline => timeline.index) := by
  induction tls with
  | nil => rfl
  | cons tl rest ih =>
    unfold update_first
    split
    · simp [hf]
    · simp [ih]

theorem new_index_eq_foldl (tls : List Timeline) (white : Bool) :
    new_index tls white =
      (tls.map (fun timeline => timeline.index)).foldl
        (fun ni idx =>
          if white then (if idx > ni then idx + 1 else ni)
          else (if idx < ni then idx - 1 else ni))
        (if white then 1 else -1) := by
  unfold new_index
  rw [List.foldl_map]

theorem new_index_update_first (l : Int) (f : Timeline → Timeline)
    (hf : ∀ tl, (f tl).index = tl.index) (tls : List Timeline) (white : Bool) :
    new_index (update_first l f tls) white = new_index tls white := by
  rw [new_index_eq_foldl, new_index_eq_foldl, update_first_map_index l f hf]

theorem apply_move_branch (g : Game) (piece : Int) (src tgt : Board) (from_ to_ : Coord)
    (white : Bool) (tl1 : Timeline) (hf : g.find_timeline from_.l = some tl1)
    (href : src.ref ≠ tgt.ref)
    (hp : g.is_present to_.l (to_.t * 2 + notWhite white) ≠ some true) :
    g.apply_move piece src tgt from_ to_ white =
      .returned
        { g with
          next_ref := g.next_ref + 3
          board_indices := g.board_indices ++ [new_index g.timelines white]
          timelines := (update_first (new_index g.timelines white)
            (fun timeline => timeline.push_move
              { kind := MOVE_KIND.JUMP_IN, piece := piece, from_ := from_, to_ := to_,
                white := white, piece_taken := tgt.get (to_.x + to_.y * g.width) })
            (update_first from_.l
              (fun timeline => timeline.push_move
                { kind := MOVE_KIND.JUMP_OUT, piece := piece, from_ := from_, to_ := to_,
                  white := white, piece_taken := tgt.get (to_.x + to_.y * g.width) })
              (update_first from_.l
                (fun timeline => timeline.push_state
                  ((src.copy g.next_ref).set (from_.x + from_.y * g.width) PIECES.BLANK))
                g.timelines) ++
              [{ Timeline.new g.width g.height (new_index g.timelines white)
                    (to_.t * 2 + notWhite white + 1) (g.next_ref + 2) with
                  turn := !white
                  states := [(tgt.copy (g.next_ref + 1)).set (to_.x + to_.y * g.width) piece] }])) }
        from_ to_ (tgt.get (to_.x + to_.y * g.width)) := by
  have hf1 : Game.find_timeline { g with next_ref := g.next_ref + 2 } from_.l = some tl1 := hf
  unfold Game.apply_move
  simp only [href, if_false, hp]
  rw [push_board_of_find _ _ _ tl1 hf1]
  simp only [record_move_fst]
  rw [new_index_update_first _ _ (push_move_index _), new_index_update_first _ _ (push_state_index _)]

/-! ## From `play` to `apply_move` -/

theorem find_of_get_board (g : Game) (l t : Int) (b : Board) (h : g.get_board l t = some b) :
    ∃ tl, g.find_timeline l = some tl := by
  unfold Game.get_board at h
  cases hf : g.find_timeline l with
  | none => rw [hf] at h; cases h
  | some tl => exact ⟨tl, rfl⟩

theorem resolve_origin_lt (g : Game) (piece : Int) (src : Board) (from_ to_ from1 : Coord)
    (white : Bool) (h : g.resolve_origin piece src from_ to_ white = .ok from1) :
    from1.l = from_.l ∧ from1.t = from_.t := by
  unfold Game.resolve_origin at h
  split at h
  · split at h
    · cases h
    · simp only at h
      split at h
      · cases h
      · split at h
        · cases h
        · cases h; exact ⟨rfl, rfl⟩
  · cases h; exact ⟨rfl, rfl⟩

theorem resolve_origin_full (g : Game) (piece : Int) (src : Board) (from_ to_ : Coord)
    (white : Bool) (hx : from_.x ≠ -1) (hy : from_.y ≠ -1) :
    g.resolve_origin piece src from_ to_ white = .ok from_ := by
  unfold Game.resolve_origin
  rw [if_neg (by simp [hx, hy])]

theorem apply_move_returned (g : Game) (piece : Int) (src tgt : Board) (from_ to_ : Coord)
    (white : Bool) (tl1 tl2 : Timeline) (hf : g.find_timeline from_.l = some tl1)
    (ht : g.find_timeline to_.l = some tl2) :
    ∃ g1, g.apply_move piece src tgt from_ to_ white =
      .returned g1 from_ to_ (tgt.get (to_.x + to_.y * g.width)) := by
  by_cases href : src.ref = tgt.ref
  · exact ⟨_, apply_move_same g piece src tgt from_ to_ white tl1 hf href⟩
  · by_cases hp : g.is_present to_.l (to_.t * 2 + notWhite white) = some true
    · exact ⟨_, apply_move_jump g piece src tgt from_ to_ white tl1 tl2 hf ht href hp⟩
    · exact ⟨_, apply_move_branch g piece src tgt from_ to_ white tl1 hf href hp⟩

theorem play_resolved (g : Game) (piece : Int) (from_ to_ from1 : Coord) (white : Bool)
    (src tgt : Board)
    (hs : g.get_board from_.l (from_.t * 2 + notWhite white) = some src)
    (ht : g.get_board to_.l (to_.t * 2 + notWhite white) = some tgt)
    (hr : g.resolve_origin piece src from_ to_ white = .ok from1) :
    g.play piece from_ to_ white = g.apply_move piece src tgt from1 to_ white := by
  unfold Game.play
  simp only [hs, ht, hr]

theorem resolve_origin_error (g : Game) (piece : Int) (src : Board) (from_ to_ : Coord)
    (white : Bool) (e : PlayError) (h : g.resolve_origin piece src from_ to_ white = .error e) :
    e ≠ PlayError.couldnt_push_board := by
  unfold Game.resolve_origin at h
  split at h
  · split at h
    · cases h; decide
    · simp only at h
      split at h
      · cases h; decide
      · split at h
        · cases h; decide
        · cases h
  · cases h

theorem play_threw_unchanged (g : Game) (piece : Int) (from_ to_ : Coord) (white : Bool)
    (e : PlayError) (g1 : Game) (from1 : Coord)
    (h : g.play piece from_ to_ white = .threw e g1 from1) :
    g1 = g ∧ from1 = from_ ∧ e ≠ PlayError.couldnt_push_board := by
  cases hs : g.get_board from_.l (from_.t * 2 + notWhite white) with
  | none =>
    unfold Game.play at h
    simp only [hs] at h
    cases h; exact ⟨rfl, rfl, by decide⟩
  | some src =>
    cases ht : g.get_board to_.l (to_.t * 2 + notWhite white) with
    | none =>
      unfold Game.play at h
      simp only [hs, ht] at h
      cases h; exact ⟨rfl, rfl, by decide⟩
    | some tgt =>
      cases hr : g.resolve_origin piece src from_ to_ white with
      | error e1 =>
        unfold Game.play at h
        simp only [hs, ht, hr] at h
        cases h; exact ⟨rfl, rfl, resolve_origin_error g piece src from_ to_ white _ hr⟩
      | ok from2 =>
        rw [play_resolved g piece from_ to_ from2 white src tgt hs ht hr] at h
        obtain ⟨tl1, h1⟩ := find_of_get_board g _ _ _ hs
        obtain ⟨tl2, h2⟩ := find_of_get_board g _ _ _ ht
        rw [← (resolve_origin_lt g piece src from_ to_ from2 white hr).1] at h1
        obtain ⟨g2, hg2⟩ := apply_move_returned g piece src tgt from2 to_ white tl1 tl2 h1 h2
        rw [hg2] at h
        cases h

/-! ## Timelines only grow -/

theorem grown_refl (tl : Timeline) : tl.grown_from tl := ⟨rfl, rfl, [], by simp⟩

theorem grown_trans {a b c : Timeline} (h1 : b.grown_from a) (h2 : c.grown_from b) :
    c.grown_from a := by
  obtain ⟨i1, b1, m1, s1⟩ := h1
  obtain ⟨i2, b2, m2, s2⟩ := h2
  exact ⟨i2.trans i1, b2.trans b1, m1 ++ m2, by rw [s2, s1, List.append_assoc]⟩

theorem grown_push_state (b : Board) (tl : Timeline) : (tl.push_state b).grown_from tl :=
  ⟨rfl, rfl, [b], rfl⟩

theorem grown_push_move (r : MoveRecord) (tl : Timeline) : (tl.push_move r).grown_from tl :=
  ⟨rfl, rfl, [], by simp [Timeline.push_move]⟩

theorem forall2_grown_refl (tls : List Timeline) :
    List.Forall₂ (fun tl tl1 => tl1.grown_from tl) tls tls := by
  induction tls with
  | nil => exact List.Forall₂.nil
  | cons tl rest ih => exact List.Forall₂.cons (grown_refl tl) ih

theorem forall2_grown_trans {as bs cs : List Timeline}
    (h1 : List.Forall₂ (fun tl tl1 => tl1.grown_from tl) as bs)
    (h2 : List.Forall₂ (fun tl tl1 => tl1.grown_from tl) bs cs) :
    List.Forall₂ (fun tl tl1 => tl1.grown_from tl) as cs := by
  induction h1 generalizing cs with
  | nil => cases h2; exact List.Forall₂.nil
  | cons hab _ ih =>
    cases h2 with
    | cons hbc hrest => exact List.Forall₂.cons (grown_trans hab hbc) (ih hrest)

theorem forall2_update_first (l : Int) (f : Timeline → Timeline)
    (hf : ∀ tl, (f tl).grown_from tl) (tls : List Timeline) :
    List.Forall₂ (fun tl tl1 => tl1.grown_from tl) tls (update_first l f tls) := by
  induction tls with
  | nil => exact List.Forall₂.nil
  | cons tl rest ih =>
    unfold update_first
    split
    · exact List.Forall₂.cons (hf tl) (forall2_grown_refl rest)
    · exact List.Forall₂.cons (grown_refl tl) ih

theorem timelines_grown_refl (tls : List Timeline) : timelines_grown tls tls :=
  ⟨tls, [], by simp, forall2_grown_refl tls⟩

theorem timelines_grown_update (l : Int) (f : Timeline → Timeline)
    (hf : ∀ tl, (f tl).grown_from tl) {before after : List Timeline}
    (h : timelines_grown before after) : timelines_grown before (update_first l f after) := by
  obtain ⟨kept, added, rfl, hk⟩ := h
  have hall := List.forall₂_take kept.length (forall2_update_first l f hf (kept ++ added))
  rw [List.take_left] at hall
  exact ⟨_, _, (List.take_append_drop kept.length _).symm, forall2_grown_trans hk hall⟩

theorem timelines_grown_append {before after : List Timeline} (extra : List Timeline)
    (h : timelines_grown before after) : timelines_grown before (after ++ extra) := by
  obtain ⟨kept, added, rfl, hk⟩ := h
  exact ⟨kept, added ++ extra, by simp, hk⟩

theorem apply_move_grown (g : Game) (piece : Int) (src tgt : Board) (from_ to_ : Coord)
    (white : Bool) (tl1 tl2 : Timeline) (hf : g.find_timeline from_.l = some tl1)
    (ht : g.find_timeline to_.l = some tl2) :
    timelines_grown g.timelines (g.apply_move piece src tgt from_ to_ white).game.timelines := by
  by_cases href : src.ref = tgt.ref
  · rw [apply_move_same g piece src tgt from_ to_ white tl1 hf href]
    exact timelines_grown_update _ _ (grown_push_move _)
      (timelines_grown_update _ _ (grown_push_state _) (timelines_grown_refl _))
  · by_cases hp : g.is_present to_.l (to_.t * 2 + notWhite white) = some true
    · rw [apply_move_jump g piece src tgt from_ to_ white tl1 tl2 hf ht href hp]
      exact timelines_grown_update _ _ (grown_push_move _)
        (timelines_grown_update _ _ (grown_push_move _)
          (timelines_grown_update _ _ (grown_push_state _)
            (timelines_grown_update _ _ (grown_push_state _) (timelines_grown_refl _))))
    · rw [apply_move_branch g piece src tgt from_ to_ white tl1 hf href hp]
      exact timelines_grown_update _ _ (grown_push_move _)
        (timelines_grown_append _
          (timelines_grown_update _ _ (grown_push_move _)
            (timelines_grown_update _ _ (grown_push_state _) (timelines_grown_refl _))))

theorem play_grown (g : Game) (piece : Int) (from_ to_ : Coord) (white : Bool) :
    timelines_grown g.timelines (g.play piece from_ to_ white).game.timelines := by
  cases hs : g.get_board from_.l (from_.t * 2 + notWhite white) with
  | none =>
    unfold Game.play
    simp only [hs]
    exact timelines_grown_refl _
  | some src =>
    cases ht : g.get_board to_.l (to_.t * 2 + notWhite white) with
    | none =>
      unfold Game.play
      simp only [hs, ht]
      exact timelines_grown_refl _
    | some tgt =>
      cases hr : g.resolve_origin piece src from_ to_ white with
      | error e1 =>
        unfold Game.play
        simp only [hs, ht, hr]
        exact timelines_grown_refl _
      | ok from2 =>
        rw [play_resolved g piece from_ to_ from2 white src tgt hs ht hr]
        obtain ⟨tl1, h1⟩ := find_of_get_board g _ _ _ hs
        obtain ⟨tl2, h2⟩ := find_of_get_board g _ _ _ ht
        rw [← (resolve_origin_lt g piece src from_ to_ from2 white hr).1] at h1
        exact apply_move_grown g piece src tgt from2 to_ white tl1 tl2 h1 h2

theorem find_of_forall2_grown {before kept : List Timeline}
    (h : List.Forall₂ (fun tl tl1 => tl1.grown_from tl) before kept)
    (added : List Timeline) (l : Int) (tl : Timeline)
    (hfind : before.find? (fun board => board.index == l) = some tl) :
    ∃ tl1, (kept ++ added).find? (fun board => board.index == l) = some tl1 ∧
      tl1.grown_from tl := by
  induction h with
  | nil => simp at hfind
  | @cons a b as bs hab _ ih =>
    by_cases hl : a.index = l
    · rw [find_cons_pos l a as hl] at hfind
      cases hfind
      refine ⟨b, ?_, hab⟩
      rw [List.cons_append, find_cons_pos l b _ (hab.1.trans hl)]
    · rw [find_cons_neg l a as hl] at hfind
      obtain ⟨tl1, h1, h2⟩ := ih hfind
      refine ⟨tl1, ?_, h2⟩
      rw [List.cons_append, find_cons_neg l b _ (by rw [hab.1]; exact hl)]
      exact h1

theorem jsAt_append {α : Type} (xs more : List α) (i : Int) (a : α)
    (h : jsAt xs i = some a) : jsAt (xs ++ more) i = some a := by
  unfold jsAt at h ⊢
  split at h
  · cases h
  · rename_i hi
    rw [if_neg hi]
    have hlt : i.toNat < xs.length := by
      by_contra hge
      rw [List.getElem?_eq_none (by omega)] at h
      cases h
    rw [List.getElem?_append_left hlt]
    exact h

theorem get_board_of_grown (g g1 : Game) (h : timelines_grown g.timelines g1.timelines)
    (l p : Int) (b : Board) (hb : g.get_board l p = some b) : g1.get_board l p = some b := by
  obtain ⟨kept, added, hk, hall⟩ := h
  unfold Game.get_board at hb ⊢
  cases hf : g.find_timeline l with
  | none => rw [hf] at hb; cases hb
  | some tl =>
    rw [hf] at hb
    obtain ⟨tl1, h1, hidx, hbeg, more, hst⟩ := find_of_forall2_grown hall added l tl hf
    have : g1.find_timeline l = some tl1 := by
      unfold Game.find_timeline; rw [hk]; exact h1
    rw [this]
    simp only at hb ⊢
    rw [hbeg, hst]
    exact jsAt_append _ _ _ _ hb

theorem find_update_first_pres (P : Timeline → Prop) (l l1 : Int) (f : Timeline → Timeline)
    (hf : ∀ tl, (f tl).index = tl.index) (hP : ∀ tl, P tl → P (f tl))
    (tls : List Timeline) (tl : Timeline)
    (h : tls.find? (fun board => board.index == l1) = some tl) (hp : P tl) :
    ∃ tl1, (update_first l f tls).find? (fun board => board.index == l1) = some tl1 ∧ P tl1 := by
  rw [find_update_first l l1 f hf]
  by_cases h1 : l1 = l
  · subst h1
    rw [if_pos rfl, h]
    exact ⟨f tl, rfl, hP tl hp⟩
  · rw [if_neg h1]
    exact ⟨tl, h, hp⟩

theorem find_append_pres (l1 : Int) (tls extra : List Timeline) (tl : Timeline)
    (h : tls.find? (fun board => board.index == l1) = some tl) :
    (tls ++ extra).find? (fun board => board.index == l1) = some tl := by
  rw [List.find?_append, h]
  rfl

theorem apply_move_pushes (g : Game) (piece : Int) (src tgt : Board) (from_ to_ : Coord)
    (white : Bool) (tl1 tl2 : Timeline) (hf : g.find_timeline from_.l = some tl1)
    (ht : g.find_timeline to_.l = some tl2) :
    ∃ tl3, (g.apply_move piece src tgt from_ to_ white).game.find_timeline from_.l = some tl3
      ∧ tl1.states.length < tl3.states.length := by
  have hpush : ∀ b : Board, ∀ tl : Timeline,
      tl1.states.length < tl.states.length → tl1.states.length < (tl.push_state b).states.length := by
    intro b tl h
    simp only [Timeline.push_state, List.length_append, List.length_singleton]
    omega
  have hmove : ∀ r : MoveRecord, ∀ tl : Timeline,
      tl1.states.length < tl.states.length → tl1.states.length < (tl.push_move r).states.length :=
    fun _ _ h => h
  have hfirst : ∀ b : Board, ∃ tl3,
      (update_first from_.l (fun timeline => timeline.push_state b) g.timelines).find?
        (fun board => board.index == from_.l) = some tl3
      ∧ tl1.states.length < tl3.states.length := by
    intro b
    rw [find_update_first _ _ _ (push_state_index b), if_pos rfl]
    have hf0 : g.timelines.find? (fun board => board.index == from_.l) = some tl1 := hf
    rw [hf0]
    exact ⟨_, rfl, by simp [Timeline.push_state]⟩
  by_cases href : src.ref = tgt.ref
  · rw [apply_move_same g piece src tgt from_ to_ white tl1 hf href]
    obtain ⟨a, ha, hla⟩ := hfirst (((src.copy g.next_ref).set (from_.x + from_.y * g.width)
      PIECES.BLANK).set (to_.x + to_.y * g.width) piece)
    exact find_update_first_pres _ _ _ _ (push_move_index _) (hmove _) _ a ha hla
  · by_cases hp : g.is_present to_.l (to_.t * 2 + notWhite white) = some true
    · rw [apply_move_jump g piece src tgt from_ to_ white tl1 tl2 hf ht href hp]
      obtain ⟨a, ha, hla⟩ := hfirst ((src.copy g.next_ref).set (from_.x + from_.y * g.width)
        PIECES.BLANK)
      obtain ⟨b, hb, hlb⟩ := find_update_first_pres _ to_.l from_.l _ (push_state_index
        ((tgt.copy (g.next_ref + 1)).set (to_.x + to_.y * g.width) piece)) (hpush _) _ a ha hla
      obtain ⟨c, hc, hlc⟩ := find_update_first_pres _ from_.l from_.l _ (push_move_index
        { kind := MOVE_KIND.JUMP_OUT, piece := piece, from_ := from_, to_ := to_,
          white := white, piece_taken := tgt.get (to_.x + to_.y * g.width) }) (hmove _) _ b hb hlb
      exact find_update_first_pres _ _ _ _ (push_move_index _) (hmove _) _ c hc hlc
    · rw [apply_move_branch g piece src tgt from_ to_ white tl1 hf href hp]
      obtain ⟨a, ha, hla⟩ := hfirst ((src.copy g.next_ref).set (from_.x + from_.y * g.width)
        PIECES.BLANK)
      obtain ⟨b, hb, hlb⟩ := find_update_first_pres _ from_.l from_.l _ (push_move_index
        { kind := MOVE_KIND.JUMP_OUT, piece := piece, from_ := from_, to_ := to_,
          white := white, piece_taken := tgt.get (to_.x + to_.y * g.width) }) (hmove _) _ a ha hla
      exact find_update_first_pres _ _ _ _ (push_move_index _) (hmove _) _ b
        (find_append_pres _ _ _ _ hb) hlb

/-! ## Board cells -/

theorem board_get_set_inside (b : Board) (i j : Int) (v : Int) (hi : 0 ≤ i)
    (hlt : i.toNat < b.cells.length) :
    (b.set i v).get j = if j = i then some v else b.get j := by
  unfold Board.set
  rw [if_neg (by omega), if_pos hlt]
  unfold Board.get
  by_cases hj : j < 0
  · rw [if_pos hj, if_pos hj, if_neg (by omega)]
  · rw [if_neg hj, if_neg hj]
    unfold jsAt
    rw [if_neg hj, if_neg hj]
    simp only
    by_cases hji : j = i
    · subst hji
      rw [if_pos rfl, List.getElem?_set_self hlt]
      rfl
    · rw [if_neg hji, List.getElem?_set_ne (by omega)]

theorem board_set_inside_length (b : Board) (i : Int) (v : Int) (hi : 0 ≤ i)
    (hlt : i.toNat < b.cells.length) : (b.set i v).cells.length = b.cells.length := by
  unfold Board.set
  rw [if_neg (by omega), if_pos hlt]
  simp

theorem board_get_copy (b : Board) (r : Nat) (j : Int) (hj : 0 ≤ j) :
    (b.copy r).get j = b.get j := by
  unfold Board.get Board.copy
  rw [if_neg (by omega), if_neg (by omega)]

theorem cell_index_bounds (g : Game) (x y : Int) (h : g.in_bounds x y) :
    0 ≤ x + y * g.width ∧ (x + y * g.width).toNat < g.width * g.height := by
  obtain ⟨hx0, hxw, hy0, hyh⟩ := h
  have h1 : 0 ≤ y * (g.width : Int) := Int.mul_nonneg hy0 (Int.ofNat_nonneg _)
  have h2 : x + y * (g.width : Int) < (g.width : Int) * (g.height : Int) := by
    have : (y + 1) * (g.width : Int) ≤ (g.height : Int) * (g.width : Int) :=
      Int.mul_le_mul_of_nonneg_right (by omega) (Int.ofNat_nonneg _)
    nlinarith
  refine ⟨by omega, ?_⟩
  have h3 : ((x + y * (g.width : Int)).toNat : Int) = x + y * (g.width : Int) :=
    Int.toNat_of_nonneg (by omega)
  have h4 : ((g.width * g.height : Nat) : Int) = (g.width : Int) * (g.height : Int) := by
    push_cast; ring
  omega

theorem cell_index_inj (g : Game) (x y x1 y1 : Int) (h : g.in_bounds x y)
    (h1 : g.in_bounds x1 y1) (heq : x + y * g.width = x1 + y1 * g.width) : x = x1 ∧ y = y1 := by
  obtain ⟨hx0, hxw, -, -⟩ := h
  obtain ⟨hx10, hx1w, -, -⟩ := h1
  have hy : y = y1 := by
    rcases lt_trichotomy y y1 with hlt | heq1 | hgt
    · exfalso
      have : (y + 1) * (g.width : Int) ≤ y1 * (g.width : Int) :=
        Int.mul_le_mul_of_nonneg_right (by omega) (Int.ofNat_nonneg _)
      nlinarith
    · exact heq1
    · exfalso
      have : (y1 + 1) * (g.width : Int) ≤ y * (g.width : Int) :=
        Int.mul_le_mul_of_nonneg_right (by omega) (Int.ofNat_nonneg _)
      nlinarith
  subst hy
  exact ⟨by omega, rfl⟩

theorem play_returned_inv (g : Game) (piece : Int) (from_ to_ : Coord) (white : Bool)
    (g1 : Game) (from1 to1 : Coord) (pt : Option Int) (src tgt : Board)
    (hplay : g.play piece from_ to_ white = .returned g1 from1 to1 pt)
    (hs : g.get_board from_.l (from_.t * 2 + notWhite white) = some src)
    (ht : g.get_board to_.l (to_.t * 2 + notWhite white) = some tgt) :
    g.resolve_origin piece src from_ to_ white = .ok from1
    ∧ to1 = to_
    ∧ pt = tgt.get (to_.x + to_.y * g.width)
    ∧ g.apply_move piece src tgt from1 to_ white = .returned g1 from1 to_ pt
    ∧ from1.l = from_.l ∧ from1.t = from_.t := by
  cases hr : g.resolve_origin piece src from_ to_ white with
  | error e1 =>
    unfold Game.play at hplay
    simp only [hs, ht, hr] at hplay
    cases hplay
  | ok from2 =>
    rw [play_resolved g piece from_ to_ from2 white src tgt hs ht hr] at hplay
    obtain ⟨tl1, h1⟩ := find_of_get_board g _ _ _ hs
    obtain ⟨tl2, h2⟩ := find_of_get_board g _ _ _ ht
    have hlt := resolve_origin_lt g piece src from_ to_ from2 white hr
    rw [← hlt.1] at h1
    obtain ⟨g2, hg2⟩ := apply_move_returned g piece src tgt from2 to_ white tl1 tl2 h1 h2
    have hinj := hg2.symm.trans hplay
    cases hinj
    exact ⟨rfl, rfl, rfl, hg2, hlt.1, hlt.2⟩

/-! ## Updates at two timelines -/

theorem update_first_fuse (l : Int) (f h : Timeline → Timeline)
    (hh : ∀ tl, (h tl).index = tl.index) (tls : List Timeline) :
    update_first l f (update_first l h tls) = update_first l (fun tl => f (h tl)) tls := by
  induction tls with
  | nil => rfl
  | cons tl rest ih =>
    by_cases hl : tl.index = l
    · simp [update_first, hl, hh]
    · simp [update_first, hl, ih]

theorem update_first_comm (l1 l2 : Int) (hne : l1 ≠ l2) (f h : Timeline → Timeline)
    (hf : ∀ tl, (f tl).index = tl.index) (hh : ∀ tl, (h tl).index = tl.index)
    (tls : List Timeline) :
    update_first l1 f (update_first l2 h tls) = update_first l2 h (update_first l1 f tls) := by
  induction tls with
  | nil => rfl
  | cons tl rest ih =>
    by_cases h1 : tl.index = l1
    · have h2 : ¬ tl.index = l2 := fun h => hne (h1.symm.trans h)
      simp [update_first, h1, h2, hf, hne]
    · by_cases h2 : tl.index = l2
      · have h3 : ¬ l2 = l1 := fun h => hne h.symm
        simp [update_first, h1, h2, hh, h3]
      · simp [update_first, h1, h2, ih]

theorem update_two_eq_set (l1 l2 : Int) (hne : l1 ≠ l2) (f h : Timeline → Timeline)
    (hf : ∀ tl, (f tl).index = tl.index) (tls : List Timeline) (tl1 tl2 : Timeline)
    (h1 : tls.find? (fun board => board.index == l1) = some tl1)
    (h2 : tls.find? (fun board => board.index == l2) = some tl2) :
    ∃ i j, i ≠ j ∧ tls[i]? = some tl1 ∧ tls[j]? = some tl2 ∧
      update_first l2 h (update_first l1 f tls) = (tls.set i (f tl1)).set j (h tl2) := by
  obtain ⟨i, hi, hidx1, hset1⟩ := update_first_eq_set l1 f tls tl1 h1
  have h2a : (update_first l1 f tls).find? (fun board => board.index == l2) = some tl2 := by
    rw [find_update_first l1 l2 f hf, if_neg (fun h => hne h.symm)]
    exact h2
  obtain ⟨j, hj, hidx2, hset2⟩ := update_first_eq_set l2 h _ tl2 h2a
  have hilt : i < tls.length := by
    by_contra hge
    rw [List.getElem?_eq_none (by omega)] at hi
    cases hi
  have hij : i ≠ j := by
    intro hij
    subst hij
    rw [hset1, List.getElem?_set_self hilt] at hj
    cases hj
    rw [hf, hidx1] at hidx2
    exact hne hidx2
  refine ⟨i, j, hij, hi, ?_, ?_⟩
  · rw [hset1, List.getElem?_set_ne hij] at hj
    exact hj
  · rw [hset2, hset1]

theorem update_first_append_singleton (l : Int) (f : Timeline → Timeline)
    (xs : List Timeline) (a : Timeline) :
    ∃ a1, update_first l f (xs ++ [a]) = update_first l f xs ++ [a1] ∧ (a1 = a ∨ a1 = f a) := by
  induction xs with
  | nil =>
    by_cases hl : a.index = l
    · exact ⟨f a, by simp [update_first, hl], Or.inr rfl⟩
    · exact ⟨a, by simp [update_first, hl], Or.inl rfl⟩
  | cons tl rest ih =>
    by_cases hl : tl.index = l
    · exact ⟨a, by simp [update_first, hl], Or.inl rfl⟩
    · obtain ⟨a1, h1, h2⟩ := ih
      exact ⟨a1, by simp [update_first, hl, h1], h2⟩

/-! ## The candidates of a partial origin -/

theorem mem_candidates (g : Game) (piece : Int) (board : Board) (from_ to_ : Coord)
    (white : Bool) (i : Nat) (p : Option Int) :
    (i, p) ∈ g.candidates piece board from_ to_ white ↔
      board.cells[i]? = some p ∧ p = some piece
      ∧ (from_.x = -1 ∨ ((i % g.width : Nat) : Int) = from_.x)
      ∧ (from_.y = -1 ∨ ((i / g.width : Nat) : Int) = from_.y)
      ∧ g.can_move piece
          { l := from_.l, t := from_.t, x := ((i % g.width : Nat) : Int),
            y := ((i / g.width : Nat) : Int) } to_ white = some true := by
  unfold Game.candidates
  by_cases hx : from_.x = -1 <;> by_cases hy : from_.y = -1
  all_goals
    simp only [hx, hy, bne_self_eq_false, Bool.false_eq_true, if_false, List.mem_filter,
      List.mem_enum_iff_getElem?, beq_iff_eq, bne_iff_ne, ne_eq, not_false_eq_true, if_true,
      true_or, false_or, true_and, not_true_eq_false]
    constructor
    · intro h
      obtain ⟨hleft, hcm⟩ := h
      have hp : p = some piece := by tauto
      subst hp
      simp only [beq_iff_eq] at hcm
      tauto
    · intro h
      have hp : p = some piece := by tauto
      subst hp
      simp only [beq_iff_eq]
      tauto

theorem candidates_nodup (g : Game) (piece : Int) (board : Board) (from_ to_ : Coord)
    (white : Bool) : (g.candidates piece board from_ to_ white).Nodup := by
  have h0 : board.cells.enum.Nodup := List.Nodup.of_map _ (List.nodup_enum_map_fst board.cells)
  unfold Game.candidates
  simp only
  apply List.Nodup.filter
  split
  · apply List.Nodup.filter
    split
    · exact List.Nodup.filter _ (List.Nodup.filter _ h0)
    · exact List.Nodup.filter _ h0
  · split
    · exact List.Nodup.filter _ (List.Nodup.filter _ h0)
    · exact List.Nodup.filter _ h0

theorem square_of_index (w i : Nat) (hw : 0 < w) :
    i % w < w ∧ i % w + i / w * w = i := by
  refine ⟨Nat.mod_lt _ hw, ?_⟩
  rw [Nat.mul_comm]
  exact Nat.mod_add_div i w

theorem index_of_square (w x y : Nat) (hx : x < w) :
    (x + y * w) % w = x ∧ (x + y * w) / w = y := by
  constructor
  · rw [Nat.add_mul_mod_self_right, Nat.mod_eq_of_lt hx]
  · rw [Nat.add_mul_div_right _ _ (by omega), Nat.div_eq_of_lt hx, Nat.zero_add]

theorem legal_origin_iff_mem (g : Game) (piece : Int) (board : Board) (from_ to_ : Coord)
    (white : Bool) (xy : Nat × Nat) (hx : xy.1 < g.width) :
    LegalOrigin g piece board from_ to_ white xy ↔
      (xy.1 + xy.2 * g.width, some piece) ∈ g.candidates piece board from_ to_ white := by
  obtain ⟨hm, hd⟩ := index_of_square g.width xy.1 xy.2 hx
  rw [mem_candidates, hm, hd]
  unfold LegalOrigin
  constructor
  · rintro ⟨-, h2, h3, h4, h5⟩
    exact ⟨h2, rfl, h3.imp id Eq.symm, h4.imp id Eq.symm, h5⟩
  · rintro ⟨h2, -, h3, h4, h5⟩
    exact ⟨hx, h2, h3.imp id Eq.symm, h4.imp id Eq.symm, h5⟩

theorem mem_candidates_legal (g : Game) (piece : Int) (board : Board) (from_ to_ : Coord)
    (white : Bool) (hw : 0 < g.width) (c : Nat × Option Int)
    (hc : c ∈ g.candidates piece board from_ to_ white) :
    c.2 = some piece
    ∧ LegalOrigin g piece board from_ to_ white (c.1 % g.width, c.1 / g.width) := by
  obtain ⟨hlt, hsum⟩ := square_of_index g.width c.1 hw
  have hc1 : (c.1, c.2) ∈ g.candidates piece board from_ to_ white := hc
  have hp := ((mem_candidates g piece board from_ to_ white c.1 c.2).mp hc1).2.1
  refine ⟨hp, ?_⟩
  rw [legal_origin_iff_mem g piece board from_ to_ white _ hlt]
  simp only
  rw [hsum, ← hp]
  exact hc

theorem eq_singleton_of_nodup {α : Type} (l : List α) (a : α) (hn : l.Nodup) (ha : a ∈ l)
    (hall : ∀ b ∈ l, b = a) : l = [a] := by
  match l, hn, ha, hall with
  | [], _, ha, _ => simp at ha
  | [b], _, _, hall => rw [hall b (by simp)]
  | b :: c :: rest, hn, _, hall =>
    exfalso
    have hb := hall b (by simp)
    have hc := hall c (by simp)
    rw [hb, hc] at hn
    simp at hn

theorem resolve_origin_omitted (g : Game) (piece : Int) (board : Board) (from_ to_ : Coord)
    (white : Bool) (hpart : from_.x = -1 ∨ from_.y = -1) (hl : from_.l = to_.l)
    (ht : from_.t = to_.t) (from1 : Coord) :
    g.resolve_origin piece board from_ to_ white = .ok from1 ↔
      ∃ c, g.candidates piece board from_ to_ white = [c]
        ∧ from1 = { from_ with x := ((c.1 % g.width : Nat) : Int),
                               y := ((c.1 / g.width : Nat) : Int) } := by
  unfold Game.resolve_origin
  rw [if_pos hpart, if_neg (by simp [hl, ht])]
  simp only
  cases hc : g.candidates piece board from_ to_ white with
  | nil => simp
  | cons c rest =>
    cases rest with
    | nil =>
      simp only [List.length_singleton, gt_iff_lt, lt_self_iff_false, if_false]
      constructor
      · intro h
        cases h
        exact ⟨c, rfl, rfl⟩
      · rintro ⟨c1, h1, h2⟩
        cases h1
        rw [h2]
    | cons d rest2 =>
      simp only [List.length_cons, gt_iff_lt]
      rw [if_pos (by omega)]
      constructor
      · intro h; cases h
      · rintro ⟨c1, h1, -⟩
        cases h1

theorem coord_ne_iff (a b : Coord) :
    ¬ (a.l = b.l ∧ a.t = b.t ∧ a.x = b.x ∧ a.y = b.y) ↔ a ≠ b := by
  constructor
  · intro h hab
    exact h (by rw [hab]; exact ⟨rfl, rfl, rfl, rfl⟩)
  · intro h hab
    apply h
    cases a; cases b
    simp only [Coord.mk.injEq]
    exact hab

theorem can_move_white_pawn (g : Game) (from_ to_ : Coord) (white : Bool) (hne : from_ ≠ to_) :
    g.can_move PIECES.W_PAWN from_ to_ white =
      if g.get_as to_.l to_.t to_.x to_.y white != some PIECES.BLANK then
        some ((from_.l == to_.l
            && from_.t == to_.t
            && (from_.x == to_.x + 1 || from_.x == to_.x - 1)
            && from_.y == to_.y - 1)
          || (from_.l == to_.l - 1
            && from_.t == to_.t + 1
            && from_.x == to_.x
            && from_.y == to_.y))
      else
        some ((from_.l == to_.l
            && from_.t == to_.t
            && from_.x == to_.x
            && (from_.y == to_.y - 1
              || (from_.y == to_.y - 2
                && g.get_as to_.l to_.t to_.x (to_.y - 1) white == some PIECES.BLANK)))
          || (from_.l == to_.t - 1
            && from_.t == to_.t
            && from_.x == to_.x
            && from_.y == to_.y)) := by
  unfold Game.can_move
  rw [if_neg ((coord_ne_iff from_ to_).mpr hne), if_pos rfl]

theorem can_move_black_pawn (g : Game) (from_ to_ : Coord) (white : Bool) (hne : from_ ≠ to_) :
    g.can_move PIECES.B_PAWN from_ to_ white =
      if g.get_as to_.l to_.t to_.x to_.y white != some PIECES.BLANK then
        some ((from_.l == to_.l
            && from_.t == to_.t
            && (from_.x == to_.x + 1 || from_.x == to_.x - 1)
            && from_.y == to_.y + 1)
          || (from_.l == to_.l + 1
            && from_.t == to_.t + 1
            && from_.x == to_.x
            && from_.y == to_.y))
      else
        some ((from_.l == to_.l
            && from_.t == to_.t
            && from_.x == to_.x
            && (from_.y == to_.y + 1
              || (from_.y == to_.y + 2
                && g.get_as to_.l to_.t to_.x (to_.y + 1) white == some PIECES.BLANK)))
          || (from_.l == to_.l + 1
            && from_.t == to_.t
            && from_.x == to_.x
            && from_.y == to_.y)) := by
  unfold Game.can_move
  rw [if_neg ((coord_ne_iff from_ to_).mpr hne), if_neg (by decide), if_pos rfl]

theorem white_pawn_same_board (g : Game) (from_ to_ : Coord) (white : Bool)
    (hl : from_.l = to_.l) (ht : from_.t = to_.t) (hne : from_ ≠ to_) :
    g.can_move PIECES.W_PAWN from_ to_ white = some true ↔
      (g.get_as to_.l to_.t to_.x to_.y white = some PIECES.BLANK
        ∧ to_.x - from_.x = 0
        ∧ (to_.y - from_.y = 1
          ∨ (to_.y - from_.y = 2
            ∧ g.get_as to_.l to_.t to_.x (to_.y - 1) white = some PIECES.BLANK)))
      ∨ (g.get_as to_.l to_.t to_.x to_.y white ≠ some PIECES.BLANK
        ∧ (to_.x - from_.x = 1 ∨ to_.x - from_.x = -1)
        ∧ to_.y - from_.y = 1) := by
  rw [can_move_white_pawn g from_ to_ white hne]
  have hxy : ¬ (from_.x = to_.x ∧ from_.y = to_.y) := fun h =>
    (coord_ne_iff from_ to_).mpr hne ⟨hl, ht, h.1, h.2⟩
  by_cases hb : g.get_as to_.l to_.t to_.x to_.y white = some PIECES.BLANK
  · simp only [hb, bne_self_eq_false, Bool.false_eq_true, if_false, Option.some.injEq,
      Bool.or_eq_true, Bool.and_eq_true, beq_iff_eq, ne_eq, not_true_eq_false, false_and,
      or_false, true_and]
    constructor
    · rintro (⟨⟨⟨-, -⟩, hx⟩, hy⟩ | ⟨⟨⟨-, -⟩, hx⟩, hy⟩)
      · refine ⟨by omega, ?_⟩
        rcases hy with hy | ⟨hy, hmid⟩
        · exact Or.inl (by omega)
        · exact Or.inr ⟨by omega, hmid⟩
      · exact absurd ⟨hx, hy⟩ hxy
    · rintro ⟨hx, hy⟩
      refine Or.inl ⟨⟨⟨hl, ht⟩, by omega⟩, ?_⟩
      rcases hy with hy | ⟨hy, hmid⟩
      · exact Or.inl (by omega)
      · exact Or.inr ⟨by omega, hmid⟩
  · have hb2 : (g.get_as to_.l to_.t to_.x to_.y white != some PIECES.BLANK) = true := by
      simpa using hb
    simp only [hb2, if_true, Option.some.injEq, Bool.or_eq_true, Bool.and_eq_true, beq_iff_eq,
      hb, false_and, false_or, ne_eq, not_false_eq_true, true_and]
    constructor
    · rintro (⟨⟨⟨-, -⟩, hx⟩, hy⟩ | ⟨⟨⟨h1, -⟩, -⟩, -⟩)
      · exact ⟨by omega, by omega⟩
      · omega
    · rintro ⟨hx, hy⟩
      exact Or.inl ⟨⟨⟨hl, ht⟩, by omega⟩, by omega⟩

theorem black_pawn_same_board (g : Game) (from_ to_ : Coord) (white : Bool)
    (hl : from_.l = to_.l) (ht : from_.t = to_.t) (hne : from_ ≠ to_) :
    g.can_move PIECES.B_PAWN from_ to_ white = some true ↔
      (g.get_as to_.l to_.t to_.x to_.y white = some PIECES.BLANK
        ∧ to_.x - from_.x = 0
        ∧ (to_.y - from_.y = -1
          ∨ (to_.y - from_.y = -2
            ∧ g.get_as to_.l to_.t to_.x (to_.y + 1) white = some PIECES.BLANK)))
      ∨ (g.get_as to_.l to_.t to_.x to_.y white ≠ some PIECES.BLANK
        ∧ (to_.x - from_.x = 1 ∨ to_.x - from_.x = -1)
        ∧ to_.y - from_.y = -1) := by
  rw [can_move_black_pawn g from_ to_ white hne]
  by_cases hb : g.get_as to_.l to_.t to_.x to_.y white = some PIECES.BLANK
  · simp only [hb, bne_self_eq_false, Bool.false_eq_true, if_false, Option.some.injEq,
      Bool.or_eq_true, Bool.and_eq_true, beq_iff_eq, ne_eq, not_true_eq_false, false_and,
      or_false, true_and]
    constructor
    · rintro (⟨⟨⟨-, -⟩, hx⟩, hy⟩ | ⟨⟨⟨h1, -⟩, -⟩, -⟩)
      · refine ⟨by omega, ?_⟩
        rcases hy with hy | ⟨hy, hmid⟩
        · exact Or.inl (by omega)
        · exact Or.inr ⟨by omega, hmid⟩
      · omega
    · rintro ⟨hx, hy⟩
      refine Or.inl ⟨⟨⟨hl, ht⟩, by omega⟩, ?_⟩
      rcases hy with hy | ⟨hy, hmid⟩
      · exact Or.inl (by omega)
      · exact Or.inr ⟨by omega, hmid⟩
  · have hb2 : (g.get_as to_.l to_.t to_.x to_.y white != some PIECES.BLANK) = true := by
      simpa using hb
    simp only [hb2, if_true, Option.some.injEq, Bool.or_eq_true, Bool.and_eq_true, beq_iff_eq,
      hb, false_and, false_or, ne_eq, not_false_eq_true, true_and]
    constructor
    · rintro (⟨⟨⟨-, -⟩, hx⟩, hy⟩ | ⟨⟨⟨h1, -⟩, -⟩, -⟩)
      · exact ⟨by omega, by omega⟩
      · omega
    · rintro ⟨hx, hy⟩
      exact Or.inl ⟨⟨⟨hl, ht⟩, by omega⟩, by omega⟩

theorem get_board_as_eq (g : Game) (l t : Int) (white : Bool) :
    g.get_board_as l t white = g.get_board l (t * 2 + notWhite white) := rfl

theorem get_as_eq_get (g : Game) (l t x y : Int) (white : Bool) :
    g.get_as l t x y white = g.get l (t * 2 + notWhite white) x y := rfl

theorem board_get_none_iff (b : Board) (n : Nat) (hlen : b.cells.length = n)
    (hfull : ∀ c ∈ b.cells, c ≠ none) (hprops : b.props = []) (i : Int) :
    b.get i = none ↔ (i < 0 ∨ (n : Int) ≤ i) := by
  unfold Board.get
  by_cases hi : i < 0
  · rw [if_pos hi, hprops]
    simp [hi, List.lookup]
  · rw [if_neg hi]
    unfold jsAt
    rw [if_neg hi]
    by_cases hlt : i.toNat < b.cells.length
    · rw [List.getElem?_eq_getElem hlt]
      have hmem : b.cells[i.toNat] ∈ b.cells := List.getElem_mem hlt
      have hne := hfull _ hmem
      constructor
      · intro h
        exact absurd h hne
      · intro h
        omega
    · rw [List.getElem?_eq_none (by omega)]
      constructor
      · intro _
        right
        omega
      · intro _
        rfl

theorem find_push_all (g : Game) (l : Int) (boards : List Board) (tl : Timeline)
    (h : g.find_timeline l = some tl) :
    ∃ tl1, (g.push_all l boards).find_timeline l = some tl1
      ∧ tl1.states.length = tl.states.length + boards.length
      ∧ tl1.begins_at = tl.begins_at := by
  induction boards generalizing g tl with
  | nil => exact ⟨tl, h, by simp, rfl⟩
  | cons b rest ih =>
    have hstep : (g.push_board l b).1.find_timeline l = some (tl.push_state b) := by
      rw [push_board_of_find g l b tl h]
      simp only
      rw [find_timeline_push g l l _ (push_state_index b), if_pos rfl, h]
      rfl
    obtain ⟨tl1, h1, h2, h3⟩ := ih (g.push_board l b).1 (tl.push_state b) hstep
    refine ⟨tl1, h1, ?_, h3⟩
    rw [h2]
    have hlen : (tl.push_state b).states.length = tl.states.length + 1 := by
      simp [Timeline.push_state]
    rw [hlen, List.length_cons]
    omega

theorem jsToInt32_small (z : Int) (h0 : 0 ≤ z) (h1 : z < 2147483648) : jsToInt32 z = z := by
  unfold jsToInt32
  omega

/-! ## The extent queries as folds -/

theorem fold_min_finite (p : Timeline → Bool) (tls : List Timeline) (e : Int) :
    ∃ r, tls.foldl
        (fun index timeline =>
          if p timeline && ExtInt.int_lt timeline.index index then .finite timeline.index
          else index) (.finite e) = .finite r
      ∧ r ≤ e
      ∧ (∀ tl ∈ tls, p tl = true → r ≤ tl.index)
      ∧ (r = e ∨ ∃ tl ∈ tls, p tl = true ∧ tl.index = r) := by
  induction tls generalizing e with
  | nil => exact ⟨e, rfl, le_refl _, by simp, Or.inl rfl⟩
  | cons tl rest ih =>
    rw [List.foldl_cons]
    by_cases hstep : (p tl && ExtInt.int_lt tl.index (.finite e)) = true
    · rw [if_pos hstep]
      have hp : p tl = true := by
        rw [Bool.and_eq_true] at hstep; exact hstep.1
      have hlt : tl.index < e := by
        rw [Bool.and_eq_true] at hstep
        simpa [ExtInt.int_lt] using hstep.2
      obtain ⟨r, h1, h2, h3, h4⟩ := ih tl.index
      refine ⟨r, h1, by omega, ?_, ?_⟩
      · intro t ht hpt
        rcases List.mem_cons.mp ht with rfl | hmem
        · exact h2
        · exact h3 t hmem hpt
      · right
        rcases h4 with h4 | ⟨t, hmem, hpt, hidx⟩
        · exact ⟨tl, List.mem_cons_self _ _, hp, h4.symm⟩
        · exact ⟨t, List.mem_cons_of_mem _ hmem, hpt, hidx⟩
    · rw [if_neg hstep]
      obtain ⟨r, h1, h2, h3, h4⟩ := ih e
      refine ⟨r, h1, h2, ?_, ?_⟩
      · intro t ht hpt
        rcases List.mem_cons.mp ht with rfl | hmem
        · have hnlt : ¬ t.index < e := by
            intro hlt
            apply hstep
            rw [Bool.and_eq_true]
            exact ⟨hpt, by simpa [ExtInt.int_lt] using hlt⟩
          omega
        · exact h3 t hmem hpt
      · rcases h4 with h4 | ⟨t, hmem, hpt, hidx⟩
        · exact Or.inl h4
        · exact Or.inr ⟨t, List.mem_cons_of_mem _ hmem, hpt, hidx⟩

theorem fold_max_finite (p : Timeline → Bool) (tls : List Timeline) (e : Int) :
    ∃ r, tls.foldl
        (fun index timeline =>
          if p timeline && ExtInt.int_gt timeline.index index then .finite timeline.index
          else index) (.finite e) = .finite r
      ∧ e ≤ r
      ∧ (∀ tl ∈ tls, p tl = true → tl.index ≤ r)
      ∧ (r = e ∨ ∃ tl ∈ tls, p tl = true ∧ tl.index = r) := by
  induction tls generalizing e with
  | nil => exact ⟨e, rfl, le_refl _, by simp, Or.inl rfl⟩
  | cons tl rest ih =>
    rw [List.foldl_cons]
    by_cases hstep : (p tl && ExtInt.int_gt tl.index (.finite e)) = true
    · rw [if_pos hstep]
      have hp : p tl = true := by
        rw [Bool.and_eq_true] at hstep; exact hstep.1
      have hlt : e < tl.index := by
        rw [Bool.and_eq_true] at hstep
        simpa [ExtInt.int_gt] using hstep.2
      obtain ⟨r, h1, h2, h3, h4⟩ := ih tl.index
      refine ⟨r, h1, by omega, ?_, ?_⟩
      · intro t ht hpt
        rcases List.mem_cons.mp ht with rfl | hmem
        · exact h2
        · exact h3 t hmem hpt
      · right
        rcases h4 with h4 | ⟨t, hmem, hpt, hidx⟩
        · exact ⟨tl, List.mem_cons_self _ _, hp, h4.symm⟩
        · exact ⟨t, List.mem_cons_of_mem _ hmem, hpt, hidx⟩
    · rw [if_neg hstep]
      obtain ⟨r, h1, h2, h3, h4⟩ := ih e
      refine ⟨r, h1, h2, ?_, ?_⟩
      · intro t ht hpt
        rcases List.mem_cons.mp ht with rfl | hmem
        · have hnlt : ¬ e < t.index := by
            intro hlt
            apply hstep
            rw [Bool.and_eq_true]
            exact ⟨hpt, by simpa [ExtInt.int_gt] using hlt⟩
          omega
        · exact h3 t hmem hpt
      · rcases h4 with h4 | ⟨t, hmem, hpt, hidx⟩
        · exact Or.inl h4
        · exact Or.inr ⟨t, List.mem_cons_of_mem _ hmem, hpt, hidx⟩

theorem lowest_timeline_cons (tl : Timeline) (rest : List Timeline) :
    (tl :: rest).foldl
        (fun index timeline =>
          if ExtInt.int_lt timeline.index index then .finite timeline.index else index)
        .infinity =
      rest.foldl
        (fun index timeline =>
          if true && ExtInt.int_lt timeline.index index then .finite timeline.index
          else index) (.finite tl.index) := by
  simp only [Bool.true_and]
  rfl

theorem highest_timeline_cons (tl : Timeline) (rest : List Timeline) :
    (tl :: rest).foldl
        (fun index timeline =>
          if ExtInt.int_gt timeline.index index then .finite timeline.index else index)
        .neg_infinity =
      rest.foldl
        (fun index timeline =>
          if true && ExtInt.int_gt timeline.index index then .finite timeline.index
          else index) (.finite tl.index) := by
  simp only [Bool.true_and]
  rfl

theorem lowest_timeline_spec (g : Game) (hne : g.timelines ≠ []) :
    ∃ tl ∈ g.timelines, g.lowest_timeline = .finite tl.index
      ∧ ∀ t ∈ g.timelines, tl.index ≤ t.index := by
  unfold Game.lowest_timeline
  match hg : g.timelines, hne with
  | tl :: rest, _ =>
    rw [lowest_timeline_cons]
    obtain ⟨r, h1, h2, h3, h4⟩ := fold_min_finite (fun _ => true) rest tl.index
    rcases h4 with h4 | ⟨t, hmem, -, hidx⟩
    · refine ⟨tl, List.mem_cons_self _ _, by rw [h1, h4], ?_⟩
      intro t ht
      rcases List.mem_cons.mp ht with rfl | hmem
      · exact le_refl _
      · rw [← h4]; exact h3 t hmem rfl
    · refine ⟨t, List.mem_cons_of_mem _ hmem, by rw [h1, hidx], ?_⟩
      intro u hu
      rw [hidx]
      rcases List.mem_cons.mp hu with rfl | hmem2
      · exact h2
      · exact h3 u hmem2 rfl

theorem highest_timeline_spec (g : Game) (hne : g.timelines ≠ []) :
    ∃ tl ∈ g.timelines, g.highest_timeline = .finite tl.index
      ∧ ∀ t ∈ g.timelines, t.index ≤ tl.index := by
  unfold Game.highest_timeline
  match hg : g.timelines, hne with
  | tl :: rest, _ =>
    rw [highest_timeline_cons]
    obtain ⟨r, h1, h2, h3, h4⟩ := fold_max_finite (fun _ => true) rest tl.index
    rcases h4 with h4 | ⟨t, hmem, -, hidx⟩
    · refine ⟨tl, List.mem_cons_self _ _, by rw [h1, h4], ?_⟩
      intro t ht
      rcases List.mem_cons.mp ht with rfl | hmem
      · exact le_refl _
      · rw [← h4]; exact h3 t hmem rfl
    · refine ⟨t, List.mem_cons_of_mem _ hmem, by rw [h1, hidx], ?_⟩
      intro u hu
      rw [hidx]
      rcases List.mem_cons.mp hu with rfl | hmem2
      · exact h2
      · exact h3 u hmem2 rfl

theorem colour_test (tl : Timeline) (c : Bool) :
    (some tl.active_player == some c || some c == (none : Option Bool)) = true ↔
      tl.active_player = c := by
  simp

theorem lowest_active_colour (g : Game) (c : Bool)
    (hc : ∃ tl ∈ g.timelines, tl.active_player = c) :
    ∃ tl ∈ g.timelines, tl.active_player = c
      ∧ g.lowest_active_timeline (some c) = .finite tl.index
      ∧ ∀ t ∈ g.timelines, t.active_player = c → tl.index ≤ t.index := by
  obtain ⟨t0, ht0, hc0⟩ := hc
  have hne : g.timelines ≠ [] := List.ne_nil_of_mem ht0
  obtain ⟨top, -, htop, hmax⟩ := highest_timeline_spec g hne
  unfold Game.lowest_active_timeline
  rw [htop]
  obtain ⟨r, h1, h2, h3, h4⟩ := fold_min_finite
    (fun tl => some tl.active_player == some c || some c == (none : Option Bool))
    g.timelines top.index
  have hall : ∀ t ∈ g.timelines, t.active_player = c → r ≤ t.index :=
    fun t ht htc => h3 t ht ((colour_test t c).mpr htc)
  rcases h4 with h4 | ⟨t, hmem, hpt, hidx⟩
  · have h5 := hall t0 ht0 hc0
    have h6 := hmax t0 ht0
    have h7 : t0.index = r := by omega
    exact ⟨t0, ht0, hc0, by rw [h1, h7], by rw [h7]; exact hall⟩
  · exact ⟨t, hmem, (colour_test t c).mp hpt, by rw [h1, hidx], by rw [hidx]; exact hall⟩

theorem highest_active_colour (g : Game) (c : Bool)
    (hc : ∃ tl ∈ g.timelines, tl.active_player = c) :
    ∃ tl ∈ g.timelines, tl.active_player = c
      ∧ g.highest_active_timeline (some c) = .finite tl.index
      ∧ ∀ t ∈ g.timelines, t.active_player = c → t.index ≤ tl.index := by
  obtain ⟨t0, ht0, hc0⟩ := hc
  have hne : g.timelines ≠ [] := List.ne_nil_of_mem ht0
  obtain ⟨bot, -, hbot, hmin⟩ := lowest_timeline_spec g hne
  unfold Game.highest_active_timeline
  rw [hbot]
  obtain ⟨r, h1, h2, h3, h4⟩ := fold_max_finite
    (fun tl => some tl.active_player == some c || some c == (none : Option Bool))
    g.timelines bot.index
  have hall : ∀ t ∈ g.timelines, t.active_player = c → t.index ≤ r :=
    fun t ht htc => h3 t ht ((colour_test t c).mpr htc)
  rcases h4 with h4 | ⟨t, hmem, hpt, hidx⟩
  · have h5 := hall t0 ht0 hc0
    have h6 := hmin t0 ht0
    have h7 : t0.index = r := by omega
    exact ⟨t0, ht0, hc0, by rw [h1, h7], by rw [h7]; exact hall⟩
  · exact ⟨t, hmem, (colour_test t c).mp hpt, by rw [h1, hidx], by rw [hidx]; exact hall⟩

theorem lowest_active_any (g : Game) (hne : g.timelines ≠ []) :
    g.lowest_active_timeline none = g.lowest_timeline := by
  obtain ⟨top, htopmem, htop, hmax⟩ := highest_timeline_spec g hne
  obtain ⟨bot, hbotmem, hbot, hmin⟩ := lowest_timeline_spec g hne
  rw [hbot]
  unfold Game.lowest_active_timeline
  rw [htop]
  obtain ⟨r, h1, h2, h3, h4⟩ := fold_min_finite
    (fun tl => some tl.active_player == (none : Option Bool)
      || (none : Option Bool) == (none : Option Bool))
    g.timelines top.index
  rw [h1]
  have hle : r ≤ bot.index := h3 bot hbotmem (by simp)
  have hge : bot.index ≤ r := by
    rcases h4 with h4 | ⟨t, hmem, -, hidx⟩
    · rw [h4]; exact hmin top htopmem
    · rw [← hidx]; exact hmin t hmem
  congr 1
  omega

theorem highest_active_any (g : Game) (hne : g.timelines ≠ []) :
    g.highest_active_timeline none = g.highest_timeline := by
  obtain ⟨top, htopmem, htop, hmax⟩ := highest_timeline_spec g hne
  obtain ⟨bot, hbotmem, hbot, hmin⟩ := lowest_timeline_spec g hne
  rw [htop]
  unfold Game.highest_active_timeline
  rw [hbot]
  obtain ⟨r, h1, h2, h3, h4⟩ := fold_max_finite
    (fun tl => some tl.active_player == (none : Option Bool)
      || (none : Option Bool) == (none : Option Bool))
    g.timelines bot.index
  rw [h1]
  have hle : top.index ≤ r := h3 top htopmem (by simp)
  have hge : r ≤ top.index := by
    rcases h4 with h4 | ⟨t, hmem, -, hidx⟩
    · rw [h4]; exact hmax bot hbotmem
    · rw [← hidx]; exact hmax t hmem
  congr 1
  omega

/-! ## The default sort on four magnitudes -/

theorem jsInsert_perm (x : Int) (l : List Int) : (jsInsert x l).Perm (x :: l) := by
  induction l with
  | nil => exact List.Perm.refl _
  | cons y ys ih =>
    unfold jsInsert
    split
    · exact List.Perm.refl _
    · exact (List.Perm.cons y ih).trans (List.Perm.swap x y ys)

theorem jsSort_fold_perm (xs acc : List Int) :
    (xs.foldl (fun acc x => jsInsert x acc) acc).Perm (xs ++ acc) := by
  induction xs generalizing acc with
  | nil => exact List.Perm.refl _
  | cons x rest ih =>
    rw [List.foldl_cons]
    refine (ih (jsInsert x acc)).trans ?_
    refine (List.Perm.append_left rest (jsInsert_perm x acc)).trans ?_
    rw [List.cons_append]
    exact List.perm_middle

theorem jsSort_perm (xs : List Int) : (jsSort xs).Perm xs := by
  unfold jsSort
  simpa using jsSort_fold_perm xs []

theorem natCodesAux_head (fuel n : Nat) (acc : List Nat) (hn : 0 < n) (hf : n < fuel) :
    ∃ h rest, natCodesAux fuel n acc = h :: rest ∧ 48 < h := by
  induction fuel generalizing n acc with
  | zero => omega
  | succ fuel ih =>
    unfold natCodesAux
    by_cases hsmall : n / 10 = 0
    · rw [if_pos hsmall]
      refine ⟨48 + n % 10, acc, rfl, ?_⟩
      have : n < 10 := by omega
      omega
    · rw [if_neg hsmall]
      exact ih (n / 10) _ (by omega) (by omega)

theorem jsStr_zero : jsStr 0 = [48] := by decide

theorem jsStr_pos_head (x : Int) (hx : 0 < x) : ∃ h rest, jsStr x = h :: rest ∧ 48 < h := by
  unfold jsStr
  rw [if_neg (by omega)]
  unfold natCodes
  exact natCodesAux_head _ _ [] (by omega) (by omega)

theorem zero_before_pos (x : Int) (hx : 0 < x) :
    codesLt (jsStr 0) (jsStr x) = true ∧ codesLt (jsStr x) (jsStr 0) = false := by
  obtain ⟨h, rest, hs, hh⟩ := jsStr_pos_head x hx
  rw [hs, jsStr_zero]
  constructor
  · simp [codesLt, hh]
  · have h1 : ¬ h < 48 := by omega
    have h2 : ¬ h = 48 := by omega
    simp [codesLt, h1, h2]

theorem jsInsert_zero_first (x : Int) (l : List Int) (hx : 0 ≤ x) (hl : ∀ y ∈ l, 0 ≤ y)
    (hp : l.Pairwise (fun a b => b = 0 → a = 0)) :
    (jsInsert x l).Pairwise (fun a b => b = 0 → a = 0) := by
  induction l with
  | nil => simp [jsInsert]
  | cons y ys ih =>
    rw [List.pairwise_cons] at hp
    have hy : 0 ≤ y := hl y (List.mem_cons_self _ _)
    unfold jsInsert
    split
    · rename_i hlt
      rw [List.pairwise_cons]
      refine ⟨?_, List.pairwise_cons.mpr hp⟩
      intro b hb hb0
      by_contra hx0
      have hxpos : 0 < x := by omega
      have hy0 : y = 0 := by
        rcases List.mem_cons.mp hb with rfl | hmem
        · exact hb0
        · exact hp.1 b hmem hb0
      rw [hy0, (zero_before_pos x hxpos).2] at hlt
      cases hlt
    · rename_i hlt
      rw [List.pairwise_cons]
      refine ⟨?_, ih (fun z hz => hl z (List.mem_cons_of_mem _ hz)) hp.2⟩
      intro b hb hb0
      have hb2 := (jsInsert_perm x ys).mem_iff.mp hb
      rcases List.mem_cons.mp hb2 with rfl | hmem
      · by_contra hy0
        have hypos : 0 < y := by omega
        rw [hb0, (zero_before_pos y hypos).1] at hlt
        exact hlt rfl
      · exact hp.1 b hmem hb0

theorem jsSort_fold_zero_first (xs acc : List Int) (hxs : ∀ y ∈ xs, 0 ≤ y)
    (hacc : ∀ y ∈ acc, 0 ≤ y) (hp : acc.Pairwise (fun a b => b = 0 → a = 0)) :
    (xs.foldl (fun acc x => jsInsert x acc) acc).Pairwise (fun a b => b = 0 → a = 0) := by
  induction xs generalizing acc with
  | nil => exact hp
  | cons x rest ih =>
    rw [List.foldl_cons]
    have hx : 0 ≤ x := hxs x (List.mem_cons_self _ _)
    apply ih (jsInsert x acc) (fun y hy => hxs y (List.mem_cons_of_mem _ hy))
    · intro y hy
      rcases List.mem_cons.mp ((jsInsert_perm x acc).mem_iff.mp hy) with rfl | hmem
      · exact hx
      · exact hacc y hmem
    · exact jsInsert_zero_first x acc hx hacc hp

theorem jsSort_zero_first (xs : List Int) (hxs : ∀ y ∈ xs, 0 ≤ y) :
    (jsSort xs).Pairwise (fun a b => b = 0 → a = 0) := by
  unfold jsSort
  exact jsSort_fold_zero_first xs [] hxs (by simp) List.Pairwise.nil

/-- The magnitudes of a displacement. -/
theorem sortedMagnitudes_shape (from_ to_ : Coord) :
    ∃ a0 a1 a2 a3 : Int,
      sortedMagnitudes from_ to_ = [a0, a1, a2, a3]
      ∧ [a3, a2, a1, a0].Perm ((displacement from_ to_).map (fun x => (x.natAbs : Int)))
      ∧ (a2 = 0 → a3 = 0) ∧ (a1 = 0 → a2 = 0) ∧ (a0 = 0 → a1 = 0) := by
  have hperm := jsSort_perm ((displacement from_ to_).map (fun x => (x.natAbs : Int)))
  have hnonneg : ∀ y ∈ (displacement from_ to_).map (fun x => (x.natAbs : Int)), 0 ≤ y := by
    intro y hy
    rw [List.mem_map] at hy
    obtain ⟨x, -, rfl⟩ := hy
    exact Int.ofNat_nonneg _
  have hzf := jsSort_zero_first _ hnonneg
  have hlen : (jsSort ((displacement from_ to_).map (fun x => (x.natAbs : Int)))).length = 4 := by
    rw [hperm.length_eq]
    rfl
  unfold sortedMagnitudes
  rcases hs : jsSort ((displacement from_ to_).map (fun x => (x.natAbs : Int))) with
    _ | ⟨s0, _ | ⟨s1, _ | ⟨s2, _ | ⟨s3, _ | ⟨s4, r⟩⟩⟩⟩⟩
  · rw [hs] at hlen; simp at hlen
  · rw [hs] at hlen; simp at hlen
  · rw [hs] at hlen; simp at hlen
  · rw [hs] at hlen; simp at hlen
  · rw [hs] at hperm hzf
    refine ⟨s3, s2, s1, s0, by rw [hs]; rfl, hperm, ?_, ?_, ?_⟩
    · intro h
      have := (List.pairwise_cons.mp hzf).1 s1 (by simp)
      exact this h
    · intro h
      have := (List.pairwise_cons.mp (List.pairwise_cons.mp hzf).2).1 s2 (by simp)
      exact this h
    · intro h
      have := (List.pairwise_cons.mp (List.pairwise_cons.mp (List.pairwise_cons.mp hzf).2).2).1
        s3 (by simp)
      exact this h
  · rw [hs] at hlen; simp at hlen

theorem can_move_sliders (g : Game) (from_ to_ : Coord) (white : Bool) (hne : from_ ≠ to_)
    (a0 a1 a2 a3 : Int) (hs : sortedMagnitudes from_ to_ = [a0, a1, a2, a3]) :
    (g.can_move PIECES.W_ROOK from_ to_ white
        = some (a1 == 0 && a2 == 0 && a3 == 0 && g.path_clear from_ to_ white)
      ∧ g.can_move PIECES.B_ROOK from_ to_ white
        = some (a1 == 0 && a2 == 0 && a3 == 0 && g.path_clear from_ to_ white))
    ∧ (g.can_move PIECES.W_BISHOP from_ to_ white
        = some (a0 == a1 && a2 == 0 && a3 == 0 && g.path_clear from_ to_ white)
      ∧ g.can_move PIECES.B_BISHOP from_ to_ white
        = some (a0 == a1 && a2 == 0 && a3 == 0 && g.path_clear from_ to_ white))
    ∧ (g.can_move PIECES.W_UNICORN from_ to_ white
        = some (a0 == a1 && a1 == a2 && a3 == 0 && g.path_clear from_ to_ white)
      ∧ g.can_move PIECES.B_UNICORN from_ to_ white
        = some (a0 == a1 && a1 == a2 && a3 == 0 && g.path_clear from_ to_ white))
    ∧ (g.can_move PIECES.W_DRAGON from_ to_ white
        = some (a0 == a1 && a1 == a2 && a2 == a3 && g.path_clear from_ to_ white)
      ∧ g.can_move PIECES.B_DRAGON from_ to_ white
        = some (a0 == a1 && a1 == a2 && a2 == a3 && g.path_clear from_ to_ white))
    ∧ (g.can_move PIECES.W_QUEEN from_ to_ white
        = some (((a1 == 0 && a2 == 0 && a3 == 0)
            || (a0 == a1 && a2 == 0 && a3 == 0)
            || (a0 == a1 && a1 == a2 && a3 == 0)
            || (a0 == a1 && a1 == a2 && a2 == a3))
          && g.path_clear from_ to_ white)
      ∧ g.can_move PIECES.B_QUEEN from_ to_ white
        = some (((a1 == 0 && a2 == 0 && a3 == 0)
            || (a0 == a1 && a2 == 0 && a3 == 0)
            || (a0 == a1 && a1 == a2 && a3 == 0)
            || (a0 == a1 && a1 == a2 && a2 == a3))
          && g.path_clear from_ to_ white)) := by
  have h0 := (coord_ne_iff from_ to_).mpr hne
  refine ⟨⟨?_, ?_⟩, ⟨?_, ?_⟩, ⟨?_, ?_⟩, ⟨?_, ?_⟩, ⟨?_, ?_⟩⟩ <;>
  · unfold Game.can_move
    rw [if_neg h0, if_neg (by decide), if_neg (by decide), hs]
    simp only
    first
      | rw [if_neg (by decide), if_pos (by decide)]
      | rw [if_neg (by decide), if_neg (by decide), if_pos (by decide)]
      | rw [if_neg (by decide), if_neg (by decide), if_neg (by decide), if_pos (by decide)]
      | rw [if_neg (by decide), if_neg (by decide), if_neg (by decide), if_neg (by decide),
          if_pos (by decide)]
      | rw [if_neg (by decide), if_neg (by decide), if_neg (by decide), if_neg (by decide),
          if_neg (by decide), if_pos (by decide)]

theorem can_move_knights (g : Game) (from_ to_ : Coord) (white : Bool) (hne : from_ ≠ to_)
    (a0 a1 a2 a3 : Int) (hs : sortedMagnitudes from_ to_ = [a0, a1, a2, a3]) :
    g.can_move PIECES.W_KNIGHT from_ to_ white = some (a0 == 2 && a1 == 1 && a2 == 0 && a3 == 0)
    ∧ g.can_move PIECES.B_KNIGHT from_ to_ white
        = some (a0 == 2 && a1 == 1 && a2 == 0 && a3 == 0) := by
  have h0 := (coord_ne_iff from_ to_).mpr hne
  constructor <;>
  · unfold Game.can_move
    rw [if_neg h0, if_neg (by decide), if_neg (by decide), hs]
    simp only
    rw [if_pos (by decide)]

theorem shape_of_sorted (a0 a1 a2 a3 : Int) (h0 : a0 ≠ 0)
    (h32 : a2 = 0 → a3 = 0) (h21 : a1 = 0 → a2 = 0) (k : Nat) :
    (([a3, a2, a1, a0].filter (fun x => decide (x ≠ 0))).length = k
      ∧ ∀ u ∈ [a3, a2, a1, a0], ∀ v ∈ [a3, a2, a1, a0], u ≠ 0 → v ≠ 0 → u = v) ↔
    ((k = 1 ∧ a1 = 0 ∧ a2 = 0 ∧ a3 = 0)
      ∨ (k = 2 ∧ a0 = a1 ∧ a2 = 0 ∧ a3 = 0)
      ∨ (k = 3 ∧ a0 = a1 ∧ a1 = a2 ∧ a3 = 0)
      ∨ (k = 4 ∧ a0 = a1 ∧ a1 = a2 ∧ a2 = a3)) := by
  by_cases h1 : a1 = 0
  · have h2 := h21 h1
    have h3 := h32 h2
    subst h1 h2 h3
    simp [List.filter, h0]
    omega
  · by_cases h2 : a2 = 0
    · have h3 := h32 h2
      subst h2 h3
      simp [List.filter, h0, h1]
      omega
    · by_cases h3 : a3 = 0
      · subst h3
        simp [List.filter, h0, h1, h2]
        omega
      · simp [List.filter, h0, h1, h2, h3]
        omega

theorem n_gonal_iff_magnitudes (k : Nat) (from_ to_ : Coord) (l : List Int)
    (hperm : l.Perm ((displacement from_ to_).map (fun x => (x.natAbs : Int)))) :
    n_gonal k from_ to_ ↔
      ((l.filter (fun x => decide (x ≠ 0))).length = k
        ∧ ∀ u ∈ l, ∀ v ∈ l, u ≠ 0 → v ≠ 0 → u = v) := by
  have hlen : (l.filter (fun x => decide (x ≠ 0))).length
      = ((displacement from_ to_).filter (fun x => decide (x ≠ 0))).length := by
    rw [(hperm.filter _).length_eq, List.filter_map, List.length_map]
    congr 1
    apply List.filter_congr
    intro x _
    simp
  have hmem : ∀ u, u ∈ l ↔ ∃ a ∈ displacement from_ to_, (a.natAbs : Int) = u := by
    intro u
    rw [hperm.mem_iff, List.mem_map]
  unfold n_gonal
  rw [hlen]
  constructor
  · rintro ⟨h1, h2⟩
    refine ⟨h1, ?_⟩
    intro u hu v hv hu0 hv0
    obtain ⟨a, ha, rfl⟩ := (hmem u).mp hu
    obtain ⟨b, hb, rfl⟩ := (hmem v).mp hv
    have := h2 a ha b hb (by intro h; apply hu0; simp [h]) (by intro h; apply hv0; simp [h])
    rw [this]
  · rintro ⟨h1, h2⟩
    refine ⟨h1, ?_⟩
    intro a ha b hb ha0 hb0
    have := h2 _ ((hmem _).mpr ⟨a, ha, rfl⟩) _ ((hmem _).mpr ⟨b, hb, rfl⟩)
      (by simpa using ha0) (by simpa using hb0)
    exact_mod_cast this

theorem sorted_head_ne_zero (from_ to_ : Coord) (hne : from_ ≠ to_) (a0 a1 a2 a3 : Int)
    (hperm : [a3, a2, a1, a0].Perm ((displacement from_ to_).map (fun x => (x.natAbs : Int))))
    (h32 : a2 = 0 → a3 = 0) (h21 : a1 = 0 → a2 = 0) (h10 : a0 = 0 → a1 = 0) : a0 ≠ 0 := by
  intro h0
  have h1 := h10 h0
  have h2 := h21 h1
  have h3 := h32 h2
  subst h0 h1 h2 h3
  apply (coord_ne_iff from_ to_).mpr hne
  have hz : ∀ a ∈ displacement from_ to_, a = 0 := by
    intro a ha
    have : ((a.natAbs : Int)) ∈ [(0 : Int), 0, 0, 0] :=
      hperm.mem_iff.mpr (List.mem_map.mpr ⟨a, ha, rfl⟩)
    simp at this
    exact this
  have hl := hz (to_.l - from_.l) (by simp [displacement])
  have ht := hz (to_.t - from_.t) (by simp [displacement])
  have hx := hz (to_.x - from_.x) (by simp [displacement])
  have hy := hz (to_.y - from_.y) (by simp [displacement])
  exact ⟨by omega, by omega, by omega, by omega⟩

theorem knight_finite_check (m0 m1 m2 m3 : Int)
    (h0 : m0 = 0 ∨ m0 = 1 ∨ m0 = 2) (h1 : m1 = 0 ∨ m1 = 1 ∨ m1 = 2)
    (h2 : m2 = 0 ∨ m2 = 1 ∨ m2 = 2) (h3 : m3 = 0 ∨ m3 = 1 ∨ m3 = 2) :
    (jsSort [m0, m1, m2, m3]).reverse = [2, 1, 0, 0] ↔
      List.insertionSort (fun a b => b ≤ a) [m0, m1, m2, m3] = [2, 1, 0, 0] := by
  rcases h0 with rfl | rfl | rfl <;> rcases h1 with rfl | rfl | rfl <;>
    rcases h2 with rfl | rfl | rfl <;> rcases h3 with rfl | rfl | rfl <;> decide

theorem knight_sort_agrees (m0 m1 m2 m3 : Int) :
    (jsSort [m0, m1, m2, m3]).reverse = [2, 1, 0, 0] ↔
      List.insertionSort (fun a b => b ≤ a) [m0, m1, m2, m3] = [2, 1, 0, 0] := by
  have hsmall : ∀ l : List Int, l.Perm [m0, m1, m2, m3] → (∀ x ∈ l, x = 0 ∨ x = 1 ∨ x = 2) →
      (m0 = 0 ∨ m0 = 1 ∨ m0 = 2) ∧ (m1 = 0 ∨ m1 = 1 ∨ m1 = 2)
      ∧ (m2 = 0 ∨ m2 = 1 ∨ m2 = 2) ∧ (m3 = 0 ∨ m3 = 1 ∨ m3 = 2) := by
    intro l hp hl
    exact ⟨hl _ (hp.mem_iff.mpr (by simp)), hl _ (hp.mem_iff.mpr (by simp)),
      hl _ (hp.mem_iff.mpr (by simp)), hl _ (hp.mem_iff.mpr (by simp))⟩
  constructor
  · intro h
    have hsorted : jsSort [m0, m1, m2, m3] = [0, 0, 1, 2] := by
      have := congrArg List.reverse h
      simpa using this
    obtain ⟨h0, h1, h2, h3⟩ := hsmall _ (jsSort_perm _) (by rw [hsorted]; decide)
    exact (knight_finite_check m0 m1 m2 m3 h0 h1 h2 h3).mp h
  · intro h
    obtain ⟨h0, h1, h2, h3⟩ := hsmall _ (List.perm_insertionSort _ _) (by rw [h]; decide)
    exact (knight_finite_check m0 m1 m2 m3 h0 h1 h2 h3).mpr h

/-! ## Active colour and ply parity -/

theorem parity_new (width height : Nat) (index : Int) (ref : Nat) :
    (Timeline.new width height index 2 ref).parity_ok := by
  unfold Timeline.parity_ok Timeline.new
  simp

theorem parity_push_state (board : Board) (tl : Timeline) (h : tl.parity_ok) :
    (tl.push_state board).parity_ok := by
  obtain ⟨-, hp⟩ := h
  unfold Timeline.parity_ok Timeline.push_state
  refine ⟨by simp, ?_⟩
  simp only [List.length_append, List.length_singleton, Nat.cast_add, Nat.cast_one,
    Bool.not_eq_true']
  cases ht : tl.turn
  · rw [ht] at hp
    simp only [Bool.false_eq_true, false_iff] at hp
    simp only [true_iff]
    omega
  · rw [ht] at hp
    simp only [true_iff] at hp
    simp only [Bool.true_eq_false, false_iff]
    omega

theorem parity_push_move (record : MoveRecord) (tl : Timeline) (h : tl.parity_ok) :
    (tl.push_move record).parity_ok := h

theorem parity_branch (width height : Nat) (index t : Int) (white : Bool) (ref : Nat)
    (board : Board) :
    Timeline.parity_ok
      { Timeline.new width height index (t * 2 + notWhite white + 1) ref with
        turn := !white
        states := [board] } := by
  unfold Timeline.parity_ok
  refine ⟨by simp, ?_⟩
  cases white
  · simp only [Timeline.new, notWhite, Bool.not_false, List.length_singleton, Nat.cast_one,
      Bool.false_eq_true, if_false, true_iff]
    omega
  · simp only [Timeline.new, notWhite, Bool.not_true, List.length_singleton, Nat.cast_one,
      if_true, Bool.false_eq_true, false_iff]
    omega

theorem all_update_first (P : Timeline → Prop) (l : Int) (f : Timeline → Timeline)
    (hf : ∀ tl, P tl → P (f tl)) (tls : List Timeline) (h : ∀ tl ∈ tls, P tl) :
    ∀ tl ∈ update_first l f tls, P tl := by
  induction tls with
  | nil => intro tl htl; simp [update_first] at htl
  | cons hd rest ih =>
    intro tl htl
    unfold update_first at htl
    split at htl
    · rcases List.mem_cons.mp htl with rfl | hmem
      · exact hf hd (h hd (List.mem_cons_self _ _))
      · exact h tl (List.mem_cons_of_mem _ hmem)
    · rcases List.mem_cons.mp htl with rfl | hmem
      · exact h _ (List.mem_cons_self _ _)
      · exact ih (fun t ht => h t (List.mem_cons_of_mem _ ht)) tl hmem

theorem parity_initial (width height : Nat) (ref : Nat) (indices : List Int) :
    ∀ tl ∈ Game.initial_timelines width height ref indices, tl.parity_ok := by
  induction indices generalizing ref with
  | nil => intro tl htl; simp [Game.initial_timelines] at htl
  | cons index rest ih =>
    intro tl htl
    unfold Game.initial_timelines at htl
    rcases List.mem_cons.mp htl with rfl | hmem
    · exact parity_new width height index ref
    · exact ih (ref + 1) tl hmem

theorem parity_push_board (g : Game) (l : Int) (board : Board)
    (h : ∀ tl ∈ g.timelines, tl.parity_ok) :
    ∀ tl ∈ (g.push_board l board).1.timelines, tl.parity_ok := by
  unfold Game.push_board
  cases g.find_timeline l with
  | none => exact h
  | some _ => exact all_update_first _ l _ (parity_push_state board) g.timelines h

theorem parity_apply_move (g : Game) (piece : Int) (src tgt : Board) (from_ to_ : Coord)
    (white : Bool) (tl1 tl2 : Timeline) (hf : g.find_timeline from_.l = some tl1)
    (ht : g.find_timeline to_.l = some tl2) (h : ∀ tl ∈ g.timelines, tl.parity_ok) :
    ∀ tl ∈ (g.apply_move piece src tgt from_ to_ white).game.timelines, tl.parity_ok := by
  by_cases href : src.ref = tgt.ref
  · rw [apply_move_same g piece src tgt from_ to_ white tl1 hf href]
    exact all_update_first _ _ _ (parity_push_move _) _
      (all_update_first _ _ _ (parity_push_state _) _ h)
  · by_cases hp : g.is_present to_.l (to_.t * 2 + notWhite white) = some true
    · rw [apply_move_jump g piece src tgt from_ to_ white tl1 tl2 hf ht href hp]
      exact all_update_first _ _ _ (parity_push_move _) _
        (all_update_first _ _ _ (parity_push_move _) _
          (all_update_first _ _ _ (parity_push_state _) _
            (all_update_first _ _ _ (parity_push_state _) _ h)))
    · rw [apply_move_branch g piece src tgt from_ to_ white tl1 hf href hp]
      apply all_update_first _ _ _ (parity_push_move _)
      intro tl htl
      rcases List.mem_append.mp htl with hold | hnew
      · exact all_update_first _ _ _ (parity_push_move _) _
          (all_update_first _ _ _ (parity_push_state _) _ h) tl hold
      · rw [List.mem_singleton] at hnew
        rw [hnew]
        exact parity_branch _ _ _ _ _ _ _

theorem parity_play (g : Game) (piece : Int) (from_ to_ : Coord) (white : Bool)
    (h : ∀ tl ∈ g.timelines, tl.parity_ok) :
    ∀ tl ∈ (g.play piece from_ to_ white).game.timelines, tl.parity_ok := by
  cases hs : g.get_board from_.l (from_.t * 2 + notWhite white) with
  | none =>
    unfold Game.play
    simp only [hs]
    exact h
  | some src =>
    cases ht : g.get_board to_.l (to_.t * 2 + notWhite white) with
    | none =>
      unfold Game.play
      simp only [hs, ht]
      exact h
    | some tgt =>
      cases hr : g.resolve_origin piece src from_ to_ white with
      | error e1 =>
        unfold Game.play
        simp only [hs, ht, hr]
        exact h
      | ok from2 =>
        rw [play_resolved g piece from_ to_ from2 white src tgt hs ht hr]
        obtain ⟨tl1, h1⟩ := find_of_get_board g _ _ _ hs
        obtain ⟨tl2, h2⟩ := find_of_get_board g _ _ _ ht
        rw [← (resolve_origin_lt g piece src from_ to_ from2 white hr).1] at h1
        exact parity_apply_move g piece src tgt from2 to_ white tl1 tl2 h1 h2 h

theorem parity_run_ops (g : Game) (ops : List GameOp) (g1 : Game)
    (h : ∀ tl ∈ g.timelines, tl.parity_ok) (hrun : g.run_ops ops = some g1) :
    ∀ tl ∈ g1.timelines, tl.parity_ok := by
  induction ops generalizing g with
  | nil =>
    unfold Game.run_ops at hrun
    cases hrun
    exact h
  | cons op rest ih =>
    cases op with
    | push l board =>
      unfold Game.run_ops at hrun
      exact ih _ (parity_push_board g l board h) hrun
    | play r =>
      unfold Game.run_ops at hrun
      have hp := parity_play g r.piece r.from_ r.to_ r.white h
      cases hplay : g.play r.piece r.from_ r.to_ r.white with
      | threw e g2 f2 => rw [hplay] at hrun; cases hrun
      | returned g2 f2 t2 pt =>
        rw [hplay] at hrun hp
        exact ih g2 hp hrun

theorem present_board_addressed (g : Game) (tl : Timeline) (h : tl.parity_ok)
    (hfind : g.find_timeline tl.index = some tl) :
    g.get_board_as tl.index tl.present_turn tl.turn = tl.states.getLast? := by
  obtain ⟨hne, hp⟩ := h
  unfold Game.get_board_as
  rw [hfind]
  simp only
  have hlen : 0 < tl.states.length := List.length_pos.mpr hne
  have hidx : tl.present_turn * 2 + notWhite tl.turn - tl.begins_at
      = ((tl.states.length - 1 : Nat) : Int) := by
    unfold Timeline.present_turn
    cases ht : tl.turn
    · rw [ht] at hp
      simp only [Bool.false_eq_true, false_iff] at hp
      simp only [notWhite, Bool.false_eq_true, if_false]
      omega
    · rw [ht] at hp
      simp only [true_iff] at hp
      simp only [notWhite, if_true]
      omega
  rw [hidx]
  unfold jsAt
  rw [if_neg (by omega), Int.toNat_ofNat, List.getLast?_eq_getElem?]

/-! ## The claims -/

/-- C1 (timeline indices stay pairwise distinct) fails on the code: from
`new Game(2, 2, [0])`, five calls of `play` that all return (a white move, a
black move, a white branch into the past, a black move, a second white branch
into the past) leave three timelines with indices 0, 1 and 1.  The second
branch starts its candidate at 1 and the test `timeline.index > new_index`
does not move it past the existing index 1. -/
theorem C1_second_white_branch_repeats_index :
    ((Game.new 2 2 [0]).play_all
      [{ piece := PIECES.W_ROOK, from_ := ⟨0, 1, 0, 0⟩, to_ := ⟨0, 1, 1, 0⟩, white := true },
       { piece := PIECES.B_ROOK, from_ := ⟨0, 1, 0, 1⟩, to_ := ⟨0, 1, 1, 1⟩, white := false },
       { piece := PIECES.W_ROOK, from_ := ⟨0, 2, 1, 0⟩, to_ := ⟨0, 1, 0, 0⟩, white := true },
       { piece := PIECES.B_ROOK, from_ := ⟨0, 2, 1, 1⟩, to_ := ⟨0, 2, 0, 1⟩, white := false },
       { piece := PIECES.W_ROOK, from_ := ⟨0, 3, 0, 0⟩, to_ := ⟨0, 1, 0, 0⟩, white := true }]).map
      (fun g => g.timelines.map (fun timeline => timeline.index)) = some [0, 1, 1] := by
  decide

/-- C2 (a branch allocates an index strictly beyond the existing same-sign
indices) fails on the code: in the game seeded with the two starting
timelines 0 and 1, after a white and a black move on timeline 0, a white
move from the present board of timeline 0 to its first board takes the
branch case; the timeline count goes from 2 to 3, and the new timeline gets
index 1, which timeline 1 already has. -/
theorem C2_white_branch_allocates_existing_index :
    ((Game.new 5 5 [0, 1]).play_all
      [{ piece := PIECES.W_KNIGHT, from_ := ⟨0, 1, 1, 0⟩, to_ := ⟨0, 1, 2, 2⟩, white := true },
       { piece := PIECES.B_KNIGHT, from_ := ⟨0, 1, 1, 4⟩, to_ := ⟨0, 1, 2, 2⟩, white := false }]).map
      (fun g =>
        (g.timelines.map (fun timeline => timeline.index),
         (g.get_board 0 4).map (fun b => b.ref) == (g.get_board 0 2).map (fun b => b.ref),
         g.is_present 0 2,
         (g.play PIECES.W_ROOK ⟨0, 2, 0, 0⟩ ⟨0, 1, 0, 3⟩ true).succeeded,
         (g.play PIECES.W_ROOK ⟨0, 2, 0, 0⟩ ⟨0, 1, 0, 3⟩ true).game.timelines.map
           (fun timeline => timeline.index)))
      = some ([0, 1], false, some false, true, [0, 1, 1]) := by
  decide

/-- C3, counterexample: on a fresh 2x2 game `can_move` rejects a rook move
from (0,1,0,0) to (0,1,1,1) (a diagonal), yet `play` with that fully given
origin returns, and the timeline has a second board with the rook on (1,1). -/
theorem C3_counterexample_unchecked_rook_diagonal :
    (Game.new 2 2 [0]).can_move PIECES.W_ROOK ⟨0, 1, 0, 0⟩ ⟨0, 1, 1, 1⟩ true = some false
    ∧ ((Game.new 2 2 [0]).get_board 0 2).isSome = true
    ∧ ((Game.new 2 2 [0]).play PIECES.W_ROOK ⟨0, 1, 0, 0⟩ ⟨0, 1, 1, 1⟩ true).succeeded = true
    ∧ ((Game.new 2 2 [0]).play PIECES.W_ROOK ⟨0, 1, 0, 0⟩ ⟨0, 1, 1, 1⟩ true).game.get 0 3 1 1
        = some PIECES.W_ROOK
    ∧ (((Game.new 2 2 [0]).play PIECES.W_ROOK ⟨0, 1, 0, 0⟩ ⟨0, 1, 1, 1⟩ true).game.timelines.map
        (fun timeline => (timeline.states.length, timeline.moves.length))) = [(2, 1)] := by
  decide

/-- C3, as the code has it: a fully given origin is not validated at all.
For every request whose origin gives both X and Y (neither is -1) and whose
source and target boards exist, `play` returns, whatever `can_move` says
about the move: `from` comes back unchanged, `piece_taken` is the content of
the destination cell of the target board, and the origin timeline has gained
at least one board. -/
theorem C3_full_origin_is_played_unchecked (g : Game) (piece : Int) (from_ to_ : Coord)
    (white : Bool) (src tgt : Board) (hx : from_.x ≠ -1) (hy : from_.y ≠ -1)
    (hs : g.get_board from_.l (from_.t * 2 + notWhite white) = some src)
    (ht : g.get_board to_.l (to_.t * 2 + notWhite white) = some tgt) :
    ∃ g1 tl tl1,
      g.play piece from_ to_ white =
        .returned g1 from_ to_ (tgt.get (to_.x + to_.y * g.width))
      ∧ g.find_timeline from_.l = some tl
      ∧ g1.find_timeline from_.l = some tl1
      ∧ tl.states.length < tl1.states.length := by
  obtain ⟨tl1, h1⟩ := find_of_get_board g _ _ _ hs
  obtain ⟨tl2, h2⟩ := find_of_get_board g _ _ _ ht
  have hplay := play_resolved g piece from_ to_ from_ white src tgt hs ht
    (resolve_origin_full g piece src from_ to_ white hx hy)
  obtain ⟨g1, hg1⟩ := apply_move_returned g piece src tgt from_ to_ white tl1 tl2 h1 h2
  obtain ⟨tl3, h3, hlen⟩ := apply_move_pushes g piece src tgt from_ to_ white tl1 tl2 h1 h2
  rw [hg1] at h3
  exact ⟨g1, tl1, tl3, hplay.trans hg1, h1, h3, hlen⟩

/-- C3, witness: the rook diagonal of the counterexample meets the
hypotheses. -/
theorem C3_full_origin_is_played_unchecked_witness :
    ∃ g1 tl tl1,
      (Game.new 2 2 [0]).play PIECES.W_ROOK ⟨0, 1, 0, 0⟩ ⟨0, 1, 1, 1⟩ true =
        .returned g1 ⟨0, 1, 0, 0⟩ ⟨0, 1, 1, 1⟩
          ((Board.blank 2 2 0).get ((1 : Int) + 1 * ((Game.new 2 2 [0]).width : Int)))
      ∧ (Game.new 2 2 [0]).find_timeline 0 = some tl
      ∧ g1.find_timeline 0 = some tl1
      ∧ tl.states.length < tl1.states.length :=
  C3_full_origin_is_played_unchecked (Game.new 2 2 [0]) PIECES.W_ROOK ⟨0, 1, 0, 0⟩ ⟨0, 1, 1, 1⟩
    true (Board.blank 2 2 0) (Board.blank 2 2 0) (by decide) (by decide) (by decide) (by decide)

/-- C4 (`path_clear` rejects blocked paths) fails on the code: on a 1x3
board whose middle square (0,1) holds a knight in black's view of turn 1,
the two-step move along the y axis from (0,1,0,0) to (0,1,0,2) has a
non-blank interior square, yet `path_clear` returns true, and so `can_move`
accepts the black rook move over the knight.  The displacement (0,0,0,2)
has no negative component, so `[...a].sort()[0]` is 0 and the loop never
runs. -/
theorem C4_path_clear_ignores_blocker_on_positive_axis :
    (((Game.new 1 3 [0]).play PIECES.W_KNIGHT ⟨0, 1, 0, 0⟩ ⟨0, 1, 0, 1⟩ true).game.get_as
        0 1 0 1 false = some PIECES.W_KNIGHT)
    ∧ ((Game.new 1 3 [0]).play PIECES.W_KNIGHT ⟨0, 1, 0, 0⟩ ⟨0, 1, 0, 1⟩ true).game.path_clear
        ⟨0, 1, 0, 0⟩ ⟨0, 1, 0, 2⟩ false = true
    ∧ ((Game.new 1 3 [0]).play PIECES.W_KNIGHT ⟨0, 1, 0, 0⟩ ⟨0, 1, 0, 1⟩ true).game.can_move
        PIECES.B_ROOK ⟨0, 1, 0, 0⟩ ⟨0, 1, 0, 2⟩ false = some true
    ∧ ((Game.new 1 3 [0]).play PIECES.W_KNIGHT ⟨0, 1, 0, 0⟩ ⟨0, 1, 0, 1⟩ true).game.path_clear
        ⟨0, 1, 0, 2⟩ ⟨0, 1, 0, 0⟩ false = false := by
  decide

/-- C5: partial-origin resolution picks the unique legal candidate.  For a
request whose origin omits X and/or Y (value -1), whose origin timeline and
turn equal the destination's, and whose board exists (on a board of
positive width), `play` returns exactly when one and only one square of the
source board is a legal origin (holds `piece`, agrees with the given X / Y,
accepted by `can_move`); when it returns, the returned `from` keeps the
timeline and turn and carries the x and y of that square.  With no legal
origin the call throws "No valid move found", with two or more it throws
"Ambiguous move", the game untouched. -/
theorem C5_partial_origin_unique_candidate (g : Game) (piece : Int) (from_ to_ : Coord)
    (white : Bool) (board : Board) (hw : 0 < g.width)
    (hpart : from_.x = -1 ∨ from_.y = -1) (hl : from_.l = to_.l) (ht : from_.t = to_.t)
    (hs : g.get_board from_.l (from_.t * 2 + notWhite white) = some board) :
    ((g.play piece from_ to_ white).succeeded = true ↔
      ∃! xy : Nat × Nat, LegalOrigin g piece board from_ to_ white xy)
    ∧ (∀ g1 from1 to1 pt, g.play piece from_ to_ white = .returned g1 from1 to1 pt →
        from1.l = from_.l ∧ from1.t = from_.t
        ∧ ∃ xy : Nat × Nat, LegalOrigin g piece board from_ to_ white xy
            ∧ from1.x = (xy.1 : Int) ∧ from1.y = (xy.2 : Int))
    ∧ ((∀ xy : Nat × Nat, ¬ LegalOrigin g piece board from_ to_ white xy) →
        g.play piece from_ to_ white = .threw PlayError.no_valid_move g from_)
    ∧ ((∃ xy xy1 : Nat × Nat, xy ≠ xy1 ∧ LegalOrigin g piece board from_ to_ white xy
          ∧ LegalOrigin g piece board from_ to_ white xy1) →
        g.play piece from_ to_ white = .threw PlayError.ambiguous_move g from_) := by
  have htb : g.get_board to_.l (to_.t * 2 + notWhite white) = some board := by
    rw [← hl, ← ht]; exact hs
  have hret : ∀ g1 from1 to1 pt, g.play piece from_ to_ white = .returned g1 from1 to1 pt →
      ∃ c, g.candidates piece board from_ to_ white = [c]
        ∧ from1 = { from_ with x := ((c.1 % g.width : Nat) : Int),
                               y := ((c.1 / g.width : Nat) : Int) } := by
    intro g1 from1 to1 pt hplay
    obtain ⟨hr, -⟩ :=
      play_returned_inv g piece from_ to_ white g1 from1 to1 pt board board hplay hs htb
    exact (resolve_origin_omitted g piece board from_ to_ white hpart hl ht from1).mp hr
  have hres : ∀ e, g.resolve_origin piece board from_ to_ white = .error e →
      g.play piece from_ to_ white = .threw e g from_ := by
    intro e he
    unfold Game.play
    simp only [hs, htb, he]
  refine ⟨⟨?_, ?_⟩, ?_, ?_, ?_⟩
  · intro hsucc
    cases hplay : g.play piece from_ to_ white with
    | threw e g1 f1 => rw [hplay] at hsucc; cases hsucc
    | returned g1 from1 to1 pt =>
      obtain ⟨c, hc, -⟩ := hret g1 from1 to1 pt hplay
      have hmem : c ∈ g.candidates piece board from_ to_ white := by rw [hc]; simp
      obtain ⟨-, hlegal⟩ := mem_candidates_legal g piece board from_ to_ white hw c hmem
      refine ⟨(c.1 % g.width, c.1 / g.width), hlegal, ?_⟩
      intro xy hxy
      have hin := (legal_origin_iff_mem g piece board from_ to_ white xy hxy.1).mp hxy
      rw [hc, List.mem_singleton] at hin
      obtain ⟨hm, hd⟩ := index_of_square g.width xy.1 xy.2 hxy.1
      rw [← hin]
      simp only
      rw [hm, hd]
  · rintro ⟨xy, hxy, huniq⟩
    have hin := (legal_origin_iff_mem g piece board from_ to_ white xy hxy.1).mp hxy
    have hall : ∀ c ∈ g.candidates piece board from_ to_ white,
        c = (xy.1 + xy.2 * g.width, some piece) := by
      intro c hc
      obtain ⟨hp, hlegal⟩ := mem_candidates_legal g piece board from_ to_ white hw c hc
      have heq := huniq _ hlegal
      obtain ⟨-, hsum⟩ := square_of_index g.width c.1 hw
      have h1 : c.1 % g.width = xy.1 := congrArg Prod.fst heq
      have h2 : c.1 / g.width = xy.2 := congrArg Prod.snd heq
      rw [h1, h2] at hsum
      exact Prod.ext hsum.symm hp
    have hsingle := eq_singleton_of_nodup _ _
      (candidates_nodup g piece board from_ to_ white) hin hall
    have hr := (resolve_origin_omitted g piece board from_ to_ white hpart hl ht _).mpr
      ⟨_, hsingle, rfl⟩
    rw [play_resolved g piece from_ to_ _ white board board hs htb hr]
    obtain ⟨tl1, h1⟩ := find_of_get_board g _ _ _ hs
    obtain ⟨tl2, h2⟩ := find_of_get_board g _ _ _ htb
    obtain ⟨g2, hg2⟩ := apply_move_returned g piece board board
      { l := from_.l, t := from_.t,
        x := (((xy.1 + xy.2 * g.width, some piece) : Nat × Option Int).1 % g.width : Nat),
        y := (((xy.1 + xy.2 * g.width, some piece) : Nat × Option Int).1 / g.width : Nat) }
      to_ white tl1 tl2 h1 h2
    rw [hg2]
    rfl
  · intro g1 from1 to1 pt hplay
    obtain ⟨c, hc, hfrom⟩ := hret g1 from1 to1 pt hplay
    have hmem : c ∈ g.candidates piece board from_ to_ white := by rw [hc]; simp
    obtain ⟨-, hlegal⟩ := mem_candidates_legal g piece board from_ to_ white hw c hmem
    rw [hfrom]
    exact ⟨rfl, rfl, (c.1 % g.width, c.1 / g.width), hlegal, rfl, rfl⟩
  · intro hnone
    apply hres
    have hnil : g.candidates piece board from_ to_ white = [] := by
      rw [List.eq_nil_iff_forall_not_mem]
      intro c hc
      exact hnone _ (mem_candidates_legal g piece board from_ to_ white hw c hc).2
    unfold Game.resolve_origin
    rw [if_pos hpart, if_neg (by simp [hl, ht])]
    simp only [hnil, List.length_nil, gt_iff_lt]
    rfl
  · rintro ⟨xy, xy1, hne, hxy, hxy1⟩
    apply hres
    have hin := (legal_origin_iff_mem g piece board from_ to_ white xy hxy.1).mp hxy
    have hin1 := (legal_origin_iff_mem g piece board from_ to_ white xy1 hxy1.1).mp hxy1
    have hlen : (g.candidates piece board from_ to_ white).length > 1 := by
      by_contra hle
      have hidx : xy.1 + xy.2 * g.width = xy1.1 + xy1.2 * g.width := by
        match hcs : g.candidates piece board from_ to_ white with
        | [] => rw [hcs] at hin; simp at hin
        | [c] =>
          rw [hcs, List.mem_singleton] at hin hin1
          exact congrArg Prod.fst (hin.trans hin1.symm)
        | c :: d :: rest => rw [hcs] at hle; simp at hle
      obtain ⟨hm, hd⟩ := index_of_square g.width xy.1 xy.2 hxy.1
      obtain ⟨hm1, hd1⟩ := index_of_square g.width xy1.1 xy1.2 hxy1.1
      rw [hidx] at hm hd
      exact hne (Prod.ext (hm.symm.trans hm1) (hd.symm.trans hd1))
    unfold Game.resolve_origin
    rw [if_pos hpart, if_neg (by simp [hl, ht])]
    simp only
    rw [if_pos hlen]

/-- C5, witness: on the board after the white rook reached (1,0), the
request "rook to (1,1)" with neither X nor Y given resolves. -/
theorem C5_partial_origin_unique_candidate_witness :
    (0 < demo_one_move.width
      ∧ demo_one_move.get_board 0 (1 * 2 + notWhite false)
          = some { ref := 1, cells := [some 0, some 4, some 0, some 0], props := [] })
    ∧ ((demo_one_move.play PIECES.W_ROOK ⟨0, 1, -1, -1⟩ ⟨0, 1, 1, 1⟩ false).succeeded = true ↔
        ∃! xy : Nat × Nat, LegalOrigin demo_one_move PIECES.W_ROOK
          { ref := 1, cells := [some 0, some 4, some 0, some 0], props := [] }
          ⟨0, 1, -1, -1⟩ ⟨0, 1, 1, 1⟩ false xy) :=
  ⟨⟨by decide, by decide⟩,
    (C5_partial_origin_unique_candidate demo_one_move PIECES.W_ROOK ⟨0, 1, -1, -1⟩ ⟨0, 1, 1, 1⟩
      false { ref := 1, cells := [some 0, some 4, some 0, some 0], props := [] }
      (by decide) (by decide) rfl rfl (by decide)).1⟩

/-- C6: a returned call of `play` in the same-board case (the source and
the target lookup give the same stored board), with the origin as returned
and the destination both on the board and on different squares.  The
mover's timeline gets exactly one new state, appended last; that state has
BLANK on the origin square, `piece` on the destination square and the
content of the source board on every other square; exactly one record, of
kind MOVE, is appended to the timeline's move list; and the returned
`piece_taken` is what the source board held on the destination square. -/
theorem C6_same_board_move (g : Game) (piece : Int) (from_ to_ : Coord) (white : Bool)
    (g1 : Game) (from1 to1 : Coord) (pt : Option Int) (board : Board)
    (hplay : g.play piece from_ to_ white = .returned g1 from1 to1 pt)
    (hs : g.get_board from_.l (from_.t * 2 + notWhite white) = some board)
    (ht : g.get_board to_.l (to_.t * 2 + notWhite white) = some board)
    (hsize : board.cells.length = g.width * g.height)
    (hfrom : g.in_bounds from1.x from1.y) (hto : g.in_bounds to_.x to_.y)
    (hne : from1.x ≠ to_.x ∨ from1.y ≠ to_.y) :
    ∃ tl new_board record,
      g.find_timeline from_.l = some tl
      ∧ g1.find_timeline from_.l =
          some { tl with
            states := tl.states ++ [new_board]
            turn := !tl.turn
            moves := tl.moves ++ [record] }
      ∧ record = { kind := MOVE_KIND.MOVE, piece := piece, from_ := from1, to_ := to_,
                   white := white, piece_taken := pt }
      ∧ new_board.cells.length = board.cells.length
      ∧ new_board.get (from1.x + from1.y * g.width) = some PIECES.BLANK
      ∧ new_board.get (to_.x + to_.y * g.width) = some piece
      ∧ (∀ x y, g.in_bounds x y → ¬ (x = from1.x ∧ y = from1.y) → ¬ (x = to_.x ∧ y = to_.y) →
          new_board.get (x + y * g.width) = board.get (x + y * g.width))
      ∧ pt = board.get (to_.x + to_.y * g.width) := by
  obtain ⟨-, -, hpt, happ, hl, -⟩ :=
    play_returned_inv g piece from_ to_ white g1 from1 to1 pt board board hplay hs ht
  obtain ⟨tl, htl⟩ := find_of_get_board g _ _ _ hs
  have htl1 : g.find_timeline from1.l = some tl := by rw [hl]; exact htl
  rw [apply_move_same g piece board board from1 to_ white tl htl1 rfl] at happ
  have hfi := cell_index_bounds g _ _ hfrom
  have hti := cell_index_bounds g _ _ hto
  rw [← hsize] at hfi hti
  have hlen1 : ((board.copy g.next_ref).set (from1.x + from1.y * g.width)
      PIECES.BLANK).cells.length = board.cells.length :=
    board_set_inside_length (board.copy g.next_ref) _ _ hfi.1 hfi.2
  have hcell : ∀ x y, g.in_bounds x y →
      (((board.copy g.next_ref).set (from1.x + from1.y * g.width) PIECES.BLANK).set
        (to_.x + to_.y * g.width) piece).get (x + y * g.width) =
        if x = to_.x ∧ y = to_.y then some piece
        else if x = from1.x ∧ y = from1.y then some PIECES.BLANK
        else board.get (x + y * g.width) := by
    intro x y hxy
    have hxi := cell_index_bounds g _ _ hxy
    rw [board_get_set_inside _ _ _ _ hti.1 (by rw [hlen1]; exact hti.2),
      board_get_set_inside (board.copy g.next_ref) _ _ _ hfi.1 hfi.2,
      board_get_copy _ _ _ hxi.1]
    by_cases h1 : x = to_.x ∧ y = to_.y
    · rw [if_pos h1, if_pos (by rw [h1.1, h1.2])]
    · rw [if_neg h1, if_neg (fun h => h1 (cell_index_inj g _ _ _ _ hxy hto h))]
      by_cases h2 : x = from1.x ∧ y = from1.y
      · rw [if_pos h2, if_pos (by rw [h2.1, h2.2])]
      · rw [if_neg h2, if_neg (fun h => h2 (cell_index_inj g _ _ _ _ hxy hfrom h))]
  refine ⟨tl, ((board.copy g.next_ref).set (from1.x + from1.y * g.width) PIECES.BLANK).set
      (to_.x + to_.y * g.width) piece, _, htl, ?_, rfl, ?_, ?_, ?_, ?_, hpt⟩
  · cases happ
    rw [← hl]
    unfold Game.find_timeline
    simp only
    rw [find_update_first _ _ _ (push_move_index _), if_pos rfl,
      find_update_first _ _ _ (push_state_index _), if_pos rfl]
    have : g.timelines.find? (fun board => board.index == from1.l) = some tl := htl1
    rw [this, ← hpt]
    rfl
  · rw [board_set_inside_length _ _ _ hti.1 (by rw [hlen1]; exact hti.2), hlen1]
  · rw [hcell _ _ hfrom, if_neg (fun h => hne.elim (fun h1 => h1 h.1) (fun h2 => h2 h.2)),
      if_pos ⟨rfl, rfl⟩]
  · rw [hcell _ _ hto, if_pos ⟨rfl, rfl⟩]
  · intro x y hxy h1 h2
    rw [hcell _ _ hxy, if_neg h2, if_neg h1]

/-- C6, witness: the first white rook move on a fresh 2x2 game. -/
theorem C6_same_board_move_witness :
    ∃ tl new_board record,
      (Game.new 2 2 [0]).find_timeline 0 = some tl
      ∧ demo_one_move.find_timeline 0 =
          some { tl with
            states := tl.states ++ [new_board]
            turn := !tl.turn
            moves := tl.moves ++ [record] }
      ∧ record = { kind := MOVE_KIND.MOVE, piece := PIECES.W_ROOK, from_ := ⟨0, 1, 0, 0⟩,
                   to_ := ⟨0, 1, 1, 0⟩, white := true, piece_taken := some 0 }
      ∧ new_board.cells.length = (Board.blank 2 2 0).cells.length
      ∧ new_board.get ((0 : Int) + 0 * ((Game.new 2 2 [0]).width : Int)) = some PIECES.BLANK
      ∧ new_board.get ((1 : Int) + 0 * ((Game.new 2 2 [0]).width : Int)) = some PIECES.W_ROOK
      ∧ (∀ x y, (Game.new 2 2 [0]).in_bounds x y →
          ¬ (x = (0 : Int) ∧ y = (0 : Int)) → ¬ (x = (1 : Int) ∧ y = (0 : Int)) →
          new_board.get (x + y * ((Game.new 2 2 [0]).width : Int)) =
            (Board.blank 2 2 0).get (x + y * ((Game.new 2 2 [0]).width : Int)))
      ∧ some (0 : Int) = (Board.blank 2 2 0).get ((1 : Int) + 0 * ((Game.new 2 2 [0]).width : Int)) :=
  C6_same_board_move (Game.new 2 2 [0]) PIECES.W_ROOK ⟨0, 1, 0, 0⟩ ⟨0, 1, 1, 0⟩ true
    demo_one_move ⟨0, 1, 0, 0⟩ ⟨0, 1, 1, 0⟩ (some 0) (Board.blank 2 2 0)
    (by decide) (by decide) (by decide) (by decide)
    ⟨by decide, by decide, by decide, by decide⟩ ⟨by decide, by decide, by decide, by decide⟩
    (Or.inl (by decide))

/-- C7: `play`, whether it returns or throws, never changes or removes a
stored board.  Every board that `get_board(l, p)` returned before the call
is returned unchanged by `get_board(l, p)` after it, and the timeline list
after the call is the list before it, each timeline in place with the same
index and `begins_at` and its earlier states as the first of its states,
possibly followed by new timelines. -/
theorem C7_play_keeps_past_boards (g : Game) (piece : Int) (from_ to_ : Coord) (white : Bool) :
    (∀ l p b, g.get_board l p = some b →
      (g.play piece from_ to_ white).game.get_board l p = some b)
    ∧ timelines_grown g.timelines (g.play piece from_ to_ white).game.timelines :=
  ⟨fun l p b hb => get_board_of_grown g _ (play_grown g piece from_ to_ white) l p b hb,
    play_grown g piece from_ to_ white⟩

/-- C8, counterexample: after a white and a black move timeline 0 holds
three boards; a white move from its first board (turn 1) to its present
board (turn 2) takes the jump case (different boards, `is_present` true),
and both pushes land on timeline 0: the single timeline goes from three
boards to five, so no two timelines gain one board each. -/
theorem C8_counterexample_jump_within_one_timeline :
    ((Game.new 2 2 [0]).play_all
      [{ piece := PIECES.W_ROOK, from_ := ⟨0, 1, 0, 0⟩, to_ := ⟨0, 1, 1, 0⟩, white := true },
       { piece := PIECES.B_ROOK, from_ := ⟨0, 1, 0, 1⟩, to_ := ⟨0, 1, 1, 1⟩, white := false }]).map
      (fun g =>
        (g.timelines.map (fun timeline => timeline.states.length),
         (g.get_board 0 2).map (fun b => b.ref) == (g.get_board 0 4).map (fun b => b.ref),
         g.is_present 0 4,
         (g.play PIECES.W_ROOK ⟨0, 1, 0, 0⟩ ⟨0, 2, 0, 0⟩ true).succeeded,
         (g.play PIECES.W_ROOK ⟨0, 1, 0, 0⟩ ⟨0, 2, 0, 0⟩ true).game.timelines.map
           (fun timeline => timeline.states.length)))
      = some ([3], false, some true, true, [5]) := by
  decide

/-- C8, as the code has it: a returned call of `play` in the jump case
(source and target are different boards and `is_present` reports the target
ply as present) whose origin and destination lie on different timelines
(`from[0] !== to[0]`).  Exactly two timelines gain a state, one each: the
first timeline with the origin index and the first with the destination
index; every other timeline is untouched and the number of timelines is
unchanged. -/
theorem C8_jump_between_two_timelines (g : Game) (piece : Int) (from_ to_ : Coord)
    (white : Bool) (g1 : Game) (from1 to1 : Coord) (pt : Option Int) (src tgt : Board)
    (hplay : g.play piece from_ to_ white = .returned g1 from1 to1 pt)
    (hs : g.get_board from_.l (from_.t * 2 + notWhite white) = some src)
    (ht : g.get_board to_.l (to_.t * 2 + notWhite white) = some tgt)
    (href : src.ref ≠ tgt.ref)
    (hp : g.is_present to_.l (to_.t * 2 + notWhite white) = some true)
    (hl : from_.l ≠ to_.l) :
    g1.timelines.length = g.timelines.length
    ∧ ∃ (i j : Nat) (tl1 tl2 : Timeline) (b1 b2 : Board),
        i ≠ j
        ∧ g.timelines[i]? = some tl1 ∧ tl1.index = from_.l
        ∧ g.timelines[j]? = some tl2 ∧ tl2.index = to_.l
        ∧ (g1.timelines[i]?).map (fun timeline : Timeline => timeline.states) = some (tl1.states ++ [b1])
        ∧ (g1.timelines[j]?).map (fun timeline : Timeline => timeline.states) = some (tl2.states ++ [b2])
        ∧ ∀ k, k ≠ i → k ≠ j → g1.timelines[k]? = g.timelines[k]? := by
  obtain ⟨-, -, -, happ, hl1, -⟩ :=
    play_returned_inv g piece from_ to_ white g1 from1 to1 pt src tgt hplay hs ht
  obtain ⟨tl1, htl1⟩ := find_of_get_board g _ _ _ hs
  obtain ⟨tl2, htl2⟩ := find_of_get_board g _ _ _ ht
  rw [← hl1] at htl1 hl
  rw [apply_move_jump g piece src tgt from1 to_ white tl1 tl2 htl1 htl2 href hp] at happ
  rw [update_first_comm from1.l to_.l hl _ _ (push_move_index _) (push_state_index _),
    update_first_fuse to_.l _ _ (push_state_index _),
    update_first_fuse from1.l _ _ (push_state_index _)] at happ
  obtain ⟨i, j, hij, hi, hj, hset⟩ := update_two_eq_set from1.l to_.l hl
    (fun tl => (tl.push_state ((src.copy g.next_ref).set (from1.x + from1.y * g.width)
      PIECES.BLANK)).push_move
        { kind := MOVE_KIND.JUMP_OUT, piece := piece, from_ := from1, to_ := to_,
          white := white, piece_taken := tgt.get (to_.x + to_.y * g.width) })
    (fun tl => (tl.push_state ((tgt.copy (g.next_ref + 1)).set (to_.x + to_.y * g.width)
      piece)).push_move
        { kind := MOVE_KIND.JUMP_IN, piece := piece, from_ := from1, to_ := to_,
          white := white, piece_taken := tgt.get (to_.x + to_.y * g.width) })
    (fun _ => rfl) g.timelines tl1 tl2 htl1 htl2
  rw [hset] at happ
  cases happ
  have hilt : i < g.timelines.length := by
    by_contra hge
    rw [List.getElem?_eq_none (by omega)] at hi
    cases hi
  have hjlt : j < g.timelines.length := by
    by_contra hge
    rw [List.getElem?_eq_none (by omega)] at hj
    cases hj
  have hidx1 : tl1.index = from1.l := by
    have := List.find?_some htl1
    simpa using this
  have hidx2 : tl2.index = to_.l := by
    have := List.find?_some htl2
    simpa using this
  refine ⟨by simp, i, j, tl1, tl2,
    (src.copy g.next_ref).set (from1.x + from1.y * g.width) PIECES.BLANK,
    (tgt.copy (g.next_ref + 1)).set (to_.x + to_.y * g.width) piece, hij, hi, hidx1.trans hl1, hj, hidx2, ?_, ?_, ?_⟩
  · simp only
    rw [List.getElem?_set_ne (fun h => hij h.symm), List.getElem?_set_self hilt]
    rfl
  · simp only
    rw [List.getElem?_set_self (by simpa using hjlt)]
    rfl
  · intro k hki hkj
    simp only
    rw [List.getElem?_set_ne (fun h => hkj h.symm), List.getElem?_set_ne (fun h => hki h.symm)]

/-- C8, witness: in the game seeded with timelines 0 and 1, a white move
from timeline 0 to the present board of timeline 1. -/
theorem C8_jump_between_two_timelines_witness :
    ((Game.new 2 2 [0, 1]).play PIECES.W_ROOK ⟨0, 1, 0, 0⟩ ⟨1, 1, 0, 0⟩ true).game.timelines.length
      = (Game.new 2 2 [0, 1]).timelines.length
    ∧ ∃ (i j : Nat) (tl1 tl2 : Timeline) (b1 b2 : Board),
        i ≠ j
        ∧ (Game.new 2 2 [0, 1]).timelines[i]? = some tl1 ∧ tl1.index = 0
        ∧ (Game.new 2 2 [0, 1]).timelines[j]? = some tl2 ∧ tl2.index = 1
        ∧ (((Game.new 2 2 [0, 1]).play PIECES.W_ROOK ⟨0, 1, 0, 0⟩ ⟨1, 1, 0, 0⟩
              true).game.timelines[i]?).map (fun timeline : Timeline => timeline.states)
            = some (tl1.states ++ [b1])
        ∧ (((Game.new 2 2 [0, 1]).play PIECES.W_ROOK ⟨0, 1, 0, 0⟩ ⟨1, 1, 0, 0⟩
              true).game.timelines[j]?).map (fun timeline : Timeline => timeline.states)
            = some (tl2.states ++ [b2])
        ∧ ∀ k, k ≠ i → k ≠ j →
            ((Game.new 2 2 [0, 1]).play PIECES.W_ROOK ⟨0, 1, 0, 0⟩ ⟨1, 1, 0, 0⟩
              true).game.timelines[k]? = (Game.new 2 2 [0, 1]).timelines[k]? :=
  C8_jump_between_two_timelines (Game.new 2 2 [0, 1]) PIECES.W_ROOK ⟨0, 1, 0, 0⟩ ⟨1, 1, 0, 0⟩
    true ((Game.new 2 2 [0, 1]).play PIECES.W_ROOK ⟨0, 1, 0, 0⟩ ⟨1, 1, 0, 0⟩ true).game
    ⟨0, 1, 0, 0⟩ ⟨1, 1, 0, 0⟩ (some 0) (Board.blank 2 2 0) (Board.blank 2 2 1)
    (by decide) (by decide) (by decide) (by decide) (by decide) (by decide)

/-- C9: a returned call of `play` in the branch case (source and target
are different boards and the target ply is not the present ply of its
timeline) with the destination square on the board.  The timeline list
after the call is the earlier timelines, in place, followed by one new
timeline; the new timeline has `begins_at = 2*T + (1 if black else 0) + 1`
for the destination turn `T`, holds exactly one state, which has `piece`
on the destination square and the content of the target board on every
other square, and its `turn` is the opponent of the mover. -/
theorem C9_branch_creates_timeline (g : Game) (piece : Int) (from_ to_ : Coord)
    (white : Bool) (g1 : Game) (from1 to1 : Coord) (pt : Option Int) (src tgt : Board)
    (hplay : g.play piece from_ to_ white = .returned g1 from1 to1 pt)
    (hs : g.get_board from_.l (from_.t * 2 + notWhite white) = some src)
    (ht : g.get_board to_.l (to_.t * 2 + notWhite white) = some tgt)
    (href : src.ref ≠ tgt.ref)
    (hp : g.is_present to_.l (to_.t * 2 + notWhite white) ≠ some true)
    (hsize : tgt.cells.length = g.width * g.height)
    (hto : g.in_bounds to_.x to_.y) :
    ∃ (kept : List Timeline) (new_timeline : Timeline) (new_board : Board),
      g1.timelines = kept ++ [new_timeline]
      ∧ List.Forall₂ (fun tl tl1 => tl1.grown_from tl) g.timelines kept
      ∧ new_timeline.begins_at = 2 * to_.t + (if white then 0 else 1) + 1
      ∧ new_timeline.states = [new_board]
      ∧ new_timeline.turn = !white
      ∧ new_board.cells.length = tgt.cells.length
      ∧ new_board.get (to_.x + to_.y * g.width) = some piece
      ∧ ∀ x y, g.in_bounds x y → ¬ (x = to_.x ∧ y = to_.y) →
          new_board.get (x + y * g.width) = tgt.get (x + y * g.width) := by
  obtain ⟨-, -, -, happ, hl1, -⟩ :=
    play_returned_inv g piece from_ to_ white g1 from1 to1 pt src tgt hplay hs ht
  obtain ⟨tl1, htl1⟩ := find_of_get_board g _ _ _ hs
  rw [← hl1] at htl1
  rw [apply_move_branch g piece src tgt from1 to_ white tl1 htl1 href hp] at happ
  obtain ⟨a1, hsplit, ha1⟩ := update_first_append_singleton (new_index g.timelines white)
    (fun timeline => timeline.push_move
      { kind := MOVE_KIND.JUMP_IN, piece := piece, from_ := from1, to_ := to_,
        white := white, piece_taken := tgt.get (to_.x + to_.y * g.width) })
    (update_first from1.l
      (fun timeline => timeline.push_move
        { kind := MOVE_KIND.JUMP_OUT, piece := piece, from_ := from1, to_ := to_,
          white := white, piece_taken := tgt.get (to_.x + to_.y * g.width) })
      (update_first from1.l
        (fun timeline => timeline.push_state
          ((src.copy g.next_ref).set (from1.x + from1.y * g.width) PIECES.BLANK))
        g.timelines))
    { Timeline.new g.width g.height (new_index g.timelines white)
          (to_.t * 2 + notWhite white + 1) (g.next_ref + 2) with
        turn := !white
        states := [(tgt.copy (g.next_ref + 1)).set (to_.x + to_.y * g.width) piece] }
  rw [hsplit] at happ
  cases happ
  have hti := cell_index_bounds g _ _ hto
  rw [← hsize] at hti
  have hnw : to_.t * 2 + notWhite white + 1 = 2 * to_.t + (if white then 0 else 1) + 1 := by
    unfold notWhite; ring
  refine ⟨_, a1, (tgt.copy (g.next_ref + 1)).set (to_.x + to_.y * g.width) piece, rfl, ?_,
    ?_, ?_, ?_, ?_, ?_, ?_⟩
  · exact forall2_grown_trans
      (forall2_grown_trans (forall2_update_first _ _ (grown_push_state _) _)
        (forall2_update_first _ _ (grown_push_move _) _))
      (forall2_update_first _ _ (grown_push_move _) _)
  · rcases ha1 with h | h <;> rw [h] <;> exact hnw
  · rcases ha1 with h | h
    · rw [h]
    · rw [h]; rfl
  · rcases ha1 with h | h
    · rw [h]
    · rw [h]; rfl
  · exact board_set_inside_length (tgt.copy (g.next_ref + 1)) _ _ hti.1 hti.2
  · rw [board_get_set_inside (tgt.copy (g.next_ref + 1)) _ _ _ hti.1 hti.2, if_pos rfl]
  · intro x y hxy hne
    have hxi := cell_index_bounds g _ _ hxy
    rw [board_get_set_inside (tgt.copy (g.next_ref + 1)) _ _ _ hti.1 hti.2,
      if_neg (fun h => hne (cell_index_inj g _ _ _ _ hxy hto h)), board_get_copy _ _ _ hxi.1]

/-- C9, witness: after a white and a black move, a white rook move from
the present board of timeline 0 back to its first board. -/
theorem C9_branch_creates_timeline_witness :
    ∃ (kept : List Timeline) (new_timeline : Timeline) (new_board : Board),
      (demo_two_moves.play PIECES.W_ROOK ⟨0, 2, 1, 0⟩ ⟨0, 1, 0, 1⟩ true).game.timelines
        = kept ++ [new_timeline]
      ∧ List.Forall₂ (fun tl tl1 => tl1.grown_from tl) demo_two_moves.timelines kept
      ∧ new_timeline.begins_at = 2 * (1 : Int) + (if true then 0 else 1) + 1
      ∧ new_timeline.states = [new_board]
      ∧ new_timeline.turn = !true
      ∧ new_board.cells.length = (Board.blank 2 2 0).cells.length
      ∧ new_board.get ((0 : Int) + 1 * (demo_two_moves.width : Int)) = some PIECES.W_ROOK
      ∧ ∀ x y, demo_two_moves.in_bounds x y → ¬ (x = (0 : Int) ∧ y = (1 : Int)) →
          new_board.get (x + y * (demo_two_moves.width : Int))
            = (Board.blank 2 2 0).get (x + y * (demo_two_moves.width : Int)) :=
  C9_branch_creates_timeline demo_two_moves PIECES.W_ROOK ⟨0, 2, 1, 0⟩ ⟨0, 1, 0, 1⟩ true
    (demo_two_moves.play PIECES.W_ROOK ⟨0, 2, 1, 0⟩ ⟨0, 1, 0, 1⟩ true).game
    ⟨0, 2, 1, 0⟩ ⟨0, 1, 0, 1⟩ (some 0)
    { ref := 2, cells := [some 0, some 4, some 0, some 14], props := [] } (Board.blank 2 2 0)
    (by decide) (by decide) (by decide) (by decide) (by decide) (by decide)
    ⟨by decide, by decide, by decide, by decide⟩

/-- C10: a call of `play` that throws leaves everything as it was: the game
(its timelines with their states, active colours and move lists) and the
caller's `from` are those of before the call, and the error is one of the
five thrown before any change (never "Couldn't push board"). -/
theorem C10_play_failure_changes_nothing (g : Game) (piece : Int) (from_ to_ : Coord)
    (white : Bool) (e : PlayError) (g1 : Game) (from1 : Coord)
    (h : g.play piece from_ to_ white = .threw e g1 from1) :
    g1 = g ∧ from1 = from_ ∧ e ≠ PlayError.couldnt_push_board :=
  play_threw_unchanged g piece from_ to_ white e g1 from1 h

/-- C10, witness: a request on a timeline that does not exist throws and
the game is as before. -/
theorem C10_play_failure_changes_nothing_witness :
    (Game.new 1 1 [0]).play PIECES.W_KING ⟨5, 1, 0, 0⟩ ⟨0, 1, 0, 0⟩ true =
        .threw PlayError.invalid_source_board (Game.new 1 1 [0]) ⟨5, 1, 0, 0⟩
    ∧ (Game.new 1 1 [0] = Game.new 1 1 [0] ∧ (⟨5, 1, 0, 0⟩ : Coord) = ⟨5, 1, 0, 0⟩
      ∧ PlayError.invalid_source_board ≠ PlayError.couldnt_push_board) :=
  ⟨by decide,
    C10_play_failure_changes_nothing (Game.new 1 1 [0]) PIECES.W_KING ⟨5, 1, 0, 0⟩ ⟨0, 1, 0, 0⟩
      true PlayError.invalid_source_board (Game.new 1 1 [0]) ⟨5, 1, 0, 0⟩ (by decide)⟩

/-- C11: the shape table of the sliding pieces.  For every game, colour
flag and from != to, `can_move` for a rook (resp. bishop, unicorn, dragon)
returns true iff exactly 1 (resp. 2, 3, 4) of the four components of
to - from are nonzero, all nonzero components have the same absolute
value, and `path_clear(from, to, white)` is true; and `can_move` for a
queen returns true iff it does for at least one of rook, bishop, unicorn,
dragon of the same colour on the same arguments. -/
theorem C11_sliding_piece_shapes (g : Game) (from_ to_ : Coord) (white : Bool)
    (hne : from_ ≠ to_) :
    ((g.can_move PIECES.W_ROOK from_ to_ white = some true ↔
        n_gonal 1 from_ to_ ∧ g.path_clear from_ to_ white = true)
      ∧ (g.can_move PIECES.B_ROOK from_ to_ white = some true ↔
        n_gonal 1 from_ to_ ∧ g.path_clear from_ to_ white = true))
    ∧ ((g.can_move PIECES.W_BISHOP from_ to_ white = some true ↔
        n_gonal 2 from_ to_ ∧ g.path_clear from_ to_ white = true)
      ∧ (g.can_move PIECES.B_BISHOP from_ to_ white = some true ↔
        n_gonal 2 from_ to_ ∧ g.path_clear from_ to_ white = true))
    ∧ ((g.can_move PIECES.W_UNICORN from_ to_ white = some true ↔
        n_gonal 3 from_ to_ ∧ g.path_clear from_ to_ white = true)
      ∧ (g.can_move PIECES.B_UNICORN from_ to_ white = some true ↔
        n_gonal 3 from_ to_ ∧ g.path_clear from_ to_ white = true))
    ∧ ((g.can_move PIECES.W_DRAGON from_ to_ white = some true ↔
        n_gonal 4 from_ to_ ∧ g.path_clear from_ to_ white = true)
      ∧ (g.can_move PIECES.B_DRAGON from_ to_ white = some true ↔
        n_gonal 4 from_ to_ ∧ g.path_clear from_ to_ white = true))
    ∧ ((g.can_move PIECES.W_QUEEN from_ to_ white = some true ↔
        g.can_move PIECES.W_ROOK from_ to_ white = some true
        ∨ g.can_move PIECES.W_BISHOP from_ to_ white = some true
        ∨ g.can_move PIECES.W_UNICORN from_ to_ white = some true
        ∨ g.can_move PIECES.W_DRAGON from_ to_ white = some true)
      ∧ (g.can_move PIECES.B_QUEEN from_ to_ white = some true ↔
        g.can_move PIECES.B_ROOK from_ to_ white = some true
        ∨ g.can_move PIECES.B_BISHOP from_ to_ white = some true
        ∨ g.can_move PIECES.B_UNICORN from_ to_ white = some true
        ∨ g.can_move PIECES.B_DRAGON from_ to_ white = some true)) := by
  obtain ⟨a0, a1, a2, a3, hs, hperm, h32, h21, h10⟩ := sortedMagnitudes_shape from_ to_
  have h0 := sorted_head_ne_zero from_ to_ hne a0 a1 a2 a3 hperm h32 h21 h10
  have hk : ∀ k, n_gonal k from_ to_ ↔
      ((k = 1 ∧ a1 = 0 ∧ a2 = 0 ∧ a3 = 0)
        ∨ (k = 2 ∧ a0 = a1 ∧ a2 = 0 ∧ a3 = 0)
        ∨ (k = 3 ∧ a0 = a1 ∧ a1 = a2 ∧ a3 = 0)
        ∨ (k = 4 ∧ a0 = a1 ∧ a1 = a2 ∧ a2 = a3)) := fun k =>
    (n_gonal_iff_magnitudes k from_ to_ _ hperm).trans (shape_of_sorted a0 a1 a2 a3 h0 h32 h21 k)
  have hk1 : n_gonal 1 from_ to_ ↔ (a1 = 0 ∧ a2 = 0 ∧ a3 = 0) := by
    rw [hk 1]; simp
  have hk2 : n_gonal 2 from_ to_ ↔ (a0 = a1 ∧ a2 = 0 ∧ a3 = 0) := by
    rw [hk 2]; simp
  have hk3 : n_gonal 3 from_ to_ ↔ (a0 = a1 ∧ a1 = a2 ∧ a3 = 0) := by
    rw [hk 3]; simp
  have hk4 : n_gonal 4 from_ to_ ↔ (a0 = a1 ∧ a1 = a2 ∧ a2 = a3) := by
    rw [hk 4]; simp
  obtain ⟨⟨hwr, hbr⟩, ⟨hwb, hbb⟩, ⟨hwu, hbu⟩, ⟨hwd, hbd⟩, ⟨hwq, hbq⟩⟩ :=
    can_move_sliders g from_ to_ white hne a0 a1 a2 a3 hs
  have hrook : (some (a1 == 0 && a2 == 0 && a3 == 0 && g.path_clear from_ to_ white) = some true
      ↔ n_gonal 1 from_ to_ ∧ g.path_clear from_ to_ white = true) := by
    rw [hk1]
    simp only [Option.some.injEq, Bool.and_eq_true, beq_iff_eq, and_assoc]
  have hbishop : (some (a0 == a1 && a2 == 0 && a3 == 0 && g.path_clear from_ to_ white)
      = some true ↔ n_gonal 2 from_ to_ ∧ g.path_clear from_ to_ white = true) := by
    rw [hk2]
    simp only [Option.some.injEq, Bool.and_eq_true, beq_iff_eq, and_assoc]
  have hunicorn : (some (a0 == a1 && a1 == a2 && a3 == 0 && g.path_clear from_ to_ white)
      = some true ↔ n_gonal 3 from_ to_ ∧ g.path_clear from_ to_ white = true) := by
    rw [hk3]
    simp only [Option.some.injEq, Bool.and_eq_true, beq_iff_eq, and_assoc]
  have hdragon : (some (a0 == a1 && a1 == a2 && a2 == a3 && g.path_clear from_ to_ white)
      = some true ↔ n_gonal 4 from_ to_ ∧ g.path_clear from_ to_ white = true) := by
    rw [hk4]
    simp only [Option.some.injEq, Bool.and_eq_true, beq_iff_eq, and_assoc]
  have hqueen : (some (((a1 == 0 && a2 == 0 && a3 == 0)
            || (a0 == a1 && a2 == 0 && a3 == 0)
            || (a0 == a1 && a1 == a2 && a3 == 0)
            || (a0 == a1 && a1 == a2 && a2 == a3))
          && g.path_clear from_ to_ white) = some true ↔
      some (a1 == 0 && a2 == 0 && a3 == 0 && g.path_clear from_ to_ white) = some true
      ∨ some (a0 == a1 && a2 == 0 && a3 == 0 && g.path_clear from_ to_ white) = some true
      ∨ some (a0 == a1 && a1 == a2 && a3 == 0 && g.path_clear from_ to_ white) = some true
      ∨ some (a0 == a1 && a1 == a2 && a2 == a3 && g.path_clear from_ to_ white) = some true) := by
    have hq : ∀ r b u d pc : Bool,
        (some ((r || b || u || d) && pc) = some true ↔
          some (r && pc) = some true ∨ some (b && pc) = some true
          ∨ some (u && pc) = some true ∨ some (d && pc) = some true) := by
      intro r b u d pc
      cases r <;> cases b <;> cases u <;> cases d <;> cases pc <;> simp
    exact hq _ _ _ _ _
  refine ⟨⟨?_, ?_⟩, ⟨?_, ?_⟩, ⟨?_, ?_⟩, ⟨?_, ?_⟩, ⟨?_, ?_⟩⟩
  · rw [hwr]; exact hrook
  · rw [hbr]; exact hrook
  · rw [hwb]; exact hbishop
  · rw [hbb]; exact hbishop
  · rw [hwu]; exact hunicorn
  · rw [hbu]; exact hunicorn
  · rw [hwd]; exact hdragon
  · rw [hbd]; exact hdragon
  · rw [hwq, hwr, hwb, hwu, hwd]; exact hqueen
  · rw [hbq, hbr, hbb, hbu, hbd]; exact hqueen

/-- C11, witness: a rook step along the x axis on a fresh 2x2 board. -/
theorem C11_sliding_piece_shapes_witness :
    ((⟨0, 1, 0, 0⟩ : Coord) ≠ ⟨0, 1, 1, 0⟩)
    ∧ ((Game.new 2 2 [0]).can_move PIECES.W_ROOK ⟨0, 1, 0, 0⟩ ⟨0, 1, 1, 0⟩ true = some true ↔
        n_gonal 1 ⟨0, 1, 0, 0⟩ ⟨0, 1, 1, 0⟩
        ∧ (Game.new 2 2 [0]).path_clear ⟨0, 1, 0, 0⟩ ⟨0, 1, 1, 0⟩ true = true) :=
  ⟨by decide,
    (C11_sliding_piece_shapes (Game.new 2 2 [0]) ⟨0, 1, 0, 0⟩ ⟨0, 1, 1, 0⟩ true
      (by decide)).1.1⟩

/-- C12, counterexample to its last sentence: on a 5x5 board where, in
white's view of turn 2, the square (4,2) is blank but the destination (4,3)
holds a black pawn, the white pawn's double step from (0,2,4,1) to
(0,2,4,3) is rejected although (0,2,4,2) is blank. -/
theorem C12_counterexample_double_step_onto_piece :
    ((Game.new 5 5 [0]).play_all
      [{ piece := PIECES.W_PAWN, from_ := ⟨0, 1, 0, 1⟩, to_ := ⟨0, 1, 0, 2⟩, white := true },
       { piece := PIECES.B_PAWN, from_ := ⟨0, 1, 4, 4⟩, to_ := ⟨0, 1, 4, 3⟩, white := false }]).map
      (fun g =>
        (g.get_as 0 2 4 2 true, g.get_as 0 2 4 3 true,
         g.can_move PIECES.W_PAWN ⟨0, 2, 4, 1⟩ ⟨0, 2, 4, 3⟩ true))
      = some (some PIECES.BLANK, some PIECES.B_PAWN, some false) := by
  decide

/-- C12, as the code has it: ordinary (single-board) pawn legality.  For a
white pawn and a move with dL = dT = 0 and from != to, `can_move` returns
true iff either the destination square (read with `get_as`) is BLANK,
dX = 0 and (dY = +1, or dY = +2 and the square (to.X, to.Y - 1) of the same
board is BLANK), or the destination square is not BLANK, dX is +1 or -1 and
dY = +1; for a black pawn the same with dY = -1 / -2 and the intervening
square (to.X, to.Y + 1).  In particular the white double step from
(0,2,4,1) to (0,2,4,3) onto a blank destination is legal exactly when
(0,2,4,2) is blank. -/
theorem C12_ordinary_pawn_moves (g : Game) (from_ to_ : Coord) (white : Bool)
    (hl : from_.l = to_.l) (ht : from_.t = to_.t) (hne : from_ ≠ to_) :
    (g.can_move PIECES.W_PAWN from_ to_ white = some true ↔
      (g.get_as to_.l to_.t to_.x to_.y white = some PIECES.BLANK
        ∧ to_.x - from_.x = 0
        ∧ (to_.y - from_.y = 1
          ∨ (to_.y - from_.y = 2
            ∧ g.get_as to_.l to_.t to_.x (to_.y - 1) white = some PIECES.BLANK)))
      ∨ (g.get_as to_.l to_.t to_.x to_.y white ≠ some PIECES.BLANK
        ∧ (to_.x - from_.x = 1 ∨ to_.x - from_.x = -1)
        ∧ to_.y - from_.y = 1))
    ∧ (g.can_move PIECES.B_PAWN from_ to_ white = some true ↔
      (g.get_as to_.l to_.t to_.x to_.y white = some PIECES.BLANK
        ∧ to_.x - from_.x = 0
        ∧ (to_.y - from_.y = -1
          ∨ (to_.y - from_.y = -2
            ∧ g.get_as to_.l to_.t to_.x (to_.y + 1) white = some PIECES.BLANK)))
      ∨ (g.get_as to_.l to_.t to_.x to_.y white ≠ some PIECES.BLANK
        ∧ (to_.x - from_.x = 1 ∨ to_.x - from_.x = -1)
        ∧ to_.y - from_.y = -1))
    ∧ (g.get_as 0 2 4 3 white = some PIECES.BLANK →
        (g.can_move PIECES.W_PAWN ⟨0, 2, 4, 1⟩ ⟨0, 2, 4, 3⟩ white = some true ↔
          g.get_as 0 2 4 2 white = some PIECES.BLANK)) := by
  refine ⟨white_pawn_same_board g from_ to_ white hl ht hne,
    black_pawn_same_board g from_ to_ white hl ht hne, ?_⟩
  intro hdest
  rw [white_pawn_same_board g ⟨0, 2, 4, 1⟩ ⟨0, 2, 4, 3⟩ white rfl rfl (by decide)]
  simp only [hdest, ne_eq, not_true_eq_false, false_and, or_false, true_and]
  norm_num

/-- C12, witness: a white pawn one step up the file on a fresh 5x5 board. -/
theorem C12_ordinary_pawn_moves_witness :
    ((Game.new 5 5 [0]).can_move PIECES.W_PAWN ⟨0, 1, 4, 1⟩ ⟨0, 1, 4, 2⟩ true = some true ↔
      ((Game.new 5 5 [0]).get_as 0 1 4 2 true = some PIECES.BLANK
        ∧ (4 : Int) - 4 = 0
        ∧ ((2 : Int) - 1 = 1
          ∨ ((2 : Int) - 1 = 2
            ∧ (Game.new 5 5 [0]).get_as 0 1 4 (2 - 1) true = some PIECES.BLANK)))
      ∨ ((Game.new 5 5 [0]).get_as 0 1 4 2 true ≠ some PIECES.BLANK
        ∧ ((4 : Int) - 4 = 1 ∨ (4 : Int) - 4 = -1)
        ∧ (2 : Int) - 1 = 1)) :=
  (C12_ordinary_pawn_moves (Game.new 5 5 [0]) ⟨0, 1, 4, 1⟩ ⟨0, 1, 4, 2⟩ true rfl rfl
    (by decide)).1

/-- C13, counterexample: after a white and a black move on a 2x2 board,
the white view of turn 2 exists and its square (0,0) is blank, yet the
white pawn step from (0,1,0,0) to (0,2,0,0) (dL = 0, dT = +1, dX = dY = 0)
is rejected. -/
theorem C13_counterexample_turn_step_rejected :
    demo_two_moves.get_as 0 2 0 0 true = some PIECES.BLANK
    ∧ demo_two_moves.can_move PIECES.W_PAWN ⟨0, 1, 0, 0⟩ ⟨0, 2, 0, 0⟩ true = some false := by
  decide

/-- C13, as the code has it: a white pawn has no non-capturing step along
the turn axis.  For every from, to with dT = +1 whose destination square is
BLANK, in particular for dL = 0, dT = +1, dX = dY = 0,
`can_move(W_PAWN, from, to, white)` returns false: both alternatives of the
non-capturing family require `from[1] === to[1]`. -/
theorem C13_white_pawn_turn_step_is_illegal (g : Game) (from_ to_ : Coord) (white : Bool)
    (ht : to_.t - from_.t = 1)
    (hdest : g.get_as to_.l to_.t to_.x to_.y white = some PIECES.BLANK) :
    g.can_move PIECES.W_PAWN from_ to_ white = some false := by
  have hne : from_ ≠ to_ := by
    intro h
    rw [h] at ht
    omega
  rw [can_move_white_pawn g from_ to_ white hne]
  have h1 : (from_.t == to_.t) = false := by
    rw [beq_eq_false_iff_ne]; omega
  simp [hdest, h1]

/-- C13, witness: the step of the counterexample meets the hypotheses. -/
theorem C13_white_pawn_turn_step_is_illegal_witness :
    demo_two_moves.get_as 0 2 0 0 true = some PIECES.BLANK
    ∧ demo_two_moves.can_move PIECES.W_PAWN ⟨0, 1, 0, 0⟩ ⟨0, 2, 0, 0⟩ true = some false :=
  ⟨by decide,
    C13_white_pawn_turn_step_is_illegal demo_two_moves ⟨0, 1, 0, 0⟩ ⟨0, 2, 0, 0⟩ true
      (by decide) (by decide)⟩

/-- C14, counterexample: with timelines 0 and 1, after a white and a black
move on timeline 1 the square (1,1) of timeline 1 holds a black rook in
white's view of turn 2; the white pawn move from (0,1,1,1) to (1,2,1,1)
(dL = +1, dT = +1, dX = dY = 0) onto it is rejected. -/
theorem C14_counterexample_forward_branching_capture :
    ((Game.new 2 2 [0, 1]).play_all
      [{ piece := PIECES.W_ROOK, from_ := ⟨1, 1, 0, 0⟩, to_ := ⟨1, 1, 1, 0⟩, white := true },
       { piece := PIECES.B_ROOK, from_ := ⟨1, 1, 0, 1⟩, to_ := ⟨1, 1, 1, 1⟩, white := false }]).map
      (fun g =>
        (g.get_as 1 2 1 1 true,
         g.can_move PIECES.W_PAWN ⟨0, 1, 1, 1⟩ ⟨1, 2, 1, 1⟩ true))
      = some (some PIECES.B_ROOK, some false) := by
  decide

/-- C14, as the code has it: the pawn's branching capture goes one turn
back for both colours.  For a white pawn and every from, to with dL = +1,
dT = -1, dX = dY = 0 whose destination square is not BLANK, `can_move`
returns true; for a black pawn the move dL = -1, dT = -1, dX = dY = 0 onto
a square that is not BLANK returns true. -/
theorem C14_pawn_branching_capture (g : Game) (from_ to_ : Coord) (white : Bool)
    (ht : to_.t - from_.t = -1) (hx : to_.x - from_.x = 0) (hy : to_.y - from_.y = 0)
    (hdest : g.get_as to_.l to_.t to_.x to_.y white ≠ some PIECES.BLANK) :
    (to_.l - from_.l = 1 → g.can_move PIECES.W_PAWN from_ to_ white = some true)
    ∧ (to_.l - from_.l = -1 → g.can_move PIECES.B_PAWN from_ to_ white = some true) := by
  have hne : from_ ≠ to_ := by
    intro h
    rw [h] at ht
    omega
  have hb : (g.get_as to_.l to_.t to_.x to_.y white != some PIECES.BLANK) = true := by
    simpa using hdest
  have h2 : (from_.t == to_.t + 1) = true := by rw [beq_iff_eq]; omega
  have h3 : (from_.x == to_.x) = true := by rw [beq_iff_eq]; omega
  have h4 : (from_.y == to_.y) = true := by rw [beq_iff_eq]; omega
  constructor
  · intro hl
    have h1 : (from_.l == to_.l - 1) = true := by rw [beq_iff_eq]; omega
    rw [can_move_white_pawn g from_ to_ white hne, if_pos hb, h1, h2, h3, h4]
    simp
  · intro hl
    have h1 : (from_.l == to_.l + 1) = true := by rw [beq_iff_eq]; omega
    rw [can_move_black_pawn g from_ to_ white hne, if_pos hb, h1, h2, h3, h4]
    simp

/-- C14, witness: from turn 3 of timeline 0 a white pawn captures the black
rook on (1,1) of timeline 1 at turn 2, and the mirrored black move. -/
theorem C14_pawn_branching_capture_witness :
    demo_other_timeline.get_as 1 2 1 1 true ≠ some PIECES.BLANK
    ∧ (((1 : Int) - 0 = 1 →
        demo_other_timeline.can_move PIECES.W_PAWN ⟨0, 3, 1, 1⟩ ⟨1, 2, 1, 1⟩ true = some true)
      ∧ ((1 : Int) - 0 = -1 →
        demo_other_timeline.can_move PIECES.B_PAWN ⟨0, 3, 1, 1⟩ ⟨1, 2, 1, 1⟩ true = some true)) :=
  ⟨by decide,
    C14_pawn_branching_capture demo_other_timeline ⟨0, 3, 1, 1⟩ ⟨1, 2, 1, 1⟩ true
      (by decide) (by decide) (by decide) (by decide)⟩

/-- C15: the knight's shape.  For every game, colour flag and from, to,
`can_move` for a knight returns true iff the four absolute displacement
magnitudes, sorted descending, are exactly (2, 1, 0, 0), whatever the
boards hold and whichever axes carry the 2 and the 1; so
(0,2,1,0) -> (0,2,2,2) is legal and (0,2,1,0) -> (0,2,3,3) is not. -/
theorem C15_knight_shape (g : Game) (from_ to_ : Coord) (white : Bool) :
    (g.can_move PIECES.W_KNIGHT from_ to_ white = some true ↔
      magnitudes_descending from_ to_ = [2, 1, 0, 0])
    ∧ (g.can_move PIECES.B_KNIGHT from_ to_ white = some true ↔
      magnitudes_descending from_ to_ = [2, 1, 0, 0])
    ∧ g.can_move PIECES.W_KNIGHT ⟨0, 2, 1, 0⟩ ⟨0, 2, 2, 2⟩ white = some true
    ∧ g.can_move PIECES.W_KNIGHT ⟨0, 2, 1, 0⟩ ⟨0, 2, 3, 3⟩ white = some false := by
  have hgen : ∀ f t : Coord,
      (g.can_move PIECES.W_KNIGHT f t white = some true ↔
        magnitudes_descending f t = [2, 1, 0, 0])
      ∧ (g.can_move PIECES.B_KNIGHT f t white = some true ↔
        magnitudes_descending f t = [2, 1, 0, 0]) := by
    intro f t
    by_cases hne : f = t
    · subst hne
      have hw : g.can_move PIECES.W_KNIGHT f f white = some false := by
        unfold Game.can_move
        rw [if_pos ⟨rfl, rfl, rfl, rfl⟩]
      have hb : g.can_move PIECES.B_KNIGHT f f white = some false := by
        unfold Game.can_move
        rw [if_pos ⟨rfl, rfl, rfl, rfl⟩]
      have hm : magnitudes_descending f f ≠ [2, 1, 0, 0] := by
        unfold magnitudes_descending displacement
        simp only [sub_self, List.map_cons, List.map_nil, Int.natAbs_zero, Nat.cast_zero]
        decide
      rw [hw, hb]
      simp [hm]
    · obtain ⟨a0, a1, a2, a3, hs, -⟩ := sortedMagnitudes_shape f t
      obtain ⟨hw, hb⟩ := can_move_knights g f t white hne a0 a1 a2 a3 hs
      have hiff : (some (a0 == 2 && a1 == 1 && a2 == 0 && a3 == 0) = some true ↔
          magnitudes_descending f t = [2, 1, 0, 0]) := by
        have h1 : (some (a0 == 2 && a1 == 1 && a2 == 0 && a3 == 0) = some true ↔
            sortedMagnitudes f t = [2, 1, 0, 0]) := by
          rw [hs]
          simp only [Option.some.injEq, Bool.and_eq_true, beq_iff_eq, List.cons.injEq,
            and_true, and_assoc]
        rw [h1]
        exact knight_sort_agrees _ _ _ _
      constructor
      · rw [hw]; exact hiff
      · rw [hb]; exact hiff
  refine ⟨(hgen from_ to_).1, (hgen from_ to_).2, ?_, ?_⟩
  · rw [(hgen ⟨0, 2, 1, 0⟩ ⟨0, 2, 2, 2⟩).1]
    decide
  · obtain ⟨a0, a1, a2, a3, hs, -⟩ := sortedMagnitudes_shape ⟨0, 2, 1, 0⟩ ⟨0, 2, 3, 3⟩
    rw [(can_move_knights g ⟨0, 2, 1, 0⟩ ⟨0, 2, 3, 3⟩ white (by decide) a0 a1 a2 a3 hs).1]
    have hval : sortedMagnitudes ⟨0, 2, 1, 0⟩ ⟨0, 2, 3, 3⟩ = [3, 2, 0, 0] := by decide
    rw [hval] at hs
    cases hs
    decide

/-- C16, counterexample: on a 2x2 board whose square (0,1) holds a rook,
`get(0, 3, 2, 0)` and `get_as(0, 1, 2, 0, false)` are called with x = 2
outside [0, 2) and return the rook of square (0,1). -/
theorem C16_counterexample_read_wraps_to_next_rank :
    ((Game.new 2 2 [0]).play PIECES.W_ROOK ⟨0, 1, 0, 0⟩ ⟨0, 1, 0, 1⟩ true).game.get 0 3 0 1
        = some PIECES.W_ROOK
    ∧ ((Game.new 2 2 [0]).play PIECES.W_ROOK ⟨0, 1, 0, 0⟩ ⟨0, 1, 0, 1⟩ true).game.get 0 3 2 0
        = some PIECES.W_ROOK
    ∧ ((Game.new 2 2 [0]).play PIECES.W_ROOK ⟨0, 1, 0, 0⟩ ⟨0, 1, 0, 1⟩ true).game.get_as 0 1 2 0
        false = some PIECES.W_ROOK := by
  decide

/-- C16, as the code has it: reads are checked against the array, not the
grid.  `get(l, t, x, y)` and `get_as(l, t, x, y, white)` return element
`x + y * width` of the board array; on an existing board of width*height
cells, none of them a hole, and without extra properties, they yield no
piece value exactly when `x + y * width` lies outside [0, width*height).
An out-of-grid (x, y) whose linear index is inside the array returns the
content of that cell. -/
theorem C16_reads_are_bounded_by_the_array (g : Game) (b : Board)
    (hlen : b.cells.length = g.width * g.height)
    (hfull : ∀ c ∈ b.cells, c ≠ none) (hprops : b.props = []) (l t x y : Int) (white : Bool) :
    (g.get_board l t = some b →
      g.get l t x y = b.get (x + y * g.width)
      ∧ (g.get l t x y = none ↔
          (x + y * g.width < 0 ∨ ((g.width * g.height : Nat) : Int) ≤ x + y * g.width)))
    ∧ (g.get_board_as l t white = some b →
      g.get_as l t x y white = b.get (x + y * g.width)
      ∧ (g.get_as l t x y white = none ↔
          (x + y * g.width < 0 ∨ ((g.width * g.height : Nat) : Int) ≤ x + y * g.width))) := by
  constructor
  · intro hb
    have h : g.get l t x y = b.get (x + y * g.width) := by
      unfold Game.get
      rw [hb]
    exact ⟨h, by rw [h]; exact board_get_none_iff b _ hlen hfull hprops _⟩
  · intro hb
    have h : g.get_as l t x y white = b.get (x + y * g.width) := by
      unfold Game.get_as
      rw [hb]
    exact ⟨h, by rw [h]; exact board_get_none_iff b _ hlen hfull hprops _⟩

/-- C16, witness: the fresh 2x2 board read at x = 2, y = 0. -/
theorem C16_reads_are_bounded_by_the_array_witness :
    (Game.new 2 2 [0]).get_board 0 2 = some (Board.blank 2 2 0)
    ∧ (Game.new 2 2 [0]).get 0 2 2 0
        = (Board.blank 2 2 0).get ((2 : Int) + 0 * ((Game.new 2 2 [0]).width : Int))
    ∧ ((Game.new 2 2 [0]).get 0 2 2 0 = none ↔
        ((2 : Int) + 0 * ((Game.new 2 2 [0]).width : Int) < 0
          ∨ (((Game.new 2 2 [0]).width * (Game.new 2 2 [0]).height : Nat) : Int)
              ≤ (2 : Int) + 0 * ((Game.new 2 2 [0]).width : Int))) :=
  ⟨by decide,
    (C16_reads_are_bounded_by_the_array (Game.new 2 2 [0]) (Board.blank 2 2 0) (by decide)
      (by decide) (by decide) 0 2 2 0 true).1 (by decide)⟩

/-- C17: a returned call of `play` in the same-board case (the source and
the target lookup give the same stored board) touches one timeline only.
The number of timelines is unchanged; the mover's timeline (the first with
index `from[0]`) keeps its place, its index and its `begins_at`; every
other timeline is exactly as before (states, `begins_at`, active colour,
move list). -/
theorem C17_same_board_move_frame (g : Game) (piece : Int) (from_ to_ : Coord) (white : Bool)
    (g1 : Game) (from1 to1 : Coord) (pt : Option Int) (board : Board)
    (hplay : g.play piece from_ to_ white = .returned g1 from1 to1 pt)
    (hs : g.get_board from_.l (from_.t * 2 + notWhite white) = some board)
    (ht : g.get_board to_.l (to_.t * 2 + notWhite white) = some board) :
    g1.timelines.length = g.timelines.length
    ∧ ∃ (i : Nat) (tl tl1 : Timeline),
        g.find_timeline from_.l = some tl
        ∧ g.timelines[i]? = some tl
        ∧ g1.timelines[i]? = some tl1
        ∧ tl1.index = tl.index ∧ tl1.begins_at = tl.begins_at
        ∧ ∀ k, k ≠ i → g1.timelines[k]? = g.timelines[k]? := by
  obtain ⟨-, -, -, happ, hl, -⟩ :=
    play_returned_inv g piece from_ to_ white g1 from1 to1 pt board board hplay hs ht
  obtain ⟨tl, htl⟩ := find_of_get_board g _ _ _ hs
  have htl1 : g.find_timeline from1.l = some tl := by rw [hl]; exact htl
  rw [apply_move_same g piece board board from1 to_ white tl htl1 rfl,
    update_first_fuse from1.l _ _ (push_state_index _)] at happ
  obtain ⟨i, hi, -, hset⟩ := update_first_eq_set from1.l
    (fun tl => (tl.push_state (((board.copy g.next_ref).set (from1.x + from1.y * g.width)
      PIECES.BLANK).set (to_.x + to_.y * g.width) piece)).push_move
        { kind := MOVE_KIND.MOVE, piece := piece, from_ := from1, to_ := to_,
          white := white, piece_taken := board.get (to_.x + to_.y * g.width) })
    g.timelines tl htl1
  rw [hset] at happ
  cases happ
  have hilt : i < g.timelines.length := by
    by_contra hge
    rw [List.getElem?_eq_none (by omega)] at hi
    cases hi
  refine ⟨by simp, i, tl,
    (tl.push_state (((board.copy g.next_ref).set (from1.x + from1.y * g.width)
      PIECES.BLANK).set (to_.x + to_.y * g.width) piece)).push_move
        { kind := MOVE_KIND.MOVE, piece := piece, from_ := from1, to_ := to_,
          white := white, piece_taken := board.get (to_.x + to_.y * g.width) },
    htl, hi, ?_, rfl, rfl, ?_⟩
  · simp only
    rw [List.getElem?_set_self hilt]
  · intro k hk
    simp only
    rw [List.getElem?_set_ne (fun h => hk h.symm)]

/-- C17, witness: a white rook move on timeline 1 of the game seeded with
timelines 0 and 1. The game has two timelines before and after the call,
the mover is the second one, and the first one (index 0) is the timeline
the frame condition leaves as it was. -/
theorem C17_same_board_move_frame_witness :
    (Game.new 2 2 [0, 1]).timelines.length = 2
    ∧ (Game.new 2 2 [0, 1]).timelines[1]? = (Game.new 2 2 [0, 1]).find_timeline 1
    ∧ demo_move_beside_timeline.timelines[1]? ≠ (Game.new 2 2 [0, 1]).timelines[1]?
    ∧ demo_move_beside_timeline.timelines.length = (Game.new 2 2 [0, 1]).timelines.length
    ∧ ∃ (i : Nat) (tl tl1 : Timeline),
        (Game.new 2 2 [0, 1]).find_timeline 1 = some tl
        ∧ (Game.new 2 2 [0, 1]).timelines[i]? = some tl
        ∧ demo_move_beside_timeline.timelines[i]? = some tl1
        ∧ tl1.index = tl.index ∧ tl1.begins_at = tl.begins_at
        ∧ ∀ k, k ≠ i →
            demo_move_beside_timeline.timelines[k]? = (Game.new 2 2 [0, 1]).timelines[k]? :=
  ⟨by decide, by decide, by decide,
    C17_same_board_move_frame (Game.new 2 2 [0, 1]) PIECES.W_ROOK ⟨1, 1, 0, 0⟩ ⟨1, 1, 1, 0⟩ true
      demo_move_beside_timeline ⟨1, 1, 0, 0⟩ ⟨1, 1, 1, 0⟩ (some 0) (Board.blank 2 2 1)
      (by decide) (by decide) (by decide)⟩

/-- C18, counterexample: in a fresh game the only timeline, index 0, has
active colour white, yet `lowest_active_timeline(false)` and
`highest_active_timeline(false)` return 0: with no black-to-move timeline
the start values `highest_timeline()` / `lowest_timeline()` come back. -/
theorem C18_counterexample_no_timeline_of_colour :
    (Game.new 1 1 [0]).timelines.map (fun timeline => (timeline.index, timeline.active_player))
      = [(0, true)]
    ∧ (Game.new 1 1 [0]).lowest_active_timeline (some false) = .finite 0
    ∧ (Game.new 1 1 [0]).highest_active_timeline (some false) = .finite 0 := by
  decide

/-- C18, as the code has it: for every game with at least one timeline and
every colour c that is the active colour of at least one timeline,
`lowest_active_timeline(c)` returns the index of a timeline whose active
colour is c and no timeline with active colour c has a smaller index
(`highest_active_timeline(c)`: none has a larger index); called with no
colour they return the smallest / largest index over all timelines, that is
`lowest_timeline()` / `highest_timeline()`. -/
theorem C18_active_timeline_queries (g : Game) (c : Bool) (hne : g.timelines ≠ []) :
    ((∃ tl ∈ g.timelines, tl.active_player = c) →
      ∃ tl ∈ g.timelines, tl.active_player = c
        ∧ g.lowest_active_timeline (some c) = .finite tl.index
        ∧ ∀ t ∈ g.timelines, t.active_player = c → tl.index ≤ t.index)
    ∧ ((∃ tl ∈ g.timelines, tl.active_player = c) →
      ∃ tl ∈ g.timelines, tl.active_player = c
        ∧ g.highest_active_timeline (some c) = .finite tl.index
        ∧ ∀ t ∈ g.timelines, t.active_player = c → t.index ≤ tl.index)
    ∧ g.lowest_active_timeline none = g.lowest_timeline
    ∧ g.highest_active_timeline none = g.highest_timeline
    ∧ (∃ tl ∈ g.timelines, g.lowest_timeline = .finite tl.index
        ∧ ∀ t ∈ g.timelines, tl.index ≤ t.index)
    ∧ (∃ tl ∈ g.timelines, g.highest_timeline = .finite tl.index
        ∧ ∀ t ∈ g.timelines, t.index ≤ tl.index) :=
  ⟨lowest_active_colour g c, highest_active_colour g c, lowest_active_any g hne,
    highest_active_any g hne, lowest_timeline_spec g hne, highest_timeline_spec g hne⟩

/-- C18, witness: the game seeded with timelines 0 and 1 after two moves on
timeline 1, asked for white. -/
theorem C18_active_timeline_queries_witness :
    demo_other_timeline.timelines ≠ []
    ∧ demo_other_timeline.lowest_active_timeline none = demo_other_timeline.lowest_timeline
    ∧ demo_other_timeline.highest_active_timeline none = demo_other_timeline.highest_timeline :=
  ⟨by decide,
    (C18_active_timeline_queries demo_other_timeline true (by decide)).2.2.1,
    (C18_active_timeline_queries demo_other_timeline true (by decide)).2.2.2.1⟩

/-- C19, counterexample: the timeline of a fresh game is created with
`begins_at = 2`; after N = 2 boards are pushed onto it `get_last_turn_in`
returns 2, not floor((2 + 2 - 1) / 2) = 1: the constructor has already
stored one state, so the timeline holds three. -/
theorem C19_counterexample_two_pushes :
    ((Game.new 1 1 [0]).push_all 0 [Board.blank 1 1 1, Board.blank 1 1 2]).get_last_turn_in 0
      = some 2
    ∧ ((2 : Int) + 2 - 1) / 2 = 1 := by
  decide

/-- C19, as the code has it: for a timeline created with `begins_at = b`
(b >= 0), which the constructor seeds with one state, onto which N board
states are then pushed with `push_board`, `get_last_turn_in` returns
floor((N + b) / 2), that is floor((states.length + b - 1) / 2), as long as
N + b stays below 2^32 (the range of `~~`). -/
theorem C19_last_turn_after_pushes (g : Game) (l : Int) (width height : Nat) (b : Int)
    (ref : Nat) (boards : List Board)
    (hfind : g.find_timeline l = some (Timeline.new width height l b ref))
    (hb : 0 ≤ b) (hsmall : (boards.length : Int) + b < 4294967296) :
    (g.push_all l boards).get_last_turn_in l = some (((boards.length : Int) + b) / 2) := by
  obtain ⟨tl1, h1, h2, h3⟩ := find_push_all g l boards _ hfind
  unfold Game.get_last_turn_in
  rw [h1]
  simp only [h2, h3, Timeline.new, List.length_singleton]
  have hexp : ((1 + boards.length : Nat) : Int) + b - 1 = (boards.length : Int) + b := by
    push_cast; ring
  rw [hexp, Int.tdiv_eq_ediv (by omega) (by decide), jsToInt32_small _ (by omega) (by omega)]

/-- C19, witness: three boards pushed on the timeline of a fresh game. -/
theorem C19_last_turn_after_pushes_witness :
    ((Game.new 1 1 [0]).push_all 0
        [Board.blank 1 1 1, Board.blank 1 1 2, Board.blank 1 1 3]).get_last_turn_in 0
      = some (((([Board.blank 1 1 1, Board.blank 1 1 2, Board.blank 1 1 3] : List Board).length
          : Int) + 2) / 2) :=
  C19_last_turn_after_pushes (Game.new 1 1 [0]) 0 1 1 2 0
    [Board.blank 1 1 1, Board.blank 1 1 2, Board.blank 1 1 3] (by decide) (by decide) (by decide)

/-- C20: `castle` is a stub.  For every game and every argument tuple it
throws, and the game (timelines, states, active colours, move lists) is as
before the call. -/
theorem C20_castle_always_throws (g : Game) (piece : Int) (from_ : Coord) (long white : Bool) :
    g.castle piece from_ long white = .threw g := rfl

/-- C21, counterexample to its second formulation: after two white
branches from a fresh 2x2 game the timelines have indices 0, 1, 1.  The
third timeline (index 1, one state, `begins_at = 3`, black to move) has
T = 1 and its present board holds the rook on (1,1), but
`get_board_as(1, 1, false)` finds the second timeline and addresses its
board with the rook on (0,0).  The same shadowing needs no branch when the
constructor is given an index twice: in `new Game(1, 1, [0, 0])` the
second timeline's board is another array than the one
`get_board_as(0, 1, true)` returns. -/
theorem C21_counterexample_timeline_behind_equal_index :
    demo_two_branches.map (fun g => g.timelines.map (fun timeline => timeline.index))
      = some [0, 1, 1]
    ∧ demo_two_branches.map (fun g => (g.timelines[2]?).map (fun timeline =>
          (timeline.index, timeline.present_turn, timeline.turn)))
        = some (some (1, 1, false))
    ∧ demo_two_branches.map (fun g => (g.timelines[2]?).bind (fun timeline =>
          timeline.states.getLast?.map (fun b => b.cells)))
        = some (some [some 0, some 0, some 0, some 4])
    ∧ demo_two_branches.map (fun g => (g.get_board_as 1 1 false).map (fun b => b.cells))
        = some (some [some 4, some 0, some 0, some 0])
    ∧ ((Game.new 1 1 [0, 0]).timelines[1]?).map (fun timeline =>
          (timeline.index, timeline.present_turn, timeline.turn))
        = some (0, 1, true)
    ∧ ((Game.new 1 1 [0, 0]).timelines[1]?).bind (fun timeline =>
          timeline.states.getLast?.map (fun b => b.ref)) = some 1
    ∧ ((Game.new 1 1 [0, 0]).get_board_as 0 1 true).map (fun b => b.ref) = some 0 := by
  refine ⟨?_, ?_, ?_, ?_, ?_, ?_, ?_⟩ <;> decide

/-- C21, as the code has it: active colour agrees with ply parity.  In
every game reached from a newly constructed game by any sequence of
`push_board` calls and returning `play` calls, every timeline has its
active colour `turn` white iff `states.length + begins_at` is odd; and for
every timeline that is the one found for its index (the first with that
index), the present (last) board is exactly the board that
`get_board_as(index, T, turn)` addresses for
T = (states.length - 1 + begins_at - (0 if turn is white else 1)) / 2. -/
theorem C21_turn_agrees_with_ply_parity (width height : Nat) (indices : List Int)
    (ops : List GameOp) (g : Game)
    (hrun : (Game.new width height indices).run_ops ops = some g) :
    ∀ tl ∈ g.timelines,
      (tl.turn = true ↔ ((tl.states.length : Int) + tl.begins_at) % 2 = 1)
      ∧ (g.find_timeline tl.index = some tl →
          ∃ board, tl.states.getLast? = some board
            ∧ g.get_board_as tl.index tl.present_turn tl.turn = some board) := by
  intro tl htl
  have hinit : ∀ t ∈ (Game.new width height indices).timelines, t.parity_ok :=
    parity_initial width height 0 indices
  have hp := parity_run_ops _ ops g hinit hrun tl htl
  refine ⟨hp.2, ?_⟩
  intro hfind
  have hlast := present_board_addressed g tl hp hfind
  cases hb : tl.states.getLast? with
  | none =>
    rw [List.getLast?_eq_none_iff] at hb
    exact absurd hb hp.1
  | some board =>
    rw [hb] at hlast
    exact ⟨board, rfl, hlast⟩

/-- C21, witness: the fresh 2x2 game after one white rook move. -/
theorem C21_turn_agrees_with_ply_parity_witness :
    (Game.new 2 2 [0]).run_ops
        [.play { piece := PIECES.W_ROOK, from_ := ⟨0, 1, 0, 0⟩, to_ := ⟨0, 1, 1, 0⟩,
                 white := true }] = some demo_one_move
    ∧ ∀ tl ∈ demo_one_move.timelines,
        (tl.turn = true ↔ ((tl.states.length : Int) + tl.begins_at) % 2 = 1)
        ∧ (demo_one_move.find_timeline tl.index = some tl →
            ∃ board, tl.states.getLast? = some board
              ∧ demo_one_move.get_board_as tl.index tl.present_turn tl.turn = some board) :=
  ⟨by decide,
    C21_turn_agrees_with_ply_parity 2 2 [0]
      [.play { piece := PIECES.W_ROOK, from_ := ⟨0, 1, 0, 0⟩, to_ := ⟨0, 1, 1, 0⟩,
               white := true }] demo_one_move (by decide)⟩

end FiveD
